import Mathlib

/-!
Verification of the sircles read-side database (readdb/readdb.go) against its
natural-language specification.

The Go code maintains a bitemporal graph store inside a relational
transaction.  Every vertex/edge table row carries a start timeline
(start_tl) and an optional end timeline (end_tl, NULL meaning the row is
still open).  We shallowly embed the row model, the temporal predicate
builders, the generic readers and writers, the domain read API and the
event-applier fragments that the claims are about.  SQL queries are modeled
as pure list computations over the in-memory tables; row order of joins is
determinized to the table order (no claim depends on a SQL-level row order
other than the explicit ORDER BY of the role-event feed, which is modeled
explicitly).  Timeline numbers are modeled as Int, ids as Nat; timestamps,
JSON encoding, cursors and the SQL engine itself are modeled by their
effect on results.  Go panics and Go errors are kept distinct through the
DbOutcome type.
-/

namespace Sircles

/-! ## Temporal predicate builders (readdb.go timeLineCond / lastTimeLineCond)

The builders are keyed by (table, tl); they only look at the columns
start_tl and end_tl, so we model them as predicates on those two values.
-/

/-- Fast path of DBService.timeLineCond (readdb.go:190-192): when the
requested timeline equals the cached current timeline the predicate is
just "end_tl IS NULL". -/
def endTlOpenCond (end_tl : Option Int) : Bool :=
  end_tl.isNone

/-- General branch of DBService.timeLineCond (readdb.go:193):
start_tl <= tl AND (end_tl >= tl OR end_tl IS NULL). -/
def generalTimeLineCond (tl : Int) (start_tl : Int) (end_tl : Option Int) : Bool :=
  decide (start_tl ≤ tl) &&
    (match end_tl with
     | some e => decide (e ≥ tl)
     | none => true)

/-- DBService.timeLineCond (readdb.go:189-194): dispatches between the fast
path and the general branch depending on whether tl equals the cached
current timeline. -/
def timeLineCond (curTl tl : Int) (start_tl : Int) (end_tl : Option Int) : Bool :=
  if tl = curTl then endTlOpenCond end_tl
  else generalTimeLineCond tl start_tl end_tl

/-- DBService.lastTimeLineCond (readdb.go:196-201): predicate used by the
close operations.  Fast path "end_tl IS NULL" when tl equals current,
otherwise "end_tl IS NULL AND start_tl <= tl". -/
def lastTimeLineCond (curTl tl : Int) (start_tl : Int) (end_tl : Option Int) : Bool :=
  if tl = curTl then end_tl.isNone
  else end_tl.isNone && decide (start_tl ≤ tl)

/-- Liveness of a row at a timeline, following the spec (section 3.4):
a row is live at t iff start_tl <= t and (end_tl = open or end_tl >= t). -/
def liveAt (t : Int) (start_tl : Int) (end_tl : Option Int) : Bool :=
  decide (start_tl ≤ t) &&
    (match end_tl with
     | some e => decide (e ≥ t)
     | none => true)

/-! ## Rows and tables -/

/-- Row of a vertex table: id, start_tl, end_tl plus the class-specific
attribute columns. -/
structure VRow (α : Type) where
  id : Nat
  start_tl : Int
  end_tl : Option Int
  attrs : α
  deriving Repr, DecidableEq

/-- Row of an edge table: start_tl, end_tl, endpoints x and y plus the
edge-class-specific attribute columns (only the rolemember class has
any). -/
structure ERow (β : Type) where
  start_tl : Int
  end_tl : Option Int
  x : Nat
  y : Nat
  attrs : β
  deriving Repr, DecidableEq

/-- Openness of a vertex row (end_tl IS NULL). -/
def VRow.isOpen {α : Type} (r : VRow α) : Bool := r.end_tl.isNone

/-- Openness of an edge row (end_tl IS NULL). -/
def ERow.isOpen {β : Type} (e : ERow β) : Bool := e.end_tl.isNone

/-- Role types of the Role vertex class (models.RoleType). -/
inductive RoleType where
  | normal
  | circle
  | leadLink
  | repLink
  | secretary
  | facilitator
  deriving Repr, DecidableEq

/-- Core role types (models.RoleType.IsCoreRoleType). -/
def RoleType.isCoreRoleType : RoleType → Bool
  | .leadLink => true
  | .repLink => true
  | .secretary => true
  | .facilitator => true
  | _ => false

/-- Attribute columns of the role table (roletype, depth, name, purpose). -/
structure RoleAttrs where
  roleType : RoleType
  depth : Int
  name : String
  purpose : String
  deriving Repr, DecidableEq

/-- Attribute columns of the domain table. -/
structure DomainAttrs where
  description : String
  deriving Repr, DecidableEq

/-- Attribute columns of the accountability table. -/
structure AccountabilityAttrs where
  description : String
  deriving Repr, DecidableEq

/-- Attribute columns of the roleadditionalcontent table. -/
structure RoleAdditionalContentAttrs where
  content : String
  deriving Repr, DecidableEq

/-- Attribute columns of the member table. -/
structure MemberAttrs where
  isAdmin : Bool
  userName : String
  fullName : String
  email : String
  deriving Repr, DecidableEq

/-- Attribute columns of the memberavatar table. -/
structure MemberAvatarAttrs where
  image : String
  deriving Repr, DecidableEq

/-- Attribute columns of the tension table. -/
structure TensionAttrs where
  title : String
  description : String
  closed : Bool
  closeReason : String
  deriving Repr, DecidableEq

/-- Attribute columns of the rolemember edge table
(focus, nocoremember, electionexpiration; the expiration timestamp is
modeled as an Int). -/
structure RoleMemberAttrs where
  focus : Option String
  noCoreMember : Bool
  electionExpiration : Option Int
  deriving Repr, DecidableEq

/-- The relational state: one list per vertex table and per edge table,
mirroring the collections required by the spec (section 6).  The timeline,
password, membermatch and roleevent tables are modeled separately where a
claim needs them. -/
structure DB where
  role : List (VRow RoleAttrs)
  domain : List (VRow DomainAttrs)
  accountability : List (VRow AccountabilityAttrs)
  roleadditionalcontent : List (VRow RoleAdditionalContentAttrs)
  member : List (VRow MemberAttrs)
  memberavatar : List (VRow MemberAvatarAttrs)
  tension : List (VRow TensionAttrs)
  rolerole : List (ERow Unit)
  roledomain : List (ERow Unit)
  roleaccountability : List (ERow Unit)
  rolemember : List (ERow RoleMemberAttrs)
  circledirectmember : List (ERow Unit)
  membertension : List (ERow Unit)
  roletension : List (ERow Unit)
  deriving Repr, DecidableEq

/-! ## Generic writers (readdb.go closeVertex / closeEdge / deleteVertex /
deleteEdge / addEdge and the insert helpers)

closeVertex runs
  UPDATE table SET end_tl = endtl WHERE id = id AND lastTimeLineCond(endtl);
closeEdge runs the same keyed by (x, y).  An UPDATE matching no rows is not
an error in SQL, so the functions return the new table unconditionally (the
only error paths in the Go functions are driver failures, which are outside
the model). -/

/-- DBService.closeVertex (readdb.go:621-635) restricted to one table:
sets end_tl = endtl on every row with the requested id that satisfies the
last-timeline predicate. -/
def closeVertexRows {α : Type} (curTl endtl : Int) (id : Nat)
    (table : List (VRow α)) : List (VRow α) :=
  table.map (fun r =>
    if r.id = id ∧ lastTimeLineCond curTl endtl r.start_tl r.end_tl = true then
      { r with end_tl := some endtl }
    else r)

/-- DBService.closeEdge (readdb.go:693-707) restricted to one table:
sets end_tl = endtl on every row with endpoints (x, y) that satisfies the
last-timeline predicate. -/
def closeEdgeRows {β : Type} (curTl endtl : Int) (x y : Nat)
    (table : List (ERow β)) : List (ERow β) :=
  table.map (fun e =>
    if e.x = x ∧ e.y = y ∧ lastTimeLineCond curTl endtl e.start_tl e.end_tl = true then
      { e with end_tl := some endtl }
    else e)

/-- DBService.deleteVertex (readdb.go:660-689): closes the vertex at tl - 1.
The commented-out edge cascade in the source is deliberately not
implemented. -/
def deleteVertexRows {α : Type} (curTl tl : Int) (id : Nat)
    (table : List (VRow α)) : List (VRow α) :=
  closeVertexRows curTl (tl - 1) id table

/-- DBService.deleteEdge (readdb.go:711-713): closes the edge at tl - 1. -/
def deleteEdgeRows {β : Type} (curTl tl : Int) (x y : Nat)
    (table : List (ERow β)) : List (ERow β) :=
  closeEdgeRows curTl (tl - 1) x y table

/-- Insert of a vertex row (insertRole and friends, readdb.go:1166-1269):
INSERT with start_tl = tl and end_tl = NULL; the new row is appended to the
table. -/
def insertVertexRow {α : Type} (tl : Int) (id : Nat) (attrs : α)
    (table : List (VRow α)) : List (VRow α) :=
  table ++ [⟨id, tl, none, attrs⟩]

/-- DBService.addEdge (readdb.go:715-735) restricted to one table:
INSERT with start_tl = tl and end_tl = NULL. -/
def addEdgeRows {β : Type} (tl : Int) (x y : Nat) (attrs : β)
    (table : List (ERow β)) : List (ERow β) :=
  table ++ [⟨tl, none, x, y, attrs⟩]

/-- DBService.updateVertex (readdb.go:646-654) restricted to one table:
closeVertex at tl - 1 followed by insertVertex at tl. -/
def updateVertexRows {α : Type} (curTl tl : Int) (id : Nat) (attrs : α)
    (table : List (VRow α)) : List (VRow α) :=
  insertVertexRow tl id attrs (closeVertexRows curTl (tl - 1) id table)

/-! ## Model of the SQL LIKE operator and of lower()

MembersInternal (readdb.go:1735-1756) builds its search condition by
interpolating the raw search string into the SQL text
  lower(member.fullname) LIKE lower(PERCENT search PERCENT)
via fmt.Sprintf.  The database then evaluates LIKE, in which the percent
sign matches any character sequence and the underscore matches exactly one
character.  likeMatchFuel embeds that matching semantics (the fuel argument
only makes the recursion structural; likeMatch always supplies enough). -/

/-- Matching of a LIKE pattern against a text, both as character lists.
Percent matches any sequence, underscore matches one character, every
other pattern character matches itself. -/
def likeMatchFuel : Nat → List Char → List Char → Bool
  | _, [], [] => true
  | _, [], _ :: _ => false
  | 0, _ :: _, _ => false
  | f + 1, p :: ps, t =>
    if p = '%' then
      likeMatchFuel f ps t ||
        (match t with
         | [] => false
         | _ :: ts => likeMatchFuel f (p :: ps) ts)
    else
      match t with
      | [] => false
      | c :: ts => (p = '_' || p = c) && likeMatchFuel f ps ts

/-- LIKE matching with adequate fuel. -/
def likeMatch (p t : List Char) : Bool :=
  likeMatchFuel (p.length + t.length) p t

/-- Model of the SQL lower() function (the Go code wraps both the column
and the pattern in lower()). -/
def lowerStr (s : String) : String := ⟨s.data.map Char.toLower⟩

/-- Evaluation of the interpolated search condition of MembersInternal on
one member row: the pattern is the percent-wrapped raw search string, and
a row matches if either lower(fullname) or lower(username) matches. -/
def membersSearchMatches (search fullName userName : String) : Bool :=
  likeMatch (lowerStr ("%" ++ search ++ "%")).data (lowerStr fullName).data ||
    likeMatch (lowerStr ("%" ++ search ++ "%")).data (lowerStr userName).data

/-! ## Generic readers (readdb.go vertices / connectedVertices /
verticesFiltered / CheckBrokenEdges) -/

/-- Outcome of a reader or writer call.  Go panics (runtime aborts) are kept
distinct from returned errors. -/
inductive DbOutcome (α : Type) where
  | panicked (msg : String)
  | failed (msg : String)
  | ok (v : α)
  deriving Repr, DecidableEq

/-- Coercion of a Go error return into an outcome: a function body that can
only return a value or an error never panics. -/
def ofExcept {α : Type} : Except String α → DbOutcome α
  | .error m => .failed m
  | .ok v => .ok v

/-- Message of the tl <= 0 programming-error panic
(readdb.go:257, 335, 448, 524). -/
def wrongTlMsg : String := "wrong tl sequence"

/-- Vertex classes of the graph schema (readdb.go:212-222).  The two edge
pseudo-classes are used only to select the joined output shape of
connectedVertices. -/
inductive VertexClass where
  | role
  | domain
  | accountability
  | roleAdditionalContent
  | member
  | memberAvatar
  | roleMemberEdge
  | memberRoleEdge
  | tension
  deriving Repr, DecidableEq

/-- Edge classes of the graph schema (readdb.go:234-242). -/
inductive EdgeClass where
  | roleRole
  | roleDomain
  | roleAccountability
  | roleMember
  | circleDirectMember
  | memberTension
  | roleTension
  deriving Repr, DecidableEq

/-- Class of the x endpoint of an edge class. -/
def EdgeClass.X : EdgeClass → VertexClass
  | .roleRole => .role
  | .roleDomain => .domain
  | .roleAccountability => .accountability
  | .roleMember => .member
  | .circleDirectMember => .member
  | .memberTension => .tension
  | .roleTension => .tension

/-- Class of the y endpoint of an edge class. -/
def EdgeClass.Y : EdgeClass → VertexClass
  | .memberTension => .member
  | _ => .role

/-- Edge directions (readdb.go:203-208). -/
inductive EdgeDirection where
  | out
  | in_
  deriving Repr, DecidableEq

/-- The declared edge classes in registration order (readdb.go:248). -/
def edgeClasses : List EdgeClass :=
  [.roleRole, .roleDomain, .roleAccountability, .roleMember,
   .circleDirectMember, .memberTension, .roleTension]

/-- Uniform view of an edge table with the class-specific attribute columns
dropped (only the temporal columns and the endpoints are needed by joins
and by the integrity check). -/
def edgeTable (db : DB) : EdgeClass → List (ERow Unit)
  | .roleRole => db.rolerole
  | .roleDomain => db.roledomain
  | .roleAccountability => db.roleaccountability
  | .roleMember => db.rolemember.map (fun e => ⟨e.start_tl, e.end_tl, e.x, e.y, ()⟩)
  | .circleDirectMember => db.circledirectmember
  | .memberTension => db.membertension
  | .roleTension => db.roletension

/-- The condition language covering the squirrel conditions the source
passes to the generic readers. -/
inductive VCondition where
  | roleDepthEq (d : Int)
  | roleIdEq (id : Nat)
  | roleIdIn (ids : List Nat)
  | roleTypeEq (rt : RoleType)
  | roleAdditionalContentIdIn (ids : List Nat)
  | memberIdEq (id : Nat)
  | memberIdIn (ids : List Nat)
  | memberFullNameGt (s : String)
  | memberSearch (s : String)
  | tensionIdEq (id : Nat)
  | and (a b : VCondition)
  | or (a b : VCondition)
  deriving Repr, DecidableEq

/-- Evaluation of a condition against a role row.  A condition naming a
column of another table never occurs on a role query in the source; such a
constructor evaluates to true here. -/
def evalCondRole : VCondition → VRow RoleAttrs → Bool
  | .roleDepthEq d, r => r.attrs.depth == d
  | .roleIdEq i, r => r.id == i
  | .roleIdIn ids, r => ids.contains r.id
  | .roleTypeEq rt, r => r.attrs.roleType == rt
  | .and a b, r => evalCondRole a r && evalCondRole b r
  | .or a b, r => evalCondRole a r || evalCondRole b r
  | _, _ => true

/-- Evaluation of a condition against a member row. -/
def evalCondMember : VCondition → VRow MemberAttrs → Bool
  | .memberIdEq i, r => r.id == i
  | .memberIdIn ids, r => ids.contains r.id
  | .memberFullNameGt s, r => decide (s < r.attrs.fullName)
  | .memberSearch s, r => membersSearchMatches s r.attrs.fullName r.attrs.userName
  | .and a b, r => evalCondMember a r && evalCondMember b r
  | .or a b, r => evalCondMember a r || evalCondMember b r
  | _, _ => true

/-- Evaluation of a condition against a tension row. -/
def evalCondTension : VCondition → VRow TensionAttrs → Bool
  | .tensionIdEq i, r => r.id == i
  | .and a b, r => evalCondTension a r && evalCondTension b r
  | .or a b, r => evalCondTension a r || evalCondTension b r
  | _, _ => true

/-- Evaluation of a condition against a roleadditionalcontent row. -/
def evalCondRAC : VCondition → VRow RoleAdditionalContentAttrs → Bool
  | .roleAdditionalContentIdIn ids, r => ids.contains r.id
  | .and a b, r => evalCondRAC a r && evalCondRAC b r
  | .or a b, r => evalCondRAC a r || evalCondRAC b r
  | _, _ => true

/-- Evaluation of a condition against a domain row. -/
def evalCondDomain : VCondition → VRow DomainAttrs → Bool
  | _, _ => true

/-- Evaluation of a condition against an accountability row. -/
def evalCondAccountability : VCondition → VRow AccountabilityAttrs → Bool
  | _, _ => true

/-- Evaluation of a condition against a memberavatar row. -/
def evalCondAvatar : VCondition → VRow MemberAvatarAttrs → Bool
  | _, _ => true

/-- Untyped result container of the vertices reader (the Go function
returns interface values dispatched per class). -/
inductive ScanResult where
  | roles (rs : List (VRow RoleAttrs))
  | rolesAdditionalContent (rs : List (VRow RoleAdditionalContentAttrs))
  | domains (rs : List (VRow DomainAttrs))
  | accountabilities (rs : List (VRow AccountabilityAttrs))
  | members (rs : List (VRow MemberAttrs))
  | avatars (rs : List (VRow MemberAvatarAttrs))
  | tensions (rs : List (VRow TensionAttrs))
  deriving Repr, DecidableEq

/-- SQL LIMIT: a limit of 0 means no LIMIT clause (readdb.go:287-289). -/
def applyLimit {α : Type} (limit : Nat) (l : List α) : List α :=
  if limit = 0 then l else l.take limit

/-- Selection of one vertex table: rows satisfying the timeline predicate
and the optional condition, then the optional limit.  ORDER BY is omitted;
no claim depends on the row order of this reader. -/
def selectVertexRows {α : Type} (curTl tl : Int) (limit : Nat)
    (condF : VRow α → Bool) (rows : List (VRow α)) : List (VRow α) :=
  applyLimit limit
    (rows.filter (fun r => timeLineCond curTl tl r.start_tl r.end_tl && condF r))

/-- Body of DBService.vertices (readdb.go:256-327) after the tl guard:
class dispatch, timeline predicate, optional condition, optional limit.
The two edge pseudo-classes fall into the unknown-class error branch. -/
def verticesBody (curTl tl : Int) (vc : VertexClass) (limit : Nat)
    (cond : Option VCondition) (db : DB) : Except String ScanResult :=
  let condOr := fun {α : Type} (f : VCondition → VRow α → Bool) (r : VRow α) =>
    match cond with
    | none => true
    | some c => f c r
  match vc with
  | .role => .ok (.roles (selectVertexRows curTl tl limit (condOr evalCondRole) db.role))
  | .roleAdditionalContent =>
      .ok (.rolesAdditionalContent
        (selectVertexRows curTl tl limit (condOr evalCondRAC) db.roleadditionalcontent))
  | .domain => .ok (.domains (selectVertexRows curTl tl limit (condOr evalCondDomain) db.domain))
  | .accountability =>
      .ok (.accountabilities
        (selectVertexRows curTl tl limit (condOr evalCondAccountability) db.accountability))
  | .member => .ok (.members (selectVertexRows curTl tl limit (condOr evalCondMember) db.member))
  | .memberAvatar =>
      .ok (.avatars (selectVertexRows curTl tl limit (condOr evalCondAvatar) db.memberavatar))
  | .tension => .ok (.tensions (selectVertexRows curTl tl limit (condOr evalCondTension) db.tension))
  | _ => .error "unknown vertex class"

/-- DBService.vertices (readdb.go:256-327): panics on tl <= 0 before
building any query, then runs the body, whose only failure mode is a
returned error. -/
def vertices (curTl tl : Int) (vc : VertexClass) (limit : Nat)
    (cond : Option VCondition) (db : DB) : DbOutcome ScanResult :=
  if tl ≤ 0 then .panicked wrongTlMsg
  else ofExcept (verticesBody curTl tl vc limit cond db)

/-- Source endpoint of an edge row for a direction: for Out the sources sit
at x, for In at y (readdb.go:338-363). -/
def srcPt {β : Type} (dir : EdgeDirection) (e : ERow β) : Nat :=
  match dir with
  | .out => e.x
  | .in_ => e.y

/-- Neighbor endpoint of an edge row for a direction. -/
def dstPt {β : Type} (dir : EdgeDirection) (e : ERow β) : Nat :=
  match dir with
  | .out => e.y
  | .in_ => e.x

/-- Grouped result container of connectedVertices, keyed by source id. -/
inductive GroupsResult where
  | roles (g : List (Nat × List (VRow RoleAttrs)))
  | domains (g : List (Nat × List (VRow DomainAttrs)))
  | accountabilities (g : List (Nat × List (VRow AccountabilityAttrs)))
  | members (g : List (Nat × List (VRow MemberAttrs)))
  | avatars (g : List (Nat × List (VRow MemberAvatarAttrs)))
  | tensions (g : List (Nat × List (VRow TensionAttrs)))
  | roleMemberEdges (g : List (Nat × List (VRow MemberAttrs × RoleMemberAttrs)))
  | memberRoleEdges (g : List (Nat × List (VRow RoleAttrs × RoleMemberAttrs)))
  deriving Repr, DecidableEq

/-- Append of one joined row under its group key (models the scan*Groups
helpers, which append each scanned row to the map entry of its source
id). -/
def groupAdd {γ : Type} (k : Nat) (v : γ) : List (Nat × List γ) → List (Nat × List γ)
  | [] => [(k, [v])]
  | (k2, vs) :: rest =>
      if k2 = k then (k2, vs ++ [v]) :: rest else (k2, vs) :: groupAdd k v rest

/-- Grouping of a joined row list by its source-id column.  A source id
with no joined row yields no key, per the grouping contract of the spec. -/
def groupUp {γ : Type} (ps : List (Nat × γ)) : List (Nat × List γ) :=
  ps.foldl (fun acc p => groupAdd p.1 p.2 acc) []

/-- One-hop join of connectedVertices (readdb.go:396-397): edge rows whose
source endpoint is among the requested ids and which satisfy the timeline
predicate, joined against neighbor vertex rows with matching id that are
also live and satisfy the optional condition.  Each joined row carries the
source id and the edge attribute columns. -/
def joinPairs {α β : Type} (curTl tl : Int) (ids : List Nat) (dir : EdgeDirection)
    (edges : List (ERow β)) (vrows : List (VRow α)) (condF : VRow α → Bool) :
    List (Nat × (VRow α × β)) :=
  edges.flatMap (fun e =>
    if timeLineCond curTl tl e.start_tl e.end_tl && ids.contains (srcPt dir e) then
      (vrows.filter (fun v =>
        timeLineCond curTl tl v.start_tl v.end_tl && v.id == dstPt dir e && condF v)).map
        (fun v => (srcPt dir e, (v, e.attrs)))
    else [])

/-- Joined groups with the edge attribute columns dropped (the scan helpers
for plain vertex outputs read only the vertex columns). -/
def joinGroups {α β : Type} (curTl tl : Int) (ids : List Nat) (dir : EdgeDirection)
    (edges : List (ERow β)) (vrows : List (VRow α)) (condF : VRow α → Bool) :
    List (Nat × List (VRow α)) :=
  groupUp ((joinPairs curTl tl ids dir edges vrows condF).map (fun p => (p.1, p.2.1)))

/-- Neighbor vertex class of an edge class for a direction
(readdb.go:338-382): Y for Out, X for In. -/
def neighborClass (ec : EdgeClass) (dir : EdgeDirection) : VertexClass :=
  match dir with
  | .out => ec.Y
  | .in_ => ec.X

/-- Body of DBService.connectedVertices (readdb.go:329-442) after the tl
guard.  The neighbor table is selected by edge class and direction; the
output shape is selected by outputVertexClass (empty, modeled as none,
defaults to the neighbor class).  The joined rolemember-edge outputs exist
only on the rolemember edge class, whose table has the extra columns; any
other combination that the Go code would fail to scan is an error. -/
def connectedVerticesBody (curTl tl : Int) (vertexIDs : List Nat) (ec : EdgeClass)
    (dir : EdgeDirection) (outputVertexClass : Option VertexClass)
    (cond : Option VCondition) (db : DB) : Except String GroupsResult :=
  let vc := neighborClass ec dir
  let out := outputVertexClass.getD vc
  let condOr := fun {α : Type} (f : VCondition → VRow α → Bool) (r : VRow α) =>
    match cond with
    | none => true
    | some c => f c r
  match out with
  | .roleMemberEdge =>
      match ec, dir with
      | .roleMember, .in_ =>
          .ok (.roleMemberEdges (groupUp
            (joinPairs curTl tl vertexIDs .in_ db.rolemember db.member (condOr evalCondMember))))
      | _, _ => .error "unknown vertex class"
  | .memberRoleEdge =>
      match ec, dir with
      | .roleMember, .out =>
          .ok (.memberRoleEdges (groupUp
            (joinPairs curTl tl vertexIDs .out db.rolemember db.role (condOr evalCondRole))))
      | _, _ => .error "unknown vertex class"
  | _ =>
      if out = vc then
        match dir with
        | .out =>
            match ec with
            | .roleRole =>
                .ok (.roles (joinGroups curTl tl vertexIDs .out db.rolerole db.role
                  (condOr evalCondRole)))
            | .roleDomain =>
                .ok (.roles (joinGroups curTl tl vertexIDs .out db.roledomain db.role
                  (condOr evalCondRole)))
            | .roleAccountability =>
                .ok (.roles (joinGroups curTl tl vertexIDs .out db.roleaccountability db.role
                  (condOr evalCondRole)))
            | .roleMember =>
                .ok (.roles (joinGroups curTl tl vertexIDs .out db.rolemember db.role
                  (condOr evalCondRole)))
            | .circleDirectMember =>
                .ok (.roles (joinGroups curTl tl vertexIDs .out db.circledirectmember db.role
                  (condOr evalCondRole)))
            | .memberTension =>
                .ok (.members (joinGroups curTl tl vertexIDs .out db.membertension db.member
                  (condOr evalCondMember)))
            | .roleTension =>
                .ok (.roles (joinGroups curTl tl vertexIDs .out db.roletension db.role
                  (condOr evalCondRole)))
        | .in_ =>
            match ec with
            | .roleRole =>
                .ok (.roles (joinGroups curTl tl vertexIDs .in_ db.rolerole db.role
                  (condOr evalCondRole)))
            | .roleDomain =>
                .ok (.domains (joinGroups curTl tl vertexIDs .in_ db.roledomain db.domain
                  (condOr evalCondDomain)))
            | .roleAccountability =>
                .ok (.accountabilities (joinGroups curTl tl vertexIDs .in_ db.roleaccountability
                  db.accountability (condOr evalCondAccountability)))
            | .roleMember =>
                .ok (.members (joinGroups curTl tl vertexIDs .in_ db.rolemember db.member
                  (condOr evalCondMember)))
            | .circleDirectMember =>
                .ok (.members (joinGroups curTl tl vertexIDs .in_ db.circledirectmember db.member
                  (condOr evalCondMember)))
            | .memberTension =>
                .ok (.tensions (joinGroups curTl tl vertexIDs .in_ db.membertension db.tension
                  (condOr evalCondTension)))
            | .roleTension =>
                .ok (.tensions (joinGroups curTl tl vertexIDs .in_ db.roletension db.tension
                  (condOr evalCondTension)))
      else .error "unknown vertex class"

/-- DBService.connectedVertices (readdb.go:329-442): panics on tl <= 0
before building any query; the body only ever returns a value or an
error (the unknown-edge-class panics of the source sit in enum-default
branches that the edge class type makes unrepresentable). -/
def connectedVertices (curTl tl : Int) (vertexIDs : List Nat) (ec : EdgeClass)
    (dir : EdgeDirection) (outputVertexClass : Option VertexClass)
    (cond : Option VCondition) (db : DB) : DbOutcome GroupsResult :=
  if tl ≤ 0 then .panicked wrongTlMsg
  else ofExcept (connectedVerticesBody curTl tl vertexIDs ec dir outputVertexClass cond db)

/-- One-sided join of verticesFiltered (readdb.go:482-483): edge rows that
are live and whose far endpoint is among the anchor ids, joined against
vertex rows with id equal to the near endpoint that are live and satisfy
the condition.  The scanned output keeps only the vertex rows. -/
def vfJoin {α : Type} (curTl tl : Int) (dir : EdgeDirection) (endEdgeIDs : List Nat)
    (edges : List (ERow Unit)) (vrows : List (VRow α)) (condF : VRow α → Bool) :
    List (VRow α) :=
  edges.flatMap (fun e =>
    if timeLineCond curTl tl e.start_tl e.end_tl && endEdgeIDs.contains (dstPt dir e) then
      vrows.filter (fun v =>
        timeLineCond curTl tl v.start_tl v.end_tl && v.id == srcPt dir e && condF v)
    else [])

/-- Body of DBService.verticesFiltered (readdb.go:444-518) after the tl
guard.  Only the five classes of its dispatch are known; the condition is
applied once (the source applies the same condition twice, which is
idempotent under WHERE AND). -/
def verticesFilteredBody (curTl tl : Int) (vc : VertexClass) (ec : EdgeClass)
    (dir : EdgeDirection) (endEdgeIDs : List Nat) (cond : Option VCondition)
    (db : DB) : Except String ScanResult :=
  let condOr := fun {α : Type} (f : VCondition → VRow α → Bool) (r : VRow α) =>
    match cond with
    | none => true
    | some c => f c r
  match vc with
  | .role =>
      .ok (.roles (vfJoin curTl tl dir endEdgeIDs (edgeTable db ec) db.role
        (condOr evalCondRole)))
  | .domain =>
      .ok (.domains (vfJoin curTl tl dir endEdgeIDs (edgeTable db ec) db.domain
        (condOr evalCondDomain)))
  | .accountability =>
      .ok (.accountabilities (vfJoin curTl tl dir endEdgeIDs (edgeTable db ec)
        db.accountability (condOr evalCondAccountability)))
  | .member =>
      .ok (.members (vfJoin curTl tl dir endEdgeIDs (edgeTable db ec) db.member
        (condOr evalCondMember)))
  | .tension =>
      .ok (.tensions (vfJoin curTl tl dir endEdgeIDs (edgeTable db ec) db.tension
        (condOr evalCondTension)))
  | _ => .error "unknown vertex class"

/-- DBService.verticesFiltered (readdb.go:444-518): panics on tl <= 0
before building any query, then runs the error-only body. -/
def verticesFiltered (curTl tl : Int) (vc : VertexClass) (ec : EdgeClass)
    (dir : EdgeDirection) (endEdgeIDs : List Nat) (cond : Option VCondition)
    (db : DB) : DbOutcome ScanResult :=
  if tl ≤ 0 then .panicked wrongTlMsg
  else ofExcept (verticesFilteredBody curTl tl vc ec dir endEdgeIDs cond db)

/-- Count of live rows with a given id in one vertex table. -/
def countLiveId {α : Type} (curTl tl : Int) (rows : List (VRow α)) (id : Nat) : Nat :=
  (rows.filter (fun v => timeLineCond curTl tl v.start_tl v.end_tl && v.id == id)).length

/-- Count of live rows with a given id in the table of a vertex class.  The
two edge pseudo-classes have no table; they are unreachable from the
declared edge classes. -/
def vertexClassCountLiveId (curTl tl : Int) (db : DB) (vc : VertexClass) (id : Nat) : Nat :=
  match vc with
  | .role => countLiveId curTl tl db.role id
  | .domain => countLiveId curTl tl db.domain id
  | .accountability => countLiveId curTl tl db.accountability id
  | .roleAdditionalContent => countLiveId curTl tl db.roleadditionalcontent id
  | .member => countLiveId curTl tl db.member id
  | .memberAvatar => countLiveId curTl tl db.memberavatar id
  | .tension => countLiveId curTl tl db.tension id
  | .roleMemberEdge => 0
  | .memberRoleEdge => 0

/-- One side of the integrity check of CheckBrokenEdges (readdb.go:534-591):
the live edge rows are counted, then the inner join of the live edge rows
against the live rows of the endpoint class is counted; the two counts must
agree. -/
def checkEdgeSide (curTl tl : Int) (db : DB) (edges : List (ERow Unit))
    (pt : ERow Unit → Nat) (vc : VertexClass) : Bool :=
  let live := edges.filter (fun e => timeLineCond curTl tl e.start_tl e.end_tl)
  let joined := (live.map (fun e => vertexClassCountLiveId curTl tl db vc (pt e))).sum
  joined == live.length

/-- Check of both sides of one edge class, failing with a diagnostic naming
the class and side. -/
def checkEdgeClass (curTl tl : Int) (db : DB) (ec : EdgeClass) : Except String Unit :=
  if checkEdgeSide curTl tl db (edgeTable db ec) (fun e => e.x) ec.X then
    if checkEdgeSide curTl tl db (edgeTable db ec) (fun e => e.y) ec.Y then
      .ok ()
    else .error "broken edges on edge point y"
  else .error "broken edges on edge point x"

/-- Walk over every declared edge class, stopping at the first failure. -/
def checkEdgeClassList (curTl tl : Int) (db : DB) : List EdgeClass → Except String Unit
  | [] => .ok ()
  | ec :: rest =>
      match checkEdgeClass curTl tl db ec with
      | .error m => .error m
      | .ok _ => checkEdgeClassList curTl tl db rest

/-- DBService.CheckBrokenEdges (readdb.go:520-594): panics on tl <= 0
before issuing any query, then checks every edge class at both endpoints. -/
def CheckBrokenEdges (curTl tl : Int) (db : DB) : DbOutcome Unit :=
  if tl ≤ 0 then .panicked wrongTlMsg
  else ofExcept (checkEdgeClassList curTl tl db edgeClasses)

/-! ## Domain read API (readdb.go section of named queries)

The Internal query helpers of the source take a list of ids and return a
map grouped by id; every call the claims depend on passes a single id and
reads the single group.  The functions below are those calls specialized
to one id: the join underneath is the same joinPairs computation the
generic reader runs, restricted to one key (theorem groupUp_const_key
states the agreement of the grouped form with the single-key form). -/

/-- DBService.RoleInternal (readdb.go:1468-1481): vertices on class role
with condition role.id = id; absent when no row matches, else the first
row. -/
def RoleInternal (curTl tl : Int) (id : Nat) (db : DB) :
    DbOutcome (Option (VRow RoleAttrs)) :=
  match vertices curTl tl .role 0 (some (.roleIdEq id)) db with
  | .panicked m => .panicked m
  | .failed m => .failed m
  | .ok (.roles roles) => .ok roles.head?
  | .ok _ => .failed "unexpected scan result"

/-- DBService.RootRoleInternal (readdb.go:1448-1462): vertices on class
role with condition role.depth = 0; absent when no row matches, an
invariant-violation error when more than one row matches, else the row. -/
def RootRoleInternal (curTl tl : Int) (db : DB) :
    DbOutcome (Option (VRow RoleAttrs)) :=
  match vertices curTl tl .role 0 (some (.roleDepthEq 0)) db with
  | .panicked m => .panicked m
  | .failed m => .failed m
  | .ok (.roles roles) =>
      if roles.length = 0 then .ok none
      else if roles.length > 1 then .failed "too many root roles"
      else .ok roles.head?
  | .ok _ => .failed "unexpected scan result"

/-- Child roles of one role (DBService.ChildRolesInternal,
readdb.go:1509-1516, via connectedVertices Out on rolerole): the joined
row list of the single requested id.  The ORDER BY role.name of the
ChildRoles wrapper is omitted; no claim depends on the order of this
list. -/
def childRolesPairs (curTl tl : Int) (roleID : Nat) (db : DB) : List (VRow RoleAttrs) :=
  (joinPairs curTl tl [roleID] .out db.rolerole db.role (fun _ => true)).map
    (fun p => p.2.1)

/-- Guarded single-id form of ChildRolesInternal. -/
def ChildRolesInternal1 (curTl tl : Int) (roleID : Nat) (db : DB) :
    DbOutcome (List (VRow RoleAttrs)) :=
  if tl ≤ 0 then .panicked wrongTlMsg
  else .ok (childRolesPairs curTl tl roleID db)

/-- Parent candidates of one role (DBService.RoleParentInternal,
readdb.go:2042-2055, via connectedVertices In on rolerole). -/
def roleParentPairs (curTl tl : Int) (roleID : Nat) (db : DB) : List (VRow RoleAttrs) :=
  (joinPairs curTl tl [roleID] .in_ db.rolerole db.role (fun _ => true)).map
    (fun p => p.2.1)

/-- Guarded single-id form of RoleParentInternal: the first joined row of
the group (v[0]), absent when the group is empty. -/
def RoleParentInternal1 (curTl tl : Int) (roleID : Nat) (db : DB) :
    DbOutcome (Option (VRow RoleAttrs)) :=
  if tl ≤ 0 then .panicked wrongTlMsg
  else .ok (roleParentPairs curTl tl roleID db).head?

/-- Filler edges of one role (DBService.RoleMemberEdgesInternal,
readdb.go:2269-2276, via connectedVertices In on rolemember with the
rolememberedge output): joined member rows with the edge attribute
columns. -/
def roleMemberEdgePairs (curTl tl : Int) (roleID : Nat) (db : DB) :
    List (VRow MemberAttrs × RoleMemberAttrs) :=
  (joinPairs curTl tl [roleID] .in_ db.rolemember db.member (fun _ => true)).map
    (fun p => p.2)

/-- Guarded single-id form of RoleMemberEdgesInternal. -/
def RoleMemberEdgesInternal1 (curTl tl : Int) (roleID : Nat) (db : DB) :
    DbOutcome (List (VRow MemberAttrs × RoleMemberAttrs)) :=
  if tl ≤ 0 then .panicked wrongTlMsg
  else .ok (roleMemberEdgePairs curTl tl roleID db)

/-- DBService.MemberTensionsInternal (readdb.go:1947-1953): the grouped
tensions of the requested members, via the real generic reader. -/
def MemberTensionsInternal (curTl tl : Int) (membersIDs : List Nat) (db : DB) :
    DbOutcome (List (Nat × List (VRow TensionAttrs))) :=
  match connectedVertices curTl tl membersIDs .memberTension .in_ none none db with
  | .panicked m => .panicked m
  | .failed m => .failed m
  | .ok (.tensions g) => .ok g
  | .ok _ => .failed "unexpected result type"

/-- DBService.MemberTensions (readdb.go:1955-1975).  The calling member is
taken as already resolved (CallingMemberInternal reads the ambient request
context).  The body iterates over membersIDs: the first iteration either
breaks out (first id equals the caller) or returns the absent map; an
empty list skips the loop.  Only then are the tensions fetched for all the
requested ids. -/
def MemberTensions (curTl tl : Int) (callingMemberID : Nat) (membersIDs : List Nat)
    (db : DB) : DbOutcome (Option (List (Nat × List (VRow TensionAttrs)))) :=
  let proceed :=
    match MemberTensionsInternal curTl tl membersIDs db with
    | .panicked m => .panicked m
    | .failed m => .failed m
    | .ok g => .ok (some g)
  match membersIDs with
  | [] => proceed
  | id :: _ => if callingMemberID = id then proceed else .ok none

/-- DBService.memberIsLeadLink (readdb.go:2481-2510): find the first
LeadLink child of the role; absent means false; then the filler edges of
that child; an empty edge list means false; otherwise compare the member
of the first edge with the given member id. -/
def memberIsLeadLink (curTl tl : Int) (memberID roleID : Nat) (db : DB) :
    DbOutcome Bool :=
  match ChildRolesInternal1 curTl tl roleID db with
  | .panicked m => .panicked m
  | .failed m => .failed m
  | .ok childs =>
      match childs.find? (fun c => c.attrs.roleType == .leadLink) with
      | none => .ok false
      | some leadLinkRole =>
          match RoleMemberEdgesInternal1 curTl tl leadLinkRole.id db with
          | .panicked m => .panicked m
          | .failed m => .failed m
          | .ok roleMemberEdges =>
              match roleMemberEdges with
              | [] => .ok false
              | e :: _ => .ok (e.1.id == memberID)

/-- Per-circle permission record (models.MemberCirclePermissions); the Go
zero value has every flag false. -/
structure CirclePermissions where
  assignChildCircleLeadLink : Bool
  assignCircleCoreRoles : Bool
  assignChildRoleMembers : Bool
  assignCircleDirectMembers : Bool
  manageChildRoles : Bool
  manageRoleAdditionalContent : Bool
  assignRootCircleLeadLink : Bool
  manageRootCircle : Bool
  deriving Repr, DecidableEq

/-- DBService.MemberCirclePermissions (readdb.go:2513-2585).  The calling
member is taken as already resolved.  A missing role is an error; a role
that is not a Circle yields the absent record with no error; otherwise
each management flag is set when the caller is admin or is the lead link
of the circle, and on the root circle (no parent) the two root flags are
set under the same rule. -/
def MemberCirclePermissions (curTl tl : Int) (callingMemberID : Nat)
    (callingIsAdmin : Bool) (roleID : Nat) (db : DB) :
    DbOutcome (Option CirclePermissions) :=
  match RoleInternal curTl tl roleID db with
  | .panicked m => .panicked m
  | .failed m => .failed m
  | .ok none => .failed "role with id does not exist"
  | .ok (some role) =>
      if role.attrs.roleType ≠ .circle then .ok none
      else
        match RoleParentInternal1 curTl tl roleID db with
        | .panicked m => .panicked m
        | .failed m => .failed m
        | .ok prole =>
            match memberIsLeadLink curTl tl callingMemberID roleID db with
            | .panicked m => .panicked m
            | .failed m => .failed m
            | .ok isLeadLink =>
                let grant := callingIsAdmin || isLeadLink
                .ok (some
                  { assignChildCircleLeadLink := grant
                    assignCircleCoreRoles := grant
                    assignChildRoleMembers := grant
                    assignCircleDirectMembers := grant
                    manageChildRoles := grant
                    manageRoleAdditionalContent := grant
                    assignRootCircleLeadLink := prole.isNone && grant
                    manageRootCircle := prole.isNone && grant })

/-! ## Role-event feed (readdb.go RoleEventsInternal / RoleEvents) -/

/-- MaxFetchSize (readdb.go:28). -/
def MaxFetchSize : Nat := 25

/-- Row of the roleevent table; the payload blob is opaque to the feed. -/
structure RoleEventRow where
  timeline : Int
  id : Nat
  roleid : Nat
  eventtype : String
  data : String
  deriving Repr, DecidableEq

/-- Insertion step of the ORDER BY timeline DESC model. -/
def insertDescByTimeline (r : RoleEventRow) : List RoleEventRow → List RoleEventRow
  | [] => [r]
  | x :: xs =>
      if x.timeline < r.timeline then r :: x :: xs
      else x :: insertDescByTimeline r xs

/-- Deterministic model of ORDER BY timeline DESC (insertion sort; SQL
leaves the relative order of equal keys unspecified). -/
def sortByTimelineDesc (l : List RoleEventRow) : List RoleEventRow :=
  l.foldr insertDescByTimeline []

/-- DBService.RoleEventsInternal (readdb.go:1555-1595): WHERE roleid =
roleID, plus timeline <= start when start is nonzero, overridden by
timeline < after when after is nonzero; ORDER BY timeline DESC; LIMIT
first when first is nonzero.  The Go first parameter is an int; the claims
only concern nonnegative values, modeled as Nat. -/
def RoleEventsInternal (roleID : Nat) (first : Nat) (start after : Int)
    (table : List RoleEventRow) : List RoleEventRow :=
  let condition : Option (RoleEventRow → Bool) :=
    if start ≠ 0 then some (fun r => decide (r.timeline ≤ start)) else none
  let condition : Option (RoleEventRow → Bool) :=
    if after ≠ 0 then some (fun r => decide (r.timeline < after)) else condition
  let base := table.filter (fun r => r.roleid == roleID)
  let filtered :=
    match condition with
    | none => base
    | some c => base.filter c
  let sorted := sortByTimelineDesc filtered
  if first ≠ 0 then sorted.take first else sorted

/-- DBService.RoleEvents (readdb.go:1596-1612): a first of 0 defaults to
MaxFetchSize; first + 1 rows are requested internally; the page is the
first min(first, len) rows and has-more reports whether more than first
rows came back. -/
def RoleEvents (roleID : Nat) (first : Nat) (start after : Int)
    (table : List RoleEventRow) : List RoleEventRow × Bool :=
  let first := if first = 0 then MaxFetchSize else first
  let roleEvents := RoleEventsInternal roleID (first + 1) start after table
  let size := if roleEvents.length > first then first else roleEvents.length
  (roleEvents.take size, decide (roleEvents.length > first))

/-! ## Graph mutations of the event applier (readdb.go ApplyEvent, first
pass) restricted to the role tables. -/

/-- Update of one role vertex (updateVertex on class role). -/
def updateRoleVertex (curTl tl : Int) (id : Nat) (attrs : RoleAttrs) (db : DB) : DB :=
  { db with role := updateVertexRows curTl tl id attrs db.role }

/-- Insert of one role vertex (newVertex on class role). -/
def insertRoleVertex (tl : Int) (id : Nat) (attrs : RoleAttrs) (db : DB) : DB :=
  { db with role := insertVertexRow tl id attrs db.role }

/-- Close of one role vertex at tl - 1 (deleteVertex on class role). -/
def deleteRoleVertex (curTl tl : Int) (id : Nat) (db : DB) : DB :=
  { db with role := deleteVertexRows curTl tl id db.role }

/-- Insert of one rolerole edge (addEdge on class rolerole). -/
def addRoleRoleEdge (tl : Int) (x y : Nat) (db : DB) : DB :=
  { db with rolerole := addEdgeRows tl x y () db.rolerole }

/-- Close of one rolerole edge at tl - 1 (deleteEdge on class rolerole). -/
def deleteRoleRoleEdge (curTl tl : Int) (x y : Nat) (db : DB) : DB :=
  { db with rolerole := deleteEdgeRows curTl tl x y db.rolerole }

/-- Graph-mutation pass of EventTypeRoleCreated (readdb.go:2646-2673):
depth is the depth of the parent plus one when a parent is given (a
missing parent row is an error), else 0; the role vertex is inserted and,
when a parent is given, a rolerole edge from the parent. -/
def applyRoleCreatedGraph (curTl tl : Int) (roleID : Nat) (parentRoleID : Option Nat)
    (roleType : RoleType) (name purpose : String) (db : DB) : DbOutcome DB :=
  let depthOut : DbOutcome Int :=
    match parentRoleID with
    | none => .ok 0
    | some pid =>
        match RoleInternal curTl tl pid db with
        | .panicked m => .panicked m
        | .failed m => .failed m
        | .ok none => .failed "role with id does not exist"
        | .ok (some prole) => .ok (prole.attrs.depth + 1)
  match depthOut with
  | .panicked m => .panicked m
  | .failed m => .failed m
  | .ok depth =>
      let db1 := insertRoleVertex tl roleID ⟨roleType, depth, name, purpose⟩ db
      match parentRoleID with
      | none => .ok db1
      | some pid => .ok (addRoleRoleEdge tl pid roleID db1)

/-- Graph-mutation pass of EventTypeRoleDeleted (readdb.go:2675-2689):
look up the parent at the event timeline, close the role vertex at tl - 1
and, when a parent was found, close the parent edge at tl - 1. -/
def applyRoleDeletedGraph (curTl tl : Int) (roleID : Nat) (db : DB) : DbOutcome DB :=
  match RoleParentInternal1 curTl tl roleID db with
  | .panicked m => .panicked m
  | .failed m => .failed m
  | .ok prole =>
      let db1 := deleteRoleVertex curTl tl roleID db
      match prole with
      | some p => .ok (deleteRoleRoleEdge curTl tl p.id roleID db1)
      | none => .ok db1

/-! ## changeRoleParent and updateChildsDepth (readdb.go:3368-3432)

The Go updateChildsDepth recursion carries no bound; on a graph where the
walk from the moved role does not terminate it would recurse forever.  The
fuel argument makes the recursion structural; exhausting it yields an
error
that stands for that divergence, and the theorems about these
functions condition on a normal (.ok) outcome. -/

/-- Loop of updateChildsDepth over the fetched child list, parameterized
by the recursive call (the recursion on the fuel is tied in
updateChildsDepth, keeping both functions structurally recursive). -/
def updateChildsDepthGo (rec : Int → Int → Int → Nat → DB → DbOutcome DB)
    (curTl tl pdepth : Int) : List (VRow RoleAttrs) → DB → DbOutcome DB
  | [], db => .ok db
  | child :: rest, db =>
      let depth := pdepth + 1
      let db1 := updateRoleVertex curTl tl child.id { child.attrs with depth := depth } db
      match rec curTl tl depth child.id db1 with
      | .panicked m => .panicked m
      | .failed m => .failed m
      | .ok db2 => updateChildsDepthGo rec curTl tl pdepth rest db2

/-- DBService.updateChildsDepth (readdb.go:3414-3432): fetch the child
roles, then for each child update its depth to the parent depth plus one
and recurse into it. -/
def updateChildsDepth : Nat → Int → Int → Int → Nat → DB → DbOutcome DB
  | 0, _, _, _, _, _ => .failed "recursion fuel exhausted"
  | fuel + 1, curTl, tl, pdepth, roleID, db =>
      match ChildRolesInternal1 curTl tl roleID db with
      | .panicked m => .panicked m
      | .failed m => .failed m
      | .ok childs => updateChildsDepthGo (updateChildsDepth fuel) curTl tl pdepth childs db

/-- The child-list loop at one fuel level. -/
def updateChildsDepthList (fuel : Nat) (curTl tl pdepth : Int)
    (cs : List (VRow RoleAttrs)) (db : DB) : DbOutcome DB :=
  updateChildsDepthGo (updateChildsDepth fuel) curTl tl pdepth cs db

/-- DBService.changeRoleParent (readdb.go:3368-3411): read the current
parent as of nextTl - 1 and close that edge; add the new parent edge when
a new parent is given; re-read the role; recompute its depth from the new
parent (the Go code dereferences the new parent row without a nil check,
so a missing new parent is a runtime panic); write the role back and
recursively update the depth of its descendants. -/
def changeRoleParent (fuel : Nat) (curTl nextTl : Int) (roleID : Nat)
    (newParentID : Option Nat) (db : DB) : DbOutcome DB :=
  match RoleParentInternal1 curTl (nextTl - 1) roleID db with
  | .panicked m => .panicked m
  | .failed m => .failed m
  | .ok curParent =>
      let db1 :=
        match curParent with
        | some p => deleteRoleRoleEdge curTl nextTl p.id roleID db
        | none => db
      let db2 :=
        match newParentID with
        | some np => addRoleRoleEdge nextTl np roleID db1
        | none => db1
      match RoleInternal curTl nextTl roleID db2 with
      | .panicked m => .panicked m
      | .failed m => .failed m
      | .ok none => .failed "role with id does not exist"
      | .ok (some role) =>
          let depthOut : DbOutcome Int :=
            match newParentID with
            | none => .ok 0
            | some np =>
                match RoleInternal curTl nextTl np db2 with
                | .panicked m => .panicked m
                | .failed m => .failed m
                | .ok none => .panicked "nil pointer dereference"
                | .ok (some newParent) => .ok (newParent.attrs.depth + 1)
          match depthOut with
          | .panicked m => .panicked m
          | .failed m => .failed m
          | .ok depth =>
              let db3 := updateRoleVertex curTl nextTl roleID
                { role.attrs with depth := depth } db2
              updateChildsDepth fuel curTl nextTl depth roleID db3

/-! ## CircleChangesApplied digest synthesis (readdb.go second pass of
ApplyEvent, and getCircleChangesAppliedRoleEvent / insertRoleEvent) -/

/-- Change kinds of a digest entry (models.ChangeType). -/
inductive ChangeType where
  | new
  | updated
  | deleted
  deriving Repr, DecidableEq

/-- Digest entry for one changed child role (models.RoleChange); moved
carries (previous parent, new parent). -/
structure RoleChange where
  changeType : ChangeType
  moved : Option (Nat × Nat)
  rolesMovedFromParent : List Nat
  rolesMovedToParent : List Nat
  deriving Repr, DecidableEq

/-- Payload of a CircleChangesApplied digest
(models.RoleEventCircleChangesApplied); the maps are association lists. -/
structure RoleEventCircleChangesApplied where
  changedRoles : List (Nat × RoleChange)
  rolesFromCircle : List (Nat × Nat)
  rolesToCircle : List (Nat × Nat)
  issuerID : Nat
  deriving Repr, DecidableEq

/-- Row of the roleevent table holding a CircleChangesApplied digest; the
payload is stored structurally rather than as its JSON encoding.  The
eventtype column is implicit: this table only ever holds rows of type
CircleChangesApplied in the model. -/
structure CCARow where
  timeline : Int
  id : Nat
  roleid : Nat
  data : RoleEventCircleChangesApplied
  deriving Repr, DecidableEq

/-- Lookup in an association-list map. -/
def assocLookup {γ : Type} (k : Nat) : List (Nat × γ) → Option γ
  | [] => none
  | (k2, v) :: rest => if k2 = k then some v else assocLookup k rest

/-- Update in an association-list map: replace in place, else append. -/
def assocSet {γ : Type} (k : Nat) (v : γ) : List (Nat × γ) → List (Nat × γ)
  | [] => [(k, v)]
  | (k2, v2) :: rest =>
      if k2 = k then (k2, v) :: rest else (k2, v2) :: assocSet k v rest

/-- Removal from an association-list map. -/
def assocRemove {γ : Type} (k : Nat) (l : List (Nat × γ)) : List (Nat × γ) :=
  l.filter (fun p => !(p.1 == k))

/-- models.NewRoleEventCircleChangesApplied: a fresh digest row with empty
maps, created by the CommandExecuted pass (readdb.go:2999-3028) for the
parent circle of a CircleCreate/Update/DeleteChildRole command. -/
def mkRoleEventCircleChangesApplied (tl : Int) (eventID roleID issuerID : Nat) : CCARow :=
  ⟨tl, eventID, roleID,
    { changedRoles := [], rolesFromCircle := [], rolesToCircle := [], issuerID := issuerID }⟩

/-- DBService.getCircleChangesAppliedRoleEvent (readdb.go:3334-3346):
filter by role id and timeline; more than one digest is a panic, none is
absent. -/
def getCircleChangesAppliedRoleEvent (tl : Int) (roleID : Nat)
    (events : List CCARow) : DbOutcome (Option CCARow) :=
  let roleEvents := events.filter (fun e => e.roleid == roleID && e.timeline == tl)
  if roleEvents.length > 1 then
    .panicked "only max 1 event of kind RoleEventTypeCircleChangesApplied can exist"
  else .ok roleEvents.head?

/-- DBService.insertRoleEvent (readdb.go:1272-1293): delete the row with
the same event id, then insert the new row. -/
def insertRoleEventCCA (ev : CCARow) (events : List CCARow) : List CCARow :=
  (events.filter (fun e => !(e.id == ev.id))) ++ [ev]

/-- Digest pass of EventTypeRoleCreated (readdb.go:3032-3064): core role
types are skipped; a created role with no parent contributes nothing; else
the parent is read at the event timeline and its digest row fetched.  The
Go code reads roleEvent.Data without a nil check, so a missing digest is a
runtime panic, and a child already present in the digest is an explicit
panic; otherwise the child is recorded as New. -/
def applyRoleCreatedDigest (curTl tl : Int) (roleID : Nat) (parentRoleID : Option Nat)
    (roleType : RoleType) (db : DB) (events : List CCARow) : DbOutcome (List CCARow) :=
  if roleType.isCoreRoleType then .ok events
  else
    match parentRoleID with
    | none => .ok events
    | some pid =>
        match RoleInternal curTl tl pid db with
        | .panicked m => .panicked m
        | .failed m => .failed m
        | .ok none => .failed "role with id does not exist"
        | .ok (some prole) =>
            match getCircleChangesAppliedRoleEvent tl prole.id events with
            | .panicked m => .panicked m
            | .failed m => .failed m
            | .ok none => .panicked "nil pointer dereference"
            | .ok (some roleEvent) =>
                match assocLookup roleID roleEvent.data.changedRoles with
                | some _ => .panicked "roleevent: role already defined in eventdata"
                | none =>
                    let changedRole : RoleChange := ⟨.new, none, [], []⟩
                    let ed := { roleEvent.data with
                      changedRoles := assocSet roleID changedRole roleEvent.data.changedRoles }
                    .ok (insertRoleEventCCA { roleEvent with data := ed } events)

/-- Digest pass of EventTypeRoleDeleted (readdb.go:3066-3106): the parent
is read at the previous timeline (tl - 1) and its id dereferenced without
a nil check (a missing parent is a runtime panic); when no digest row
exists the pass stops; when the child entry is marked New it is removed
(created and deleted in one change cancels), otherwise the entry is
created if needed and its change type overwritten with Deleted. -/
def applyRoleDeletedDigest (curTl tl : Int) (roleID : Nat) (db : DB)
    (events : List CCARow) : DbOutcome (List CCARow) :=
  match RoleParentInternal1 curTl (tl - 1) roleID db with
  | .panicked m => .panicked m
  | .failed m => .failed m
  | .ok none => .panicked "nil pointer dereference"
  | .ok (some prole) =>
      match getCircleChangesAppliedRoleEvent tl prole.id events with
      | .panicked m => .panicked m
      | .failed m => .failed m
      | .ok none => .ok events
      | .ok (some roleEvent) =>
          let ed := roleEvent.data
          match assocLookup roleID ed.changedRoles with
          | some changedRole =>
              if changedRole.changeType = ChangeType.new then
                let ed2 := { ed with changedRoles := assocRemove roleID ed.changedRoles }
                .ok (insertRoleEventCCA { roleEvent with data := ed2 } events)
              else
                let cr2 := { changedRole with changeType := ChangeType.deleted }
                let ed2 := { ed with changedRoles := assocSet roleID cr2 ed.changedRoles }
                .ok (insertRoleEventCCA { roleEvent with data := ed2 } events)
          | none =>
              let changedRole : RoleChange := ⟨.deleted, none, [], []⟩
              let ed2 := { ed with changedRoles := assocSet roleID changedRole ed.changedRoles }
              .ok (insertRoleEventCCA { roleEvent with data := ed2 } events)

/-! ## SQL text of the members search condition (readdb.go:1735-1756)

MembersInternal interpolates the raw search string into the query text via
fmt.Sprintf and wraps it in a GenericSqlizer, whose ToSql returns the text
with an empty argument list, so nothing is bound as a query parameter.
The single-quote character is written via its code point to keep the
sources quote-free. -/

/-- The SQL single-quote character. -/
def sqlQuoteChar : Char := Char.ofNat 39

/-- The SQL single-quote as a string. -/
def sqlQuote : String := String.singleton sqlQuoteChar

/-- Text produced by the Sprintf call of MembersInternal for one column:
lower(column) LIKE lower(PERCENT search PERCENT) with the search string
inserted verbatim between the quotes. -/
def likeCondText (column search : String) : String :=
  "lower(" ++ column ++ ") LIKE lower(" ++ sqlQuote ++ "%" ++ search ++ "%" ++ sqlQuote ++ ")"

/-- GenericSqlizer.ToSql (readdb.go:75-79): the raw text with no bound
arguments. -/
def genericSqlizerToSql (s : String) : String × List String := (s, [])

/-- The fullname half of the LIKE condition of MembersInternal, as the
(text, arguments) pair squirrel receives. -/
def membersSearchCondFullName (search : String) : String × List String :=
  genericSqlizerToSql (likeCondText "member.fullname" search)

/-- The username half of the LIKE condition of MembersInternal. -/
def membersSearchCondUserName (search : String) : String × List String :=
  genericSqlizerToSql (likeCondText "member.UserName" search)

/-- Fixed text in front of the interpolated search string in the fullname
condition. -/
def likeCondFullNamePre : String :=
  "lower(member.fullname) LIKE lower(" ++ sqlQuote ++ "%"

/-- Fixed text after the interpolated search string. -/
def likeCondPost : String := "%" ++ sqlQuote ++ ")"

/-- Count of single-quote characters in a string: the quoting structure of
the query text changes exactly when the search string itself contains a
quote. -/
def countQuotes (s : String) : Nat := s.data.count sqlQuoteChar

/-- Prefix test on character lists. -/
def isPrefixB : List Char → List Char → Bool
  | [], _ => true
  | _ :: _, [] => false
  | a :: as, b :: bs => a = b && isPrefixB as bs

/-- Contiguous-sublist test on character lists. -/
def hasInfixB : List Char → List Char → Bool
  | l, sub =>
      isPrefixB sub l ||
        (match l with
         | [] => false
         | _ :: t => hasInfixB t sub)

/-- Literal (metacharacter-free) substring test, used to state what a
substring search would select. -/
def containsLiteral (text sub : String) : Bool :=
  hasInfixB text.data sub.data

/-! ## Invariant vocabulary for the depth claims

At the event timeline T the applier has already refreshed its cached
current timeline to T, so every query the mutation passes run at T
follows the fast path of timeLineCond and selects exactly the open rows.
The definitions below name the open-row views and the well-formedness
facts (spec section 3.4) that the depth-invariant theorem assumes of the
state the event group starts from. -/

/-- The open role row of an id (unique under the one-open-row-per-id
invariant): head of the open-row filter, exactly the row RoleInternal
returns at the current timeline. -/
def findOpenRole (db : DB) (id : Nat) : Option (VRow RoleAttrs) :=
  (db.role.filter (fun r => r.isOpen && r.id == id)).head?

/-- The open parent edge of a role id (unique under the
one-open-edge-per-pair and role-tree invariants). -/
def openInEdge (db : DB) (c : Nat) : Option (ERow Unit) :=
  (db.rolerole.filter (fun e => e.isOpen && e.y == c)).head?

/-- The parent role RoleParentInternal yields for one id, with the guard
stripped (head of the live edge joined with the live role). -/
def roleParentQ (curTl tl : Int) (id : Nat) (db : DB) : Option (VRow RoleAttrs) :=
  (roleParentPairs curTl tl id db).head?

/-- Reachability along open rolerole edges: ReachesOpen E a b holds when b
is a strict descendant of a (one or more parent-to-child hops). -/
inductive ReachesOpen (E : List (ERow Unit)) : Nat → Nat → Prop
  | base (e : ERow Unit) (he : e ∈ E) (ho : e.isOpen = true) : ReachesOpen E e.x e.y
  | tail (a : Nat) (e : ERow Unit) (h : ReachesOpen E a e.x) (he : e ∈ E)
      (ho : e.isOpen = true) : ReachesOpen E a e.y

/-- Grading of the open parent edges: a level function that increases by
one along every open edge.  Existence of a grading rules out cycles (the
role tree invariant of the spec). -/
def LevelOk (E : List (ERow Unit)) (lvl : Nat → Int) : Prop :=
  ∀ e ∈ E, e.isOpen = true → lvl e.y = lvl e.x + 1

/-- Pairwise Bool check over a list. -/
def pairwiseB {γ : Type} (p : γ → γ → Bool) : List γ → Bool
  | [] => true
  | x :: xs => xs.all (p x) && pairwiseB p xs

/-- At most one open row per role id (spec section 3.4: for any
(class, id) at most one open row exists). -/
def openRoleIdsUnique (rows : List (VRow RoleAttrs)) : Bool :=
  pairwiseB (fun a b => !(a.isOpen && b.isOpen && a.id == b.id)) rows

/-- At most one open parent edge per child (role-tree invariant: at most
one parent per role). -/
def openInEdgesUnique (es : List (ERow Unit)) : Bool :=
  pairwiseB (fun a b => !(a.isOpen && b.isOpen && a.y == b.y)) es

/-- Every open role row was opened before the event timeline T (the event
group being applied is the first change of commit T touching these
rows). -/
def rowsStale (T : Int) (rows : List (VRow RoleAttrs)) : Bool :=
  rows.all (fun r => !r.isOpen || decide (r.start_tl ≤ T - 1))

/-- Every open rolerole edge was opened before T. -/
def edgesStale (T : Int) (es : List (ERow Unit)) : Bool :=
  es.all (fun e => !e.isOpen || decide (e.start_tl ≤ T - 1))

/-- Every closed role row was closed before commit T - 1 (closes always
write the previous timeline of their commit). -/
def rowsClosedOld (T : Int) (rows : List (VRow RoleAttrs)) : Bool :=
  rows.all (fun r =>
    match r.end_tl with
    | some v => decide (v ≤ T - 2)
    | none => true)

/-- Every closed rolerole edge was closed before commit T - 1. -/
def edgesClosedOld (T : Int) (es : List (ERow Unit)) : Bool :=
  es.all (fun e =>
    match e.end_tl with
    | some v => decide (v ≤ T - 2)
    | none => true)

/-- Both endpoints of every open rolerole edge have an open role row
(spec section 3.4: every live edge has live endpoints). -/
def edgeEndpointsOpen (db : DB) : Bool :=
  db.rolerole.all (fun e =>
    !e.isOpen || ((findOpenRole db e.x).isSome && (findOpenRole db e.y).isSome))

/-- The depth invariant of the claim, at the current timeline T (where
live rows are exactly the open rows): every live role has nonnegative
depth, depth 0 exactly when it has no parent, and otherwise the depth of
its parent plus one. -/
def depthInvB (T : Int) (db : DB) : Bool :=
  db.role.all (fun r =>
    !r.isOpen ||
      (decide (0 ≤ r.attrs.depth) &&
        ((r.attrs.depth == 0) == (roleParentQ T T r.id db).isNone) &&
        (match roleParentQ T T r.id db with
         | none => true
         | some p => r.attrs.depth == p.attrs.depth + 1)))

/-- Pairwise openness/id uniqueness of the role table, as a proposition
(the Bool check openRoleIdsUnique implies it). -/
def OpenRowsPW (db : DB) : Prop :=
  db.role.Pairwise (fun a b => ¬(a.isOpen = true ∧ b.isOpen = true ∧ a.id = b.id))

/-- Pairwise openness/child uniqueness of a rolerole edge list. -/
def OpenEdgesPW (E : List (ERow Unit)) : Prop :=
  E.Pairwise (fun a b => ¬(a.isOpen = true ∧ b.isOpen = true ∧ a.y = b.y))

/-- Every open rolerole edge has an open role row at its child endpoint. -/
def EdgeChildExists (db : DB) : Prop :=
  ∀ e ∈ db.rolerole, e.isOpen = true → (findOpenRole db e.y).isSome = true

/-- The open role row of an id exists and was opened before commit T. -/
def StaleAt (T : Int) (db : DB) (id : Nat) : Prop :=
  ∃ r, findOpenRole db id = some r ∧ r.start_tl ≤ T - 1

/-- Membership of the subtree rooted at a role id: the root itself or a
strict descendant along open edges. -/
def InSubtree (E : List (ERow Unit)) (root id : Nat) : Prop :=
  id = root ∨ ReachesOpen E root id

/-- No open rolerole edge touches the given id (freshness of a newly
created role id). -/
def edgesAvoid (roleID : Nat) (es : List (ERow Unit)) : Bool :=
  es.all (fun e => !e.isOpen || (!(e.x == roleID) && !(e.y == roleID)))

/-- Induction statement for updateChildsDepth at one fuel level: on a
well-formed state whose subtree below rid is stale, a successful run
leaves the edges untouched, leaves roles outside the strict subtree
untouched, gives every child of rid depth pdepth + 1, links the depth of
every strict-descendant edge target to its source, and preserves the
well-formedness facts. -/
def UCDNodeSpec (fuel : Nat) : Prop :=
  ∀ (T pdepth : Int) (rid : Nat) (s s2 : DB),
    updateChildsDepth fuel T T pdepth rid s = .ok s2 →
    OpenRowsPW s → OpenEdgesPW s.rolerole → EdgeChildExists s →
    (∃ lvl, LevelOk s.rolerole lvl) →
    (∀ id, ReachesOpen s.rolerole rid id → StaleAt T s id) →
    (s2.rolerole = s.rolerole ∧
     (∀ id, ¬ ReachesOpen s.rolerole rid id → findOpenRole s2 id = findOpenRole s id) ∧
     (∀ e ∈ s.rolerole, e.isOpen = true → e.x = rid →
       ∃ r2, findOpenRole s2 e.y = some r2 ∧ r2.attrs.depth = pdepth + 1) ∧
     (∀ e ∈ s.rolerole, e.isOpen = true → ReachesOpen s.rolerole rid e.x →
       ∃ r2 px, findOpenRole s2 e.y = some r2 ∧ findOpenRole s2 e.x = some px ∧
         r2.attrs.depth = px.attrs.depth + 1) ∧
     OpenRowsPW s2 ∧ EdgeChildExists s2)

/-- Induction statement for the child-list loop of updateChildsDepth. -/
def UCDListSpec (fuel : Nat) : Prop :=
  ∀ (T pdepth : Int) (cs : List (VRow RoleAttrs)) (s s2 : DB),
    updateChildsDepthList fuel T T pdepth cs s = .ok s2 →
    OpenRowsPW s → OpenEdgesPW s.rolerole → EdgeChildExists s →
    (∃ lvl, LevelOk s.rolerole lvl) →
    (∀ c ∈ cs, ∀ id, InSubtree s.rolerole c.id id → StaleAt T s id) →
    cs.Pairwise (fun c1 c2 => ∀ id, InSubtree s.rolerole c1.id id →
      InSubtree s.rolerole c2.id id → False) →
    (s2.rolerole = s.rolerole ∧
     (∀ id, (∀ c ∈ cs, ¬ InSubtree s.rolerole c.id id) →
       findOpenRole s2 id = findOpenRole s id) ∧
     (∀ c ∈ cs, ∃ r2, findOpenRole s2 c.id = some r2 ∧ r2.attrs.depth = pdepth + 1) ∧
     (∀ e ∈ s.rolerole, e.isOpen = true →
       (∃ c ∈ cs, InSubtree s.rolerole c.id e.x) →
       ∃ r2 px, findOpenRole s2 e.y = some r2 ∧ findOpenRole s2 e.x = some px ∧
         r2.attrs.depth = px.attrs.depth + 1) ∧
     OpenRowsPW s2 ∧ EdgeChildExists s2)

/-- Spec definition of filling the lead-link role (spec section 4.6): the
unique LeadLink child of the role has exactly one filler and that filler
is the member.  This is the specification-side formulation against which
memberIsLeadLink is compared. -/
def specFillsLeadLink (curTl tl : Int) (memberID roleID : Nat) (db : DB) : Bool :=
  match (childRolesPairs curTl tl roleID db).filter
      (fun c => c.attrs.roleType == RoleType.leadLink) with
  | [ll] =>
      match roleMemberEdgePairs curTl tl ll.id db with
      | [e] => e.1.id == memberID
      | _ => false
  | _ => false

/-- Temporal invariant start_tl <= current for every row of a role table
(spec section 3.4), as a decidable check. -/
def rowsStartLe (curTl : Int) (rows : List (VRow RoleAttrs)) : Bool :=
  rows.all (fun r => decide (r.start_tl ≤ curTl))

/-- Temporal invariant end_tl < current for every closed row of a role
table, as a decidable check. -/
def rowsEndBelow (curTl : Int) (rows : List (VRow RoleAttrs)) : Bool :=
  rows.all (fun r =>
    match r.end_tl with
    | some v => decide (v < curTl)
    | none => true)

/-! ## Concrete states used by the counterexample and witness theorems -/

/-- The empty database. -/
def emptyDB : DB :=
  ⟨[], [], [], [], [], [], [], [], [], [], [], [], [], []⟩

/-- C3 scenario, pre-state: the parent circle 1 is live since timeline 1;
commit T = 2 is being applied. -/
def c3db0 : DB :=
  { emptyDB with role := [⟨1, 1, none, ⟨.circle, 0, "General", ""⟩⟩] }

/-- C3 scenario: digest row for parent 1 at timeline 2, as created by the
CommandExecuted pass for a child-role command (event id 10, issuer 99). -/
def c3ev0 : List CCARow := [mkRoleEventCircleChangesApplied 2 10 1 99]

/-- C3 scenario, state after the RoleCreated graph pass of child 5 under
parent 1 in commit 2. -/
def c3db1 : DB :=
  { emptyDB with
    role := [⟨1, 1, none, ⟨.circle, 0, "General", ""⟩⟩,
             ⟨5, 2, none, ⟨.circle, 1, "Child", ""⟩⟩]
    rolerole := [⟨2, none, 1, 5, ()⟩] }

/-- C3 scenario: digest after the RoleCreated digest pass, child 5 marked
New. -/
def c3ev1 : List CCARow :=
  [⟨2, 10, 1,
    { changedRoles := [(5, ⟨.new, none, [], []⟩)], rolesFromCircle := [],
      rolesToCircle := [], issuerID := 99 }⟩]

/-- C5 scenario: members 1 and 2 live, one tension (id 7) raised by
member 2. -/
def c5db : DB :=
  { emptyDB with
    member := [⟨1, 1, none, ⟨false, "user1", "User One", "u1@x"⟩⟩,
               ⟨2, 1, none, ⟨false, "user2", "User Two", "u2@x"⟩⟩]
    tension := [⟨7, 1, none, ⟨"T1", "d", false, ""⟩⟩]
    membertension := [⟨1, none, 7, 2, ()⟩] }

/-- The tension row of the C5 scenario. -/
def c5tension : VRow TensionAttrs := ⟨7, 1, none, ⟨"T1", "d", false, ""⟩⟩

/-- C6 witness scenario: root circle 1 with a LeadLink child 4 filled by
member 9, all live since timeline 1. -/
def c6db : DB :=
  { emptyDB with
    role := [⟨1, 1, none, ⟨.circle, 0, "General", ""⟩⟩,
             ⟨4, 1, none, ⟨.leadLink, 1, "Lead Link", ""⟩⟩]
    rolerole := [⟨1, none, 1, 4, ()⟩]
    member := [⟨9, 1, none, ⟨false, "user9", "User Nine", "u9@x"⟩⟩]
    rolemember := [⟨1, none, 9, 4, ⟨none, false, none⟩⟩] }

/-- C2 witness scenario: root 1 with children 2 (A) and 3 (B), all live
since timeline 1; commit T = 2 moves role 2 under role 3. -/
def c2db : DB :=
  { emptyDB with
    role := [⟨1, 1, none, ⟨.circle, 0, "General", ""⟩⟩,
             ⟨2, 1, none, ⟨.circle, 1, "A", ""⟩⟩,
             ⟨3, 1, none, ⟨.circle, 1, "B", ""⟩⟩]
    rolerole := [⟨1, none, 1, 2, ()⟩, ⟨1, none, 1, 3, ()⟩] }

/-- C2 witness scenario: the state changeRoleParent produces from c2db
when role 2 moves under role 3 in commit 2 (the old parent edge and the
old role row are closed at timeline 1, the new edge and the reinserted
row with depth 2 open at 2; role 2 has no children, so the recursion
stops). -/
def c2dbMoved : DB :=
  { emptyDB with
    role := [⟨1, 1, none, ⟨.circle, 0, "General", ""⟩⟩,
             ⟨2, 1, some 1, ⟨.circle, 1, "A", ""⟩⟩,
             ⟨3, 1, none, ⟨.circle, 1, "B", ""⟩⟩,
             ⟨2, 2, none, ⟨.circle, 2, "A", ""⟩⟩]
    rolerole := [⟨1, some 1, 1, 2, ()⟩, ⟨1, none, 1, 3, ()⟩, ⟨2, none, 3, 2, ()⟩] }

/-! ## Shared lemmas -/

/-- A body that can only return a value or an error never produces the
panicked outcome. -/
theorem ofExcept_ne_panicked {α : Type} (e : Except String α) (m : String) :
    ofExcept e ≠ DbOutcome.panicked m := by
  cases e <;> simp [ofExcept]

/-- Under the temporal invariants start_tl <= current and end_tl < current
for closed rows, the timeline predicate agrees with liveness at every
requested timeline (at the current timeline through the fast path, below
it definitionally). -/
theorem timeLineCond_eq_liveAt (curTl tl start_tl : Int) (end_tl : Option Int)
    (hstart : start_tl ≤ curTl)
    (hclosed : ∀ v, end_tl = some v → v < curTl) :
    timeLineCond curTl tl start_tl end_tl = liveAt tl start_tl end_tl := by
  unfold timeLineCond
  by_cases htl : tl = curTl
  · subst htl
    cases hend : end_tl with
    | none => simp [endTlOpenCond, liveAt, hstart]
    | some v =>
        have hv := hclosed v hend
        simp [endTlOpenCond, liveAt]
        omega
  · simp [htl, generalTimeLineCond, liveAt]

/-- Mapping a function that is the identity on every element of a list
leaves the list unchanged. -/
theorem map_noop {δ : Type} (f : δ → δ) (l : List δ) (h : ∀ a ∈ l, f a = a) :
    l.map f = l := by
  induction l with
  | nil => rfl
  | cons a as ih => simp [h a (by simp), ih (fun b hb => h b (by simp [hb]))]

/-- Grouping a pair list whose keys are all equal to one key yields at most
that single group, carrying the values in order: the grouped result of
connectedVertices for a single requested id agrees with the single-key
join lists used by the specialized readers. -/
theorem groupUp_const_key {γ : Type} (k : Nat) (ps : List (Nat × γ))
    (hk : ∀ p ∈ ps, p.1 = k) :
    groupUp ps =
      (match ps with
       | [] => []
       | _ => [(k, ps.map (fun p => p.2))]) := by
  have aux : ∀ (l : List (Nat × γ)) (vs : List γ), (∀ p ∈ l, p.1 = k) →
      l.foldl (fun acc p => groupAdd p.1 p.2 acc) [(k, vs)] =
        [(k, vs ++ l.map (fun p => p.2))] := by
    intro l
    induction l with
    | nil => intro vs _; simp
    | cons p rest ih =>
        intro vs hl
        have hp : p.1 = k := hl p (by simp)
        rw [List.foldl_cons]
        have hstep : groupAdd p.1 p.2 [(k, vs)] = [(k, vs ++ [p.2])] := by
          rw [hp]; simp [groupAdd]
        rw [hstep, ih (vs ++ [p.2]) (fun q hq => hl q (by simp [hq]))]
        simp
  cases ps with
  | nil => simp [groupUp]
  | cons p rest =>
      have hp : p.1 = k := hk p (by simp)
      have hstep : groupAdd p.1 p.2 [] = [(k, [p.2])] := by
        rw [hp]; simp [groupAdd]
      simp only [groupUp, List.foldl_cons, hstep]
      rw [aux rest [p.2] (fun q hq => hk q (by simp [hq]))]
      simp

/-! ## C1: the current-timeline fast path -/

/-- C1: for every row satisfying the temporal invariants (start_tl at most
the current timeline, end_tl of a closed row strictly below it), the fast
path end_tl IS OPEN of the timeline predicate builder selects the row iff
the general predicate at tl = current does, and iff the row is live at the
current timeline; and the builder takes exactly the fast path at the
current timeline. -/
theorem c1_timeline_fast_path_equiv (curTl start_tl : Int) (end_tl : Option Int)
    (hstart : start_tl ≤ curTl)
    (hclosed : ∀ v, end_tl = some v → v < curTl) :
    timeLineCond curTl curTl start_tl end_tl = endTlOpenCond end_tl ∧
    endTlOpenCond end_tl = generalTimeLineCond curTl start_tl end_tl ∧
    endTlOpenCond end_tl = liveAt curTl start_tl end_tl := by
  refine ⟨by simp [timeLineCond], ?_, ?_⟩ <;>
    cases hend : end_tl with
    | none => simp [endTlOpenCond, generalTimeLineCond, liveAt, hstart]
    | some v =>
        have hv := hclosed v hend
        simp [endTlOpenCond, generalTimeLineCond, liveAt]
        omega

/-- Witness for C1 at a concrete closed row (start 1, end 1, current 2). -/
theorem c1_timeline_fast_path_equiv_witness :
    (1 : Int) ≤ 2 ∧
    (timeLineCond 2 2 1 (some 1) = endTlOpenCond (some 1) ∧
      endTlOpenCond (some 1) = generalTimeLineCond 2 1 (some 1) ∧
      endTlOpenCond (some 1) = liveAt 2 1 (some 1)) :=
  ⟨by decide,
    c1_timeline_fast_path_equiv 2 1 (some 1) (by decide)
      (by intro v h; cases h; decide)⟩

/-! ## C9: closing an absent or already-closed row is a silent no-op -/

/-- C9: when no row of the vertex table with the requested id satisfies the
last-timeline predicate, closeVertex leaves the table unchanged (the
UPDATE matches nothing and reports no error), and likewise closeEdge for
the edge table keyed (x, y); deleteVertex and deleteEdge, which close at
tl - 1, are then no-ops as well. -/
theorem c9_close_missing_noop {α β : Type} (curTl endtl : Int) (id x y : Nat)
    (vtable : List (VRow α)) (etable : List (ERow β))
    (hv : ∀ r ∈ vtable, r.id = id →
      lastTimeLineCond curTl endtl r.start_tl r.end_tl = false)
    (he : ∀ e ∈ etable, e.x = x → e.y = y →
      lastTimeLineCond curTl endtl e.start_tl e.end_tl = false) :
    closeVertexRows curTl endtl id vtable = vtable ∧
    closeEdgeRows curTl endtl x y etable = etable ∧
    deleteVertexRows curTl (endtl + 1) id vtable = vtable ∧
    deleteEdgeRows curTl (endtl + 1) x y etable = etable := by
  have hv2 : closeVertexRows curTl endtl id vtable = vtable := by
    unfold closeVertexRows
    refine map_noop _ _ (fun r hr => ?_)
    rw [if_neg]
    rintro ⟨h1, h2⟩
    rw [hv r hr h1] at h2
    cases h2
  have he2 : closeEdgeRows curTl endtl x y etable = etable := by
    unfold closeEdgeRows
    refine map_noop _ _ (fun e heM => ?_)
    rw [if_neg]
    rintro ⟨h1, h2, h3⟩
    rw [he e heM h1 h2] at h3
    cases h3
  have harith : endtl + 1 - 1 = endtl := by omega
  refine ⟨hv2, he2, ?_, ?_⟩
  · unfold deleteVertexRows; rw [harith]; exact hv2
  · unfold deleteEdgeRows; rw [harith]; exact he2

/-- Witness for C9: one already-closed role row and one already-closed edge
row, closed again at end timeline 1 with current timeline 2. -/
theorem c9_close_missing_noop_witness :
    closeVertexRows 2 1 5 [(⟨5, 1, some 1, ⟨RoleType.normal, 0, "", ""⟩⟩ : VRow RoleAttrs)] =
      [⟨5, 1, some 1, ⟨RoleType.normal, 0, "", ""⟩⟩] ∧
    closeEdgeRows 2 1 5 6 [(⟨1, some 1, 5, 6, ()⟩ : ERow Unit)] = [⟨1, some 1, 5, 6, ()⟩] ∧
    deleteVertexRows 2 2 5 [(⟨5, 1, some 1, ⟨RoleType.normal, 0, "", ""⟩⟩ : VRow RoleAttrs)] =
      [⟨5, 1, some 1, ⟨RoleType.normal, 0, "", ""⟩⟩] ∧
    deleteEdgeRows 2 2 5 6 [(⟨1, some 1, 5, 6, ()⟩ : ERow Unit)] = [⟨1, some 1, 5, 6, ()⟩] :=
  c9_close_missing_noop 2 1 5 5 6 _ _ (by decide) (by decide)

/-! ## C8: the tl <= 0 guard of the generic readers -/

/-- C8: each generic reader entry point treats tl <= 0 as a programming
error and panics before issuing any query, and with tl > 0 the panic
branch is unreachable: the remainder of each body only returns values or
errors. -/
theorem c8_generic_reader_tl_guard :
    (∀ curTl tl vc limit cond db,
      (tl ≤ 0 → vertices curTl tl vc limit cond db = .panicked wrongTlMsg) ∧
      (0 < tl → ∀ m, vertices curTl tl vc limit cond db ≠ .panicked m)) ∧
    (∀ curTl tl ids ec dir out cond db,
      (tl ≤ 0 →
        connectedVertices curTl tl ids ec dir out cond db = .panicked wrongTlMsg) ∧
      (0 < tl → ∀ m, connectedVertices curTl tl ids ec dir out cond db ≠ .panicked m)) ∧
    (∀ curTl tl vc ec dir ids cond db,
      (tl ≤ 0 →
        verticesFiltered curTl tl vc ec dir ids cond db = .panicked wrongTlMsg) ∧
      (0 < tl → ∀ m, verticesFiltered curTl tl vc ec dir ids cond db ≠ .panicked m)) ∧
    (∀ curTl tl db,
      (tl ≤ 0 → CheckBrokenEdges curTl tl db = .panicked wrongTlMsg) ∧
      (0 < tl → ∀ m, CheckBrokenEdges curTl tl db ≠ .panicked m)) := by
  refine ⟨?_, ?_, ?_, ?_⟩ <;> intros <;> refine ⟨fun h => ?_, fun h m => ?_⟩
  · rw [vertices, if_pos h]
  · rw [vertices, if_neg (by omega)]; exact ofExcept_ne_panicked _ _
  · rw [connectedVertices, if_pos h]
  · rw [connectedVertices, if_neg (by omega)]; exact ofExcept_ne_panicked _ _
  · rw [verticesFiltered, if_pos h]
  · rw [verticesFiltered, if_neg (by omega)]; exact ofExcept_ne_panicked _ _
  · rw [CheckBrokenEdges, if_pos h]
  · rw [CheckBrokenEdges, if_neg (by omega)]; exact ofExcept_ne_panicked _ _

/-- Witness for C8: the guard fires at tl = -1 and is unreachable at
tl = 1, on each of the four entry points. -/
theorem c8_generic_reader_tl_guard_witness :
    (vertices 1 (-1) .role 0 none emptyDB = .panicked wrongTlMsg ∧
      ∀ m, vertices 1 1 .role 0 none emptyDB ≠ .panicked m) ∧
    (connectedVertices 1 (-1) [] .roleRole .out none none emptyDB = .panicked wrongTlMsg ∧
      ∀ m, connectedVertices 1 1 [] .roleRole .out none none emptyDB ≠ .panicked m) ∧
    (verticesFiltered 1 (-1) .role .roleRole .out [] none emptyDB = .panicked wrongTlMsg ∧
      ∀ m, verticesFiltered 1 1 .role .roleRole .out [] none emptyDB ≠ .panicked m) ∧
    (CheckBrokenEdges 1 (-1) emptyDB = .panicked wrongTlMsg ∧
      ∀ m, CheckBrokenEdges 1 1 emptyDB ≠ .panicked m) :=
  ⟨⟨(c8_generic_reader_tl_guard.1 1 (-1) .role 0 none emptyDB).1 (by decide),
    (c8_generic_reader_tl_guard.1 1 1 .role 0 none emptyDB).2 (by decide)⟩,
   ⟨(c8_generic_reader_tl_guard.2.1 1 (-1) [] .roleRole .out none none emptyDB).1 (by decide),
    (c8_generic_reader_tl_guard.2.1 1 1 [] .roleRole .out none none emptyDB).2 (by decide)⟩,
   ⟨(c8_generic_reader_tl_guard.2.2.1 1 (-1) .role .roleRole .out [] none emptyDB).1 (by decide),
    (c8_generic_reader_tl_guard.2.2.1 1 1 .role .roleRole .out [] none emptyDB).2 (by decide)⟩,
   ⟨(c8_generic_reader_tl_guard.2.2.2 1 (-1) emptyDB).1 (by decide),
    (c8_generic_reader_tl_guard.2.2.2 1 1 emptyDB).2 (by decide)⟩⟩

/-! ## C5: MemberTensions only checks the first queried id -/

/-- C5, counter-evidence for the claim as stated: with caller 1 and
queried ids [1, 2], some queried id (2) differs from the caller, yet the
call does not return the absent map: it returns the tensions of both
queried members, including the tension of member 2 — the loop of
MemberTensions returns early only when the FIRST id differs from the
caller, as the single-id call shows. -/
theorem c5_member_tensions_first_id_only :
    (2 : Nat) ≠ 1 ∧
    MemberTensions 1 1 1 [1, 2] c5db = .ok (some [(2, [c5tension])]) ∧
    MemberTensions 1 1 1 [2] c5db = .ok none :=
  ⟨by decide, by decide, by decide⟩

/-! ## C3: created-and-deleted within one commit panics in the deleted
digest pass -/

/-- C3, behavior of the code on the created-then-deleted scenario: in
commit T = 2, child 5 is created under parent circle 1 (graph pass, then
digest pass marking 5 as New in the digest of parent 1), then deleted in
the same commit.  The RoleDeleted graph pass leaves every row unchanged
(the close conditions require start_tl <= 1 but the new rows start at 2),
and the RoleDeleted digest pass looks the parent up at timeline 1, where
the same-commit edge is not live, and dereferences the missing parent: a
nil-pointer panic, reached before the code that would remove the New
entry. -/
theorem c3_create_delete_same_commit_panics :
    applyRoleCreatedGraph 2 2 5 (some 1) .circle "Child" "" c3db0 = .ok c3db1 ∧
    applyRoleCreatedDigest 2 2 5 (some 1) .circle c3db1 c3ev0 = .ok c3ev1 ∧
    applyRoleDeletedGraph 2 2 5 c3db1 = .ok c3db1 ∧
    applyRoleDeletedDigest 2 2 5 c3db1 c3ev1 = .panicked "nil pointer dereference" :=
  ⟨by decide, by decide, by decide, by decide⟩

/-! ## C10: verbatim interpolation of the members search string -/

/-- Equality of strings from equality of their character data. -/
theorem string_data_ext (a b : String) (h : a.data = b.data) : a = b := by
  cases a; cases b; exact congrArg String.mk h

/-- C10: the search string of MembersInternal is spliced verbatim into the
SQL LIKE text with no bound parameter; consequently the match is not a
literal substring match: a search string with a percent sign (or an
underscore) matches a fullname that does not literally contain it, and a
single-quote character in the search string changes the quote structure of
the query text itself (three quotes instead of two). -/
theorem c10_members_search_interpolated :
    (∀ s : String,
      membersSearchCondFullName s = (likeCondFullNamePre ++ s ++ likeCondPost, []) ∧
      (membersSearchCondFullName s).2 = [] ∧
      (membersSearchCondUserName s).2 = []) ∧
    (∀ s : String, countQuotes (likeCondText "member.fullname" s) = 2 + countQuotes s) ∧
    (containsLiteral "axb" "a%b" = false ∧ membersSearchMatches "a%b" "axb" "zz" = true) ∧
    (containsLiteral "aqb" "a_b" = false ∧ membersSearchMatches "a_b" "aqb" "zz" = true) ∧
    countQuotes (likeCondText "member.fullname" sqlQuote) = 3 := by
  refine ⟨?_, ?_, ⟨by decide, by decide⟩, ⟨by decide, by decide⟩, by decide⟩
  · intro s
    refine ⟨?_, rfl, rfl⟩
    show (likeCondText "member.fullname" s, ([] : List String)) = _
    have htxt : likeCondText "member.fullname" s = likeCondFullNamePre ++ s ++ likeCondPost := by
      refine string_data_ext _ _ ?_
      simp [likeCondText, likeCondFullNamePre, likeCondPost, String.data_append]
    rw [htxt]
  · intro s
    have hqa : ∀ a b : String, countQuotes (a ++ b) = countQuotes a + countQuotes b := by
      intro a b
      simp [countQuotes, String.data_append, List.count_append]
    have h1 : countQuotes "lower(" = 0 := by decide
    have h2 : countQuotes "member.fullname" = 0 := by decide
    have h3 : countQuotes ") LIKE lower(" = 0 := by decide
    have h4 : countQuotes sqlQuote = 1 := by decide
    have h5 : countQuotes "%" = 0 := by decide
    have h6 : countQuotes ")" = 0 := by decide
    rw [likeCondText, hqa, hqa, hqa, hqa, hqa, hqa, hqa, hqa, h1, h2, h3, h4, h5, h6]
    omega

/-! ## C7: uniqueness of the root role -/

/-- C7: under the temporal invariants, RootRole returns the invariant
violation error exactly when more than one depth-0 role is live at tl;
with no live depth-0 role it returns absent with no error; with exactly
one it returns that role. -/
theorem c7_root_role_unique (curTl tl : Int) (db : DB)
    (htl : 0 < tl)
    (hstart : rowsStartLe curTl db.role = true)
    (hend : rowsEndBelow curTl db.role = true) :
    (RootRoleInternal curTl tl db = .failed "too many root roles" ↔
      1 < (db.role.filter (fun r => liveAt tl r.start_tl r.end_tl &&
        (r.attrs.depth == 0))).length) ∧
    ((db.role.filter (fun r => liveAt tl r.start_tl r.end_tl &&
        (r.attrs.depth == 0))).length = 0 →
      RootRoleInternal curTl tl db = .ok none) ∧
    (∀ r, db.role.filter (fun r => liveAt tl r.start_tl r.end_tl &&
        (r.attrs.depth == 0)) = [r] →
      RootRoleInternal curTl tl db = .ok (some r)) := by
  have hs := List.all_eq_true.mp hstart
  have he := List.all_eq_true.mp hend
  have hfe : db.role.filter (fun r => timeLineCond curTl tl r.start_tl r.end_tl &&
      evalCondRole (.roleDepthEq 0) r) =
      db.role.filter (fun r => liveAt tl r.start_tl r.end_tl && (r.attrs.depth == 0)) := by
    refine List.filter_congr (fun r hr => ?_)
    have h1 : r.start_tl ≤ curTl := of_decide_eq_true (hs r hr)
    have h2 : ∀ v, r.end_tl = some v → v < curTl := by
      intro v hv
      have h3 := he r hr
      rw [hv] at h3
      exact of_decide_eq_true h3
    rw [timeLineCond_eq_liveAt curTl tl _ _ h1 h2]
    rfl
  have hbody : verticesBody curTl tl .role 0 (some (.roleDepthEq 0)) db =
      .ok (.roles (db.role.filter (fun r => timeLineCond curTl tl r.start_tl r.end_tl &&
        evalCondRole (.roleDepthEq 0) r))) := by
    simp [verticesBody, selectVertexRows, applyLimit]
  have hvert : vertices curTl tl .role 0 (some (.roleDepthEq 0)) db =
      .ok (.roles (db.role.filter (fun r => liveAt tl r.start_tl r.end_tl &&
        (r.attrs.depth == 0)))) := by
    rw [vertices, if_neg (by omega), hbody, hfe]
    rfl
  have hroot : RootRoleInternal curTl tl db =
      (if (db.role.filter (fun r => liveAt tl r.start_tl r.end_tl &&
          (r.attrs.depth == 0))).length = 0 then .ok none
       else if (db.role.filter (fun r => liveAt tl r.start_tl r.end_tl &&
          (r.attrs.depth == 0))).length > 1 then .failed "too many root roles"
       else .ok (db.role.filter (fun r => liveAt tl r.start_tl r.end_tl &&
          (r.attrs.depth == 0))).head?) := by
    unfold RootRoleInternal
    rw [hvert]
  rcases hL : db.role.filter (fun r => liveAt tl r.start_tl r.end_tl &&
      (r.attrs.depth == 0)) with _ | ⟨a, _ | ⟨b, rest2⟩⟩
  · rw [hL] at hroot
    simp only [List.length_nil, if_pos rfl] at hroot
    refine ⟨?_, fun _ => hroot, ?_⟩
    · rw [hroot, hL]
      simp
    · intro r hr
      rw [hL] at hr
      cases hr
  · rw [hL] at hroot
    simp only [List.length_cons, List.length_nil] at hroot
    norm_num at hroot
    refine ⟨?_, ?_, ?_⟩
    · rw [hroot, hL]
      simp
    · intro h0
      rw [hL] at h0
      simp at h0
    · intro r hr
      rw [hL] at hr
      have ha : a = r := by
        injection hr
      subst ha
      exact hroot
  · rw [hL] at hroot
    simp only [List.length_cons] at hroot
    norm_num at hroot
    refine ⟨?_, ?_, ?_⟩
    · rw [hroot, hL]
      simp
    · intro h0
      rw [hL] at h0
      simp at h0
    · intro r hr
      rw [hL] at hr
      simp at hr

/-- Witness for C7 at the concrete three-role state: exactly one live
depth-0 role, returned without error. -/
theorem c7_root_role_unique_witness :
    RootRoleInternal 1 1 c2db = .ok (some ⟨1, 1, none, ⟨.circle, 0, "General", ""⟩⟩) :=
  (c7_root_role_unique 1 1 c2db (by decide) (by decide) (by decide)).2.2
    ⟨1, 1, none, ⟨.circle, 0, "General", ""⟩⟩ (by decide)

/-! ## C4: the role-event feed -/

/-- Membership in the insertion step of the descending sort. -/
theorem mem_insertDescByTimeline (r a : RoleEventRow) (l : List RoleEventRow) :
    a ∈ insertDescByTimeline r l ↔ a = r ∨ a ∈ l := by
  induction l with
  | nil => simp [insertDescByTimeline]
  | cons x xs ih =>
      unfold insertDescByTimeline
      by_cases hlt : x.timeline < r.timeline
      · rw [if_pos hlt]
        simp [List.mem_cons]
      · rw [if_neg hlt]
        simp [List.mem_cons, ih]
        tauto

/-- The insertion step preserves the descending order. -/
theorem sorted_insertDescByTimeline (r : RoleEventRow) (l : List RoleEventRow)
    (h : l.Pairwise (fun a b => b.timeline ≤ a.timeline)) :
    (insertDescByTimeline r l).Pairwise (fun a b => b.timeline ≤ a.timeline) := by
  induction l with
  | nil => simp [insertDescByTimeline]
  | cons x xs ih =>
      rw [List.pairwise_cons] at h
      obtain ⟨hx, hxs⟩ := h
      unfold insertDescByTimeline
      by_cases hlt : x.timeline < r.timeline
      · rw [if_pos hlt]
        refine List.pairwise_cons.mpr ⟨?_, List.pairwise_cons.mpr ⟨hx, hxs⟩⟩
        intro b hb
        rcases List.mem_cons.mp hb with hbx | hbxs
        · subst hbx; omega
        · have := hx b hbxs; omega
      · rw [if_neg hlt]
        refine List.pairwise_cons.mpr ⟨?_, ih hxs⟩
        intro b hb
        rcases (mem_insertDescByTimeline r b xs).mp hb with hbr | hbxs
        · subst hbr; omega
        · exact hx b hbxs

/-- The ORDER BY model indeed sorts in descending timeline order. -/
theorem sorted_sortByTimelineDesc (l : List RoleEventRow) :
    (sortByTimelineDesc l).Pairwise (fun a b => b.timeline ≤ a.timeline) := by
  induction l with
  | nil => simp [sortByTimelineDesc]
  | cons x xs ih => exact sorted_insertDescByTimeline x _ ih

/-- The ORDER BY model keeps exactly the input rows. -/
theorem mem_sortByTimelineDesc (a : RoleEventRow) (l : List RoleEventRow) :
    a ∈ sortByTimelineDesc l ↔ a ∈ l := by
  induction l with
  | nil => simp [sortByTimelineDesc]
  | cons x xs ih =>
      show a ∈ insertDescByTimeline x (sortByTimelineDesc xs) ↔ _
      rw [mem_insertDescByTimeline]
      simp [ih, List.mem_cons]

/-- The insertion step adds one row. -/
theorem length_insertDescByTimeline (r : RoleEventRow) (l : List RoleEventRow) :
    (insertDescByTimeline r l).length = l.length + 1 := by
  induction l with
  | nil => rfl
  | cons x xs ih =>
      unfold insertDescByTimeline
      by_cases hlt : x.timeline < r.timeline
      · rw [if_pos hlt]; simp
      · rw [if_neg hlt]; simp [ih]

/-- The ORDER BY model preserves the row count. -/
theorem length_sortByTimelineDesc (l : List RoleEventRow) :
    (sortByTimelineDesc l).length = l.length := by
  induction l with
  | nil => rfl
  | cons x xs ih =>
      show (insertDescByTimeline x (sortByTimelineDesc xs)).length = _
      rw [length_insertDescByTimeline, ih]
      rfl

/-- A nonzero LIMIT is the prefix of the unlimited query. -/
theorem roleEventsInternal_limit (roleID : Nat) (first : Nat) (start after : Int)
    (table : List RoleEventRow) (h : first ≠ 0) :
    RoleEventsInternal roleID first start after table =
      (RoleEventsInternal roleID 0 start after table).take first := by
  simp [RoleEventsInternal, h]

/-- The feed query is sorted by timeline descending for every limit. -/
theorem roleEventsInternal_sorted (roleID : Nat) (first : Nat) (start after : Int)
    (table : List RoleEventRow) :
    (RoleEventsInternal roleID first start after table).Pairwise
      (fun a b => b.timeline ≤ a.timeline) := by
  simp only [RoleEventsInternal]
  split
  · exact List.Pairwise.sublist (List.take_sublist _ _) (sorted_sortByTimelineDesc _)
  · exact sorted_sortByTimelineDesc _

/-- C4: RoleEvents orders by timeline descending; with only start nonzero
the selected events are those with timeline <= start, with after nonzero
those with timeline < after regardless of start (after overrides); a first
of 0 defaults to 25; first + 1 rows are requested internally and has-more
is true exactly when more than first matching rows exist. -/
theorem c4_role_events_feed :
    (∀ roleID first start after table,
      (RoleEventsInternal roleID first start after table).Pairwise
        (fun a b => b.timeline ≤ a.timeline) ∧
      ((RoleEvents roleID first start after table).1).Pairwise
        (fun a b => b.timeline ≤ a.timeline)) ∧
    (∀ roleID start after table r, after = 0 → start ≠ 0 →
      (r ∈ RoleEventsInternal roleID 0 start after table ↔
        r ∈ table ∧ r.roleid = roleID ∧ r.timeline ≤ start)) ∧
    (∀ roleID start after table r, after ≠ 0 →
      (r ∈ RoleEventsInternal roleID 0 start after table ↔
        r ∈ table ∧ r.roleid = roleID ∧ r.timeline < after)) ∧
    (MaxFetchSize = 25 ∧ ∀ roleID start after table,
      RoleEvents roleID 0 start after table = RoleEvents roleID 25 start after table) ∧
    (∀ roleID first start after table, 0 < first →
      (RoleEvents roleID first start after table).1 =
        (RoleEventsInternal roleID (first + 1) start after table).take first ∧
      ((RoleEvents roleID first start after table).2 = true ↔
        first < (RoleEventsInternal roleID 0 start after table).length)) := by
  refine ⟨?_, ?_, ?_, ⟨rfl, ?_⟩, ?_⟩
  · intro roleID first start after table
    refine ⟨roleEventsInternal_sorted _ _ _ _ _, ?_⟩
    simp only [RoleEvents]
    exact List.Pairwise.sublist (List.take_sublist _ _)
      (roleEventsInternal_sorted _ _ _ _ _)
  · intro roleID start after table r h0 hs
    subst h0
    simp [RoleEventsInternal, hs, mem_sortByTimelineDesc, List.mem_filter, and_assoc]
    tauto
  · intro roleID start after table r ha
    simp [RoleEventsInternal, ha, mem_sortByTimelineDesc, List.mem_filter, and_assoc]
    tauto
  · intro roleID start after table
    simp [RoleEvents, MaxFetchSize]
  · intro roleID first start after table hf
    have hne : first ≠ 0 := by omega
    constructor
    · simp only [RoleEvents, if_neg hne]
      by_cases hlen : (RoleEventsInternal roleID (first + 1) start after table).length > first
      · rw [if_pos hlen]
      · rw [if_neg hlen]
        rw [List.take_length, List.take_of_length_le (by omega)]
    · have h1 : (RoleEventsInternal roleID (first + 1) start after table).length =
          min (first + 1) (RoleEventsInternal roleID 0 start after table).length := by
        rw [roleEventsInternal_limit roleID (first + 1) start after table (by omega)]
        exact List.length_take _ _
      simp only [RoleEvents, if_neg hne, decide_eq_true_eq]
      omega

/-- Witness for C4 on a concrete three-event table: the page of size 1 with
its has-more flag, and the start bound. -/
theorem c4_role_events_feed_witness :
    ((RoleEvents 1 1 0 0 [⟨1, 10, 1, "t", ""⟩, ⟨3, 11, 1, "t", ""⟩, ⟨2, 12, 1, "t", ""⟩]).1 =
      (RoleEventsInternal 1 2 0 0
        [⟨1, 10, 1, "t", ""⟩, ⟨3, 11, 1, "t", ""⟩, ⟨2, 12, 1, "t", ""⟩]).take 1 ∧
      ((RoleEvents 1 1 0 0 [⟨1, 10, 1, "t", ""⟩, ⟨3, 11, 1, "t", ""⟩, ⟨2, 12, 1, "t", ""⟩]).2 = true ↔
        1 < (RoleEventsInternal 1 0 0 0
          [⟨1, 10, 1, "t", ""⟩, ⟨3, 11, 1, "t", ""⟩, ⟨2, 12, 1, "t", ""⟩]).length)) ∧
    ((⟨1, 10, 1, "t", ""⟩ : RoleEventRow) ∈ RoleEventsInternal 1 0 2 0
        [⟨1, 10, 1, "t", ""⟩, ⟨3, 11, 1, "t", ""⟩, ⟨2, 12, 1, "t", ""⟩] ↔
      (⟨1, 10, 1, "t", ""⟩ : RoleEventRow) ∈
          [⟨1, 10, 1, "t", ""⟩, ⟨3, 11, 1, "t", ""⟩, ⟨2, 12, 1, "t", ""⟩] ∧
        (1 : Nat) = 1 ∧ (1 : Int) ≤ 2) :=
  ⟨c4_role_events_feed.2.2.2.2 1 1 0 0
      [⟨1, 10, 1, "t", ""⟩, ⟨3, 11, 1, "t", ""⟩, ⟨2, 12, 1, "t", ""⟩] (by decide),
    c4_role_events_feed.2.1 1 2 0
      [⟨1, 10, 1, "t", ""⟩, ⟨3, 11, 1, "t", ""⟩, ⟨2, 12, 1, "t", ""⟩]
      ⟨1, 10, 1, "t", ""⟩ rfl (by decide)⟩

/-! ## C6: circle permissions -/

/-- A filter with a single survivor pins down find?. -/
theorem find?_of_filter_eq_singleton {δ : Type} (p : δ → Bool) (l : List δ) (a : δ)
    (h : l.filter p = [a]) : l.find? p = some a := by
  induction l with
  | nil => simp at h
  | cons x xs ih =>
      by_cases hx : p x
      · rw [List.filter_cons_of_pos hx] at h
        injection h with h1 h2
        subst h1
        simp [List.find?, hx]
      · rw [List.filter_cons_of_neg hx] at h
        have hx2 : p x = false := by simpa using hx
        simp only [List.find?, hx2]
        exact ih h

/-- Under the uniqueness invariants (at most one LeadLink child, at most
one filler of it), the first-match logic of memberIsLeadLink computes
exactly the specification predicate: the unique LeadLink child has exactly
one filler and that filler is the member. -/
theorem memberIsLeadLink_eq_spec (curTl tl : Int) (memberID roleID : Nat) (db : DB)
    (htl : 0 < tl)
    (hllu : ((childRolesPairs curTl tl roleID db).filter
      (fun c => c.attrs.roleType == RoleType.leadLink)).length ≤ 1)
    (hfill : ∀ ll ∈ (childRolesPairs curTl tl roleID db).filter
      (fun c => c.attrs.roleType == RoleType.leadLink),
      (roleMemberEdgePairs curTl tl ll.id db).length ≤ 1) :
    memberIsLeadLink curTl tl memberID roleID db =
      .ok (specFillsLeadLink curTl tl memberID roleID db) := by
  have hguard : ¬ tl ≤ 0 := by omega
  rcases hF : (childRolesPairs curTl tl roleID db).filter
      (fun c => c.attrs.roleType == RoleType.leadLink) with _ | ⟨ll, rest⟩
  · have hfind : (childRolesPairs curTl tl roleID db).find?
        (fun c => c.attrs.roleType == RoleType.leadLink) = none := by
      rw [List.find?_eq_none]
      intro x hx hpx
      exact (List.filter_eq_nil_iff.mp hF) x hx hpx
    simp only [memberIsLeadLink, ChildRolesInternal1, if_neg hguard, hfind,
      specFillsLeadLink, hF]
  · have hrest : rest = [] := by
      rw [hF] at hllu
      simp at hllu
      exact hllu
    subst hrest
    have hfind := find?_of_filter_eq_singleton
      (fun c => c.attrs.roleType == RoleType.leadLink)
      (childRolesPairs curTl tl roleID db) ll hF
    have hmem : ll ∈ (childRolesPairs curTl tl roleID db).filter
        (fun c => c.attrs.roleType == RoleType.leadLink) := by
      rw [hF]; simp
    have hfl := hfill ll hmem
    rcases hE : roleMemberEdgePairs curTl tl ll.id db with _ | ⟨e, rest2⟩
    · simp only [memberIsLeadLink, ChildRolesInternal1, RoleMemberEdgesInternal1,
        if_neg hguard, hfind, hE, specFillsLeadLink, hF]
    · have hrest2 : rest2 = [] := by
        rw [hE] at hfl
        simp at hfl
        exact hfl
      subst hrest2
      simp only [memberIsLeadLink, ChildRolesInternal1, RoleMemberEdgesInternal1,
        if_neg hguard, hfind, hE, specFillsLeadLink, hF]

/-- C6: MemberCirclePermissions yields the absent record with no error when
the target role exists but is not a Circle; on a Circle, each of the six
management flags is granted exactly when the caller is admin or fills the
unique lead-link child (exactly one filler, equal to the caller), and the
two root flags are additionally granted under the same rule exactly when
the circle has no parent. -/
theorem c6_member_circle_permissions (curTl tl : Int) (cmID : Nat) (isAdmin : Bool)
    (roleID : Nat) (db : DB) (role : VRow RoleAttrs)
    (htl : 0 < tl)
    (hrole : RoleInternal curTl tl roleID db = .ok (some role))
    (hllu : ((childRolesPairs curTl tl roleID db).filter
      (fun c => c.attrs.roleType == RoleType.leadLink)).length ≤ 1)
    (hfill : ∀ ll ∈ (childRolesPairs curTl tl roleID db).filter
      (fun c => c.attrs.roleType == RoleType.leadLink),
      (roleMemberEdgePairs curTl tl ll.id db).length ≤ 1) :
    (role.attrs.roleType ≠ .circle →
      MemberCirclePermissions curTl tl cmID isAdmin roleID db = .ok none) ∧
    (role.attrs.roleType = .circle →
      MemberCirclePermissions curTl tl cmID isAdmin roleID db = .ok (some
        { assignChildCircleLeadLink := isAdmin || specFillsLeadLink curTl tl cmID roleID db
          assignCircleCoreRoles := isAdmin || specFillsLeadLink curTl tl cmID roleID db
          assignChildRoleMembers := isAdmin || specFillsLeadLink curTl tl cmID roleID db
          assignCircleDirectMembers := isAdmin || specFillsLeadLink curTl tl cmID roleID db
          manageChildRoles := isAdmin || specFillsLeadLink curTl tl cmID roleID db
          manageRoleAdditionalContent := isAdmin || specFillsLeadLink curTl tl cmID roleID db
          assignRootCircleLeadLink := (roleParentQ curTl tl roleID db).isNone &&
            (isAdmin || specFillsLeadLink curTl tl cmID roleID db)
          manageRootCircle := (roleParentQ curTl tl roleID db).isNone &&
            (isAdmin || specFillsLeadLink curTl tl cmID roleID db) })) := by
  have hguard : ¬ tl ≤ 0 := by omega
  have hspec := memberIsLeadLink_eq_spec curTl tl cmID roleID db htl hllu hfill
  constructor
  · intro hne
    simp only [MemberCirclePermissions, hrole]
    rw [if_pos hne]
  · intro hcirc
    simp only [MemberCirclePermissions, hrole]
    rw [if_neg (by simp [hcirc])]
    simp only [RoleParentInternal1, if_neg hguard, hspec, roleParentQ]

/-- Witness for C6 on the concrete root circle with lead-link child 4
filled by member 9: the non-admin caller 9 receives every flag, root flags
included. -/
theorem c6_member_circle_permissions_witness :
    MemberCirclePermissions 1 1 9 false 1 c6db =
      .ok (some ⟨true, true, true, true, true, true, true, true⟩) := by
  have h := (c6_member_circle_permissions 1 1 9 false 1 c6db
    ⟨1, 1, none, ⟨.circle, 0, "General", ""⟩⟩
    (by decide) (by decide) (by decide) (by decide)).2 rfl
  rw [h]
  decide

/-! ## C2: lemmas about reachability along open edges -/

/-- A level function bounds reachability: the level strictly increases
along every open path. -/
theorem reaches_lvl (E : List (ERow Unit)) (lvl : Nat → Int) (hl : LevelOk E lvl) :
    ∀ a b, ReachesOpen E a b → lvl a + 1 ≤ lvl b := by
  intro a b h
  induction h with
  | base e he ho => exact le_of_eq (hl e he ho).symm
  | tail a e h he ho ih =>
      have := hl e he ho
      omega

/-- On a graded edge set no id reaches itself. -/
theorem reaches_irrefl (E : List (ERow Unit)) (lvl : Nat → Int) (hl : LevelOk E lvl)
    (a : Nat) : ¬ ReachesOpen E a a := by
  intro h
  have := reaches_lvl E lvl hl a a h
  omega

/-- Transitivity of reachability. -/
theorem reaches_trans (E : List (ERow Unit)) :
    ∀ a b c, ReachesOpen E a b → ReachesOpen E b c → ReachesOpen E a c := by
  intro a b c h1 h2
  induction h2 with
  | base e he ho => exact .tail a e h1 he ho
  | tail b2 e h he ho ih => exact .tail a e (ih h1) he ho

/-- Every reach leaves its source through an open edge. -/
theorem reaches_first_edge (E : List (ERow Unit)) :
    ∀ a z, ReachesOpen E a z →
      ∃ e ∈ E, e.isOpen = true ∧ e.x = a ∧ (e.y = z ∨ ReachesOpen E e.y z) := by
  intro a z h
  induction h with
  | base e he ho => exact ⟨e, he, ho, rfl, .inl rfl⟩
  | tail a2 e h he ho ih =>
      obtain ⟨e0, he0, ho0, hx0, hrest⟩ := ih
      refine ⟨e0, he0, ho0, hx0, .inr ?_⟩
      cases hrest with
      | inl h1 =>
          rw [h1]
          exact .base e he ho
      | inr h1 => exact .tail _ e h1 he ho

/-- Every reach enters its target through an open edge. -/
theorem reaches_last_edge (E : List (ERow Unit)) :
    ∀ a z, ReachesOpen E a z →
      ∃ e ∈ E, e.isOpen = true ∧ e.y = z ∧ (e.x = a ∨ ReachesOpen E a e.x) := by
  intro a z h
  cases h with
  | base e he ho => exact ⟨e, he, ho, rfl, .inl rfl⟩
  | tail a e h he ho => exact ⟨e, he, ho, rfl, .inr h⟩

/-- With unique open in-edges, two ids reaching a common target are equal
or related. -/
theorem reaches_back_unique (E : List (ERow Unit))
    (hu : ∀ e1 ∈ E, ∀ e2 ∈ E, e1.isOpen = true → e2.isOpen = true → e1.y = e2.y → e1 = e2) :
    ∀ a z, ReachesOpen E a z → ∀ b, ReachesOpen E b z →
      a = b ∨ ReachesOpen E a b ∨ ReachesOpen E b a := by
  intro a z h1
  induction h1 with
  | base e he ho =>
      intro b h2
      obtain ⟨e2, he2, ho2, hy2, hrest⟩ := reaches_last_edge E b e.y h2
      have he2e : e2 = e := hu e2 he2 e he ho2 ho hy2
      subst he2e
      cases hrest with
      | inl hxb => exact .inl hxb
      | inr hb => exact .inr (.inr hb)
  | tail a2 e h he ho ih =>
      intro b h2
      obtain ⟨e2, he2, ho2, hy2, hrest⟩ := reaches_last_edge E b e.y h2
      have he2e : e2 = e := hu e2 he2 e he ho2 ho hy2
      subst he2e
      cases hrest with
      | inl hxb =>
          rw [hxb] at h
          exact .inr (.inl h)
      | inr hb => exact ih b hb

/-- Subtrees hanging off two distinct children of the same parent are
disjoint, given unique open in-edges and a grading. -/
theorem subtree_disjoint (E : List (ERow Unit))
    (hu : ∀ e1 ∈ E, ∀ e2 ∈ E, e1.isOpen = true → e2.isOpen = true → e1.y = e2.y → e1 = e2)
    (lvl : Nat → Int) (hl : LevelOk E lvl) (rid y1 y2 : Nat)
    (h1 : ∃ e ∈ E, e.isOpen = true ∧ e.x = rid ∧ e.y = y1)
    (h2 : ∃ e ∈ E, e.isOpen = true ∧ e.x = rid ∧ e.y = y2)
    (hne : y1 ≠ y2) :
    ∀ id, InSubtree E y1 id → InSubtree E y2 id → False := by
  obtain ⟨e1, he1, ho1, hx1, hy1⟩ := h1
  obtain ⟨e2, he2, ho2, hx2, hy2⟩ := h2
  have hl1 : lvl y1 = lvl rid + 1 := by
    have := hl e1 he1 ho1
    rw [hx1, hy1] at this
    exact this
  have hl2 : lvl y2 = lvl rid + 1 := by
    have := hl e2 he2 ho2
    rw [hx2, hy2] at this
    exact this
  -- a reach from a child back to the parent is impossible
  have hnoback1 : ¬ ReachesOpen E y1 rid := by
    intro hr
    have := reaches_lvl E lvl hl y1 rid hr
    omega
  have hnoback2 : ¬ ReachesOpen E y2 rid := by
    intro hr
    have := reaches_lvl E lvl hl y2 rid hr
    omega
  -- a reach from one child to the other is impossible
  have hcross : ∀ u v : Nat, (∃ eu ∈ E, eu.isOpen = true ∧ eu.x = rid ∧ eu.y = u) →
      (∃ ev ∈ E, ev.isOpen = true ∧ ev.x = rid ∧ ev.y = v) →
      ¬ ReachesOpen E u v := by
    rintro u v ⟨eu, heu, hou, hxu, hyu⟩ ⟨ev, hev, hov, hxv, hyv⟩ hr
    obtain ⟨e3, he3, ho3, hy3, hrest⟩ := reaches_last_edge E u v hr
    have he3v : e3 = ev := hu e3 he3 ev hev ho3 hov (by rw [hy3, hyv])
    subst he3v
    cases hrest with
    | inl hxu2 =>
        -- the unique in-edge of v comes from rid, so u = rid: then u is both
        -- child and parent, contradicting the grading
        rw [hxv] at hxu2
        subst hxu2
        have := hl eu heu hou
        rw [hxu, hyu] at this
        omega
    | inr hback =>
        rw [hxv] at hback
        have := reaches_lvl E lvl hl u rid hback
        have := hl eu heu hou
        rw [hxu, hyu] at this
        omega
  intro id hin1 hin2
  cases hin1 with
  | inl hid1 =>
      cases hin2 with
      | inl hid2 => exact hne (hid1.symm.trans hid2)
      | inr hr2 =>
          rw [hid1] at hr2
          exact hcross y2 y1 ⟨e2, he2, ho2, hx2, hy2⟩ ⟨e1, he1, ho1, hx1, hy1⟩ hr2
  | inr hr1 =>
      cases hin2 with
      | inl hid2 =>
          rw [hid2] at hr1
          exact hcross y1 y2 ⟨e1, he1, ho1, hx1, hy1⟩ ⟨e2, he2, ho2, hx2, hy2⟩ hr1
      | inr hr2 =>
          rcases reaches_back_unique E hu y1 id hr1 y2 hr2 with heq | hr12 | hr21
          · exact hne heq
          · exact hcross y1 y2 ⟨e1, he1, ho1, hx1, hy1⟩ ⟨e2, he2, ho2, hx2, hy2⟩ hr12
          · exact hcross y2 y1 ⟨e2, he2, ho2, hx2, hy2⟩ ⟨e1, he1, ho1, hx1, hy1⟩ hr21

/-! ## C2: list and timeline utility lemmas -/

/-- The timeline predicate at the current timeline is plain openness. -/
theorem tlc_self (T s : Int) (en : Option Int) :
    timeLineCond T T s en = en.isNone := by
  simp [timeLineCond, endTlOpenCond]

/-- At the previous timeline, on rows opened before T and closed before
T - 1, the timeline predicate is again plain openness. -/
theorem tlc_prev (T s : Int) (en : Option Int)
    (hso : en = none → s ≤ T - 1) (hcl : ∀ v, en = some v → v ≤ T - 2) :
    timeLineCond T (T - 1) s en = en.isNone := by
  rw [timeLineCond, if_neg (by omega)]
  cases en with
  | none =>
      have := hso rfl
      simp [generalTimeLineCond]
      omega
  | some v =>
      have := hcl v rfl
      simp [generalTimeLineCond]
      omega

/-- The close predicate at tl = T - 1: open and opened at most at T - 1. -/
theorem lastTLC_prev (T s : Int) (en : Option Int) :
    lastTimeLineCond T (T - 1) s en = (en.isNone && decide (s ≤ T - 1)) := by
  rw [lastTimeLineCond, if_neg (by omega)]

/-- pairwiseB is the Bool form of List.Pairwise. -/
theorem pairwiseB_iff {γ : Type} (p : γ → γ → Bool) (l : List γ) :
    pairwiseB p l = true ↔ l.Pairwise (fun a b => p a b = true) := by
  induction l with
  | nil => simp [pairwiseB]
  | cons x xs ih =>
      simp [pairwiseB, List.all_eq_true, ih, List.pairwise_cons]

/-- The Bool uniqueness check on role rows yields the pairwise
proposition. -/
theorem openRoleIdsUnique_pw (db : DB) (h : openRoleIdsUnique db.role = true) :
    OpenRowsPW db := by
  have hp := (pairwiseB_iff _ db.role).mp h
  refine hp.imp ?_
  intro a b hab
  rintro ⟨h1, h2, h3⟩
  simp [h1, h2, h3] at hab

/-- The Bool uniqueness check on rolerole edges yields the pairwise
proposition. -/
theorem openInEdgesUnique_pw (E : List (ERow Unit)) (h : openInEdgesUnique E = true) :
    OpenEdgesPW E := by
  have hp := (pairwiseB_iff _ E).mp h
  refine hp.imp ?_
  intro a b hab
  rintro ⟨h1, h2, h3⟩
  simp [h1, h2, h3] at hab

/-- Two open role rows with one id are one row. -/
theorem openRole_val_unique (db : DB) (hpw : OpenRowsPW db) :
    ∀ r1 ∈ db.role, ∀ r2 ∈ db.role, r1.isOpen = true → r2.isOpen = true →
      r1.id = r2.id → r1 = r2 := by
  intro r1 h1 r2 h2 ho1 ho2 hid
  by_cases heq : r1 = r2
  · exact heq
  · have hsym : Symmetric (fun a b : VRow RoleAttrs =>
        ¬(a.isOpen = true ∧ b.isOpen = true ∧ a.id = b.id)) := by
      intro a b hab hc
      exact hab ⟨hc.2.1, hc.1, hc.2.2.symm⟩
    exact absurd ⟨ho1, ho2, hid⟩ (hpw.forall hsym h1 h2 heq)

/-- Two open edges into one child are one edge. -/
theorem openEdge_val_unique (E : List (ERow Unit)) (hpw : OpenEdgesPW E) :
    ∀ e1 ∈ E, ∀ e2 ∈ E, e1.isOpen = true → e2.isOpen = true →
      e1.y = e2.y → e1 = e2 := by
  intro e1 h1 e2 h2 ho1 ho2 hy
  by_cases heq : e1 = e2
  · exact heq
  · have hsym : Symmetric (fun a b : ERow Unit =>
        ¬(a.isOpen = true ∧ b.isOpen = true ∧ a.y = b.y)) := by
      intro a b hab hc
      exact hab ⟨hc.2.1, hc.1, hc.2.2.symm⟩
    exact absurd ⟨ho1, ho2, hy⟩ (hpw.forall hsym h1 h2 heq)

/-- A filter whose matches are pairwise excluded keeps at most one row. -/
theorem filter_pairwise_cases {δ : Type} (P : δ → Bool) (R : δ → δ → Prop) (l : List δ)
    (hpw : l.Pairwise R) (hcontra : ∀ a b, P a = true → P b = true → ¬ R a b) :
    l.filter P = [] ∨ ∃ a, l.filter P = [a] := by
  cases hF : l.filter P with
  | nil => exact .inl rfl
  | cons a rest =>
      cases rest with
      | nil => exact .inr ⟨a, rfl⟩
      | cons b rest2 =>
          have hpf : (l.filter P).Pairwise R := hpw.sublist (List.filter_sublist l)
          rw [hF] at hpf
          have hab := (List.pairwise_cons.mp hpf).1 b (by simp)
          have hPa : P a = true :=
            List.of_mem_filter (show a ∈ l.filter P by rw [hF]; simp)
          have hPb : P b = true :=
            List.of_mem_filter (show b ∈ l.filter P by rw [hF]; simp)
          exact absurd hab (hcontra a b hPa hPb)

/-- At most one open role row per id. -/
theorem roleFilter_cases (db : DB) (hpw : OpenRowsPW db) (id : Nat) :
    db.role.filter (fun r => r.isOpen && r.id == id) = [] ∨
      ∃ r, db.role.filter (fun r => r.isOpen && r.id == id) = [r] := by
  refine filter_pairwise_cases _ _ _ hpw ?_
  intro a b ha hb hR
  simp at ha hb
  exact hR ⟨ha.1, hb.1, ha.2.trans hb.2.symm⟩

/-- At most one open in-edge per child id. -/
theorem edgeFilter_cases (E : List (ERow Unit)) (hpw : OpenEdgesPW E) (c : Nat) :
    E.filter (fun e => e.isOpen && e.y == c) = [] ∨
      ∃ e, E.filter (fun e => e.isOpen && e.y == c) = [e] := by
  refine filter_pairwise_cases _ _ _ hpw ?_
  intro a b ha hb hR
  simp at ha hb
  exact hR ⟨ha.1, hb.1, ha.2.trans hb.2.symm⟩

/-- Unfolding a successful findOpenRole. -/
theorem findOpenRole_mem (db : DB) (id : Nat) (r : VRow RoleAttrs)
    (h : findOpenRole db id = some r) :
    r ∈ db.role ∧ r.isOpen = true ∧ r.id = id := by
  unfold findOpenRole at h
  cases hF : db.role.filter (fun r => r.isOpen && r.id == id) with
  | nil => rw [hF] at h; cases h
  | cons a rest =>
      rw [hF] at h
      have ha : a = r := by simpa using h
      subst ha
      have h2 := List.mem_filter.mp
        (show a ∈ db.role.filter (fun r => r.isOpen && r.id == id) by rw [hF]; simp)
      have h3 := h2.2
      simp at h3
      exact ⟨h2.1, h3.1, h3.2⟩

/-- Unfolding an empty findOpenRole. -/
theorem findOpenRole_none (db : DB) (id : Nat) (h : findOpenRole db id = none) :
    ∀ r ∈ db.role, r.isOpen = true → r.id ≠ id := by
  unfold findOpenRole at h
  have hnil := List.head?_eq_none_iff.mp h
  rw [List.filter_eq_nil_iff] at hnil
  intro r hr ho hid
  exact hnil r hr (by simp [ho, hid])

/-- An open row is what findOpenRole returns for its id. -/
theorem findOpenRole_eq_of_mem (db : DB) (hpw : OpenRowsPW db) (r : VRow RoleAttrs)
    (hr : r ∈ db.role) (ho : r.isOpen = true) :
    findOpenRole db r.id = some r := by
  unfold findOpenRole
  have hmem : r ∈ db.role.filter (fun x => x.isOpen && x.id == r.id) :=
    List.mem_filter.mpr ⟨hr, by simp [ho]⟩
  cases hF : db.role.filter (fun x => x.isOpen && x.id == r.id) with
  | nil => rw [hF] at hmem; cases hmem
  | cons a rest =>
      have haM : a ∈ db.role.filter (fun x => x.isOpen && x.id == r.id) := by
        rw [hF]; simp
      have ha2 := List.mem_filter.mp haM
      have ha3 := ha2.2
      simp at ha3
      have haeq : a = r := openRole_val_unique db hpw a ha2.1 r hr ha3.1 ho ha3.2
      simp [haeq]

/-- Membership characterization of the open in-edge filter. -/
theorem edgeFilter_mem (E : List (ERow Unit)) (c : Nat) (e : ERow Unit)
    (h : e ∈ E.filter (fun e => e.isOpen && e.y == c)) :
    e ∈ E ∧ e.isOpen = true ∧ e.y = c := by
  have h2 := List.mem_filter.mp h
  have h3 := h2.2
  simp at h3
  exact ⟨h2.1, h3.1, h3.2⟩

/-- Singleton contains is equality. -/
theorem contains_singleton (c x : Nat) : ([c].contains x) = (x == c) := by
  by_cases h : x = c <;> simp [List.contains, h]

/-! ## C2: open forms of the single-id join queries -/

/-- When the timeline predicate is openness on every row, the single-id
join is the flat map of the open-edge filter over the open-role filter. -/
theorem joinPairs_openForm (T tl : Int) (c : Nat) (dir : EdgeDirection)
    (E : List (ERow Unit)) (V : List (VRow RoleAttrs))
    (hE : ∀ e ∈ E, timeLineCond T tl e.start_tl e.end_tl = e.isOpen)
    (hV : ∀ v ∈ V, timeLineCond T tl v.start_tl v.end_tl = v.isOpen) :
    (joinPairs T tl [c] dir E V (fun _ => true)).map (fun p => p.2.1) =
      (E.filter (fun e => e.isOpen && srcPt dir e == c)).flatMap
        (fun e => V.filter (fun v => v.isOpen && v.id == dstPt dir e)) := by
  induction E with
  | nil => rfl
  | cons e es ih =>
      have hee := hE e (by simp)
      have ih2 := ih (fun x hx => hE x (List.mem_cons_of_mem e hx))
      have hcond : (timeLineCond T tl e.start_tl e.end_tl && [c].contains (srcPt dir e)) =
          (e.isOpen && (srcPt dir e == c)) := by
        rw [hee, contains_singleton]
      simp only [joinPairs, List.flatMap_cons] at ih2 ⊢
      rw [hcond]
      by_cases hc : (e.isOpen && (srcPt dir e == c)) = true
      · rw [if_pos hc,
          show List.filter (fun e => e.isOpen && srcPt dir e == c) (e :: es) =
            e :: List.filter (fun e => e.isOpen && srcPt dir e == c) es from
            List.filter_cons_of_pos hc,
          List.flatMap_cons, List.map_append, List.map_map,
          show V.filter (fun v =>
              timeLineCond T tl v.start_tl v.end_tl && (v.id == dstPt dir e) && true) =
            V.filter (fun v => v.isOpen && v.id == dstPt dir e) from
            List.filter_congr (fun v hv => by rw [hV v hv]; simp),
          map_noop ((fun p : Nat × (VRow RoleAttrs × Unit) => p.2.1) ∘
              fun v => (srcPt dir e, v, e.attrs))
            (V.filter (fun v => v.isOpen && v.id == dstPt dir e)) (fun a _ => rfl),
          ih2]
      · rw [if_neg hc,
          show List.filter (fun e => e.isOpen && srcPt dir e == c) (e :: es) =
            List.filter (fun e => e.isOpen && srcPt dir e == c) es from
            List.filter_cons_of_neg hc]
        simpa using ih2

/-- roleParentPairs at the current timeline in open form. -/
theorem roleParentPairs_TT (T : Int) (c : Nat) (db : DB) :
    roleParentPairs T T c db =
      (db.rolerole.filter (fun e => e.isOpen && e.y == c)).flatMap
        (fun e => db.role.filter (fun v => v.isOpen && v.id == e.x)) := by
  unfold roleParentPairs
  exact joinPairs_openForm T T c .in_ db.rolerole db.role
    (fun e _ => (tlc_self T e.start_tl e.end_tl).trans rfl)
    (fun v _ => (tlc_self T v.start_tl v.end_tl).trans rfl)

/-- childRolesPairs at the current timeline in open form. -/
theorem childRolesPairs_TT (T : Int) (c : Nat) (db : DB) :
    childRolesPairs T T c db =
      (db.rolerole.filter (fun e => e.isOpen && e.x == c)).flatMap
        (fun e => db.role.filter (fun v => v.isOpen && v.id == e.y)) := by
  unfold childRolesPairs
  exact joinPairs_openForm T T c .out db.rolerole db.role
    (fun e _ => (tlc_self T e.start_tl e.end_tl).trans rfl)
    (fun v _ => (tlc_self T v.start_tl v.end_tl).trans rfl)

/-- roleParentPairs at the previous timeline in open form, on stale
states. -/
theorem roleParentPairs_Tprev (T : Int) (c : Nat) (db : DB)
    (hrs : rowsStale T db.role = true) (hes : edgesStale T db.rolerole = true)
    (hrc : rowsClosedOld T db.role = true) (hec : edgesClosedOld T db.rolerole = true) :
    roleParentPairs T (T - 1) c db =
      (db.rolerole.filter (fun e => e.isOpen && e.y == c)).flatMap
        (fun e => db.role.filter (fun v => v.isOpen && v.id == e.x)) := by
  unfold roleParentPairs
  refine joinPairs_openForm T (T - 1) c .in_ db.rolerole db.role ?_ ?_
  · intro e he
    rw [edgesStale, List.all_eq_true] at hes
    rw [edgesClosedOld, List.all_eq_true] at hec
    have h1 := hes e he
    have h2 := hec e he
    refine (tlc_prev T e.start_tl e.end_tl ?_ ?_).trans rfl
    · intro hn
      have : e.isOpen = true := by simp [ERow.isOpen, hn]
      simp [this] at h1
      exact_mod_cast (by simpa using h1)
    · intro v hv
      rw [hv] at h2
      simpa using h2
  · intro r hr
    rw [rowsStale, List.all_eq_true] at hrs
    rw [rowsClosedOld, List.all_eq_true] at hrc
    have h1 := hrs r hr
    have h2 := hrc r hr
    refine (tlc_prev T r.start_tl r.end_tl ?_ ?_).trans rfl
    · intro hn
      have : r.isOpen = true := by simp [VRow.isOpen, hn]
      simp [this] at h1
      exact_mod_cast (by simpa using h1)
    · intro v hv
      rw [hv] at h2
      simpa using h2

/-- Case analysis of roleParentQ at the current timeline: the unique open
in-edge determines the result, which is then findOpenRole of its source. -/
theorem roleParentQ_TT (T : Int) (id : Nat) (db : DB) (hepw : OpenEdgesPW db.rolerole) :
    (db.rolerole.filter (fun e => e.isOpen && e.y == id) = [] ∧
      roleParentQ T T id db = none) ∨
    (∃ e, db.rolerole.filter (fun e => e.isOpen && e.y == id) = [e] ∧
      roleParentQ T T id db = findOpenRole db e.x) := by
  rcases edgeFilter_cases db.rolerole hepw id with hnil | ⟨e, he⟩
  · left
    refine ⟨hnil, ?_⟩
    rw [roleParentQ, roleParentPairs_TT, hnil]
    rfl
  · right
    refine ⟨e, he, ?_⟩
    rw [roleParentQ, roleParentPairs_TT, he]
    simp [findOpenRole]

/-- Pairwise property of a flat map, from pairwise blocks and block-wise
pairwise relations. -/
theorem pairwise_flatMap {γ δ : Type} (R : δ → δ → Prop) (f : γ → List δ) (l : List γ)
    (h1 : l.Pairwise (fun x y => ∀ a ∈ f x, ∀ b ∈ f y, R a b))
    (h2 : ∀ x ∈ l, (f x).Pairwise R) : (l.flatMap f).Pairwise R := by
  induction l with
  | nil => simp
  | cons x xs ih =>
      rw [List.flatMap_cons, List.pairwise_append]
      refine ⟨h2 x (by simp), ih (List.pairwise_cons.mp h1).2
        (fun y hy => h2 y (List.mem_cons_of_mem x hy)), ?_⟩
      intro a ha b hb
      obtain ⟨y, hy, hby⟩ := List.mem_flatMap.mp hb
      exact (List.pairwise_cons.mp h1).1 y hy a ha b hby

/-- The fetched children of one role have pairwise distinct ids. -/
theorem childRolesPairs_pw_ids (T : Int) (rid : Nat) (db : DB)
    (hpw : OpenRowsPW db) (hepw : OpenEdgesPW db.rolerole) :
    (childRolesPairs T T rid db).Pairwise (fun a b => a.id ≠ b.id) := by
  rw [childRolesPairs_TT]
  refine pairwise_flatMap _ _ _ ?_ ?_
  · have hpf : (db.rolerole.filter (fun e => e.isOpen && e.x == rid)).Pairwise
        (fun a b : ERow Unit => ¬(a.isOpen = true ∧ b.isOpen = true ∧ a.y = b.y)) :=
      hepw.sublist (List.filter_sublist db.rolerole)
    refine List.Pairwise.imp_of_mem ?_ hpf
    intro e1 e2 he1 he2 h12 a ha b hb
    have ho1 := List.of_mem_filter he1
    have ho2 := List.of_mem_filter he2
    simp at ho1 ho2
    have hyne : e1.y ≠ e2.y := fun hy => h12 ⟨ho1.1, ho2.1, hy⟩
    have ha2 := List.of_mem_filter ha
    have hb2 := List.of_mem_filter hb
    simp at ha2 hb2
    rw [ha2.2, hb2.2]
    exact hyne
  · intro e heF
    rcases roleFilter_cases db hpw e.y with h | ⟨r, h⟩ <;> rw [h] <;> simp

/-! ## C2: evaluation of the guarded readers at the current timeline -/

/-- The role-class vertices reader with a positive timeline always takes
the select branch. -/
theorem vertices_role_ok (curTl tl : Int) (htl : 0 < tl) (limit : Nat)
    (cond : Option VCondition) (db : DB) :
    vertices curTl tl .role limit cond db = .ok (.roles (selectVertexRows curTl tl limit
      (fun r => match cond with | none => true | some c => evalCondRole c r) db.role)) := by
  unfold vertices
  rw [if_neg (by omega)]
  rfl

/-- RoleInternal at the current timeline is findOpenRole. -/
theorem RoleInternal_TT (T : Int) (hT : 0 < T) (id : Nat) (db : DB) :
    RoleInternal T T id db = .ok (findOpenRole db id) := by
  have hsel : selectVertexRows T T 0
      (fun r => match some (VCondition.roleIdEq id) with
        | none => true
        | some c => evalCondRole c r) db.role =
      db.role.filter (fun r => r.isOpen && r.id == id) := by
    unfold selectVertexRows applyLimit
    rw [if_pos rfl]
    exact List.filter_congr (fun r hr => by rw [tlc_self]; rfl)
  unfold RoleInternal
  rw [vertices_role_ok T T hT 0 (some (.roleIdEq id)) db, hsel]
  rfl

/-- ChildRolesInternal1 at a positive timeline is the pairs query. -/
theorem ChildRolesInternal1_pos (curTl tl : Int) (htl : 0 < tl) (rid : Nat) (db : DB) :
    ChildRolesInternal1 curTl tl rid db = .ok (childRolesPairs curTl tl rid db) := by
  unfold ChildRolesInternal1
  rw [if_neg (by omega)]

/-- Inversion of a successful ChildRolesInternal1. -/
theorem ChildRolesInternal1_ok_inv (curTl tl : Int) (rid : Nat) (db : DB)
    (cs : List (VRow RoleAttrs)) (h : ChildRolesInternal1 curTl tl rid db = .ok cs) :
    0 < tl ∧ cs = childRolesPairs curTl tl rid db := by
  unfold ChildRolesInternal1 at h
  by_cases htl : tl ≤ 0
  · rw [if_pos htl] at h
    cases h
  · rw [if_neg htl] at h
    refine ⟨by omega, ?_⟩
    have h2 := h
    simp at h2
    exact h2.symm

/-- RoleParentInternal1 at a positive timeline is the head of the pairs
query. -/
theorem RoleParentInternal1_pos (curTl tl : Int) (htl : 0 < tl) (rid : Nat) (db : DB) :
    RoleParentInternal1 curTl tl rid db = .ok (roleParentQ curTl tl rid db) := by
  unfold RoleParentInternal1 roleParentQ
  rw [if_neg (by omega)]

/-- Congruence of flatMap in the function argument. -/
theorem flatMap_congr {γ δ : Type} (l : List γ) (f g : γ → List δ)
    (h : ∀ a ∈ l, f a = g a) : l.flatMap f = l.flatMap g := by
  induction l with
  | nil => rfl
  | cons x xs ih =>
      rw [List.flatMap_cons, List.flatMap_cons, h x (by simp),
        ih (fun a ha => h a (List.mem_cons_of_mem x ha))]

/-- Membership in the fetched children of a role at the current
timeline. -/
theorem mem_childRolesPairs (T : Int) (rid : Nat) (db : DB) (r : VRow RoleAttrs) :
    r ∈ childRolesPairs T T rid db ↔
      ∃ e ∈ db.rolerole, e.isOpen = true ∧ e.x = rid ∧
        r ∈ db.role ∧ r.isOpen = true ∧ r.id = e.y := by
  rw [childRolesPairs_TT]
  simp only [List.mem_flatMap, List.mem_filter]
  constructor
  · rintro ⟨e, ⟨heE, hcond⟩, hrm, hrcond⟩
    simp at hcond hrcond
    exact ⟨e, heE, hcond.1, hcond.2, hrm, hrcond.1, hrcond.2⟩
  · rintro ⟨e, heE, ho, hx, hrm, hro, hry⟩
    exact ⟨e, ⟨heE, by simp [ho, hx]⟩, hrm, by simp [hro, hry]⟩

/-! ## C2: effect of the row writers on the open-row queries -/

/-- Closing a vertex id removes every open row of that id (on stale
tables). -/
theorem closeVertexRows_filter_self (T : Int) (id : Nat) (rows : List (VRow RoleAttrs))
    (hstale : ∀ r ∈ rows, r.isOpen = true → r.id = id → r.start_tl ≤ T - 1) :
    (closeVertexRows T (T - 1) id rows).filter (fun r => r.isOpen && r.id == id) = [] := by
  rw [List.filter_eq_nil_iff]
  intro a ha
  rw [closeVertexRows, List.mem_map] at ha
  obtain ⟨r, hr, rfl⟩ := ha
  by_cases hcond : r.id = id ∧ lastTimeLineCond T (T - 1) r.start_tl r.end_tl = true
  · rw [if_pos hcond]
    simp [VRow.isOpen]
  · rw [if_neg hcond]
    intro hcon
    simp at hcon
    refine hcond ⟨hcon.2, ?_⟩
    rw [lastTLC_prev]
    have hs := hstale r hr hcon.1 hcon.2
    have ho : r.end_tl.isNone = true := hcon.1
    simp [ho, hs]

/-- Closing a vertex id leaves the open rows of every other id
untouched. -/
theorem closeVertexRows_filter_other (T : Int) (id j : Nat) (rows : List (VRow RoleAttrs))
    (hne : j ≠ id) :
    (closeVertexRows T (T - 1) id rows).filter (fun r => r.isOpen && r.id == j) =
      rows.filter (fun r => r.isOpen && r.id == j) := by
  induction rows with
  | nil => rfl
  | cons r rs ih =>
      simp only [closeVertexRows, List.map_cons] at ih ⊢
      by_cases hcond : r.id = id ∧ lastTimeLineCond T (T - 1) r.start_tl r.end_tl = true
      · rw [if_pos hcond, List.filter_cons, List.filter_cons, ih]
        have h1 : (({ r with end_tl := some (T - 1) } : VRow RoleAttrs).isOpen &&
            ({ r with end_tl := some (T - 1) } : VRow RoleAttrs).id == j) = false := by
          simp [VRow.isOpen]
        have h2 : (r.isOpen && r.id == j) = false := by
          rw [hcond.1]
          by_cases hj : (id == j) = true
          · exact absurd (by simpa using hj) (Ne.symm hne)
          · simp at hj
            simp [hj]
        rw [h1, h2]
        simp
      · rw [if_neg hcond, List.filter_cons, List.filter_cons, ih]

/-- The updated id reads back as the freshly inserted open row. -/
theorem findOpenRole_update_self (T : Int) (id : Nat) (attrs : RoleAttrs) (db : DB)
    (hstale : ∀ r ∈ db.role, r.isOpen = true → r.id = id → r.start_tl ≤ T - 1) :
    findOpenRole (updateRoleVertex T T id attrs db) id =
      some ⟨id, T, none, attrs⟩ := by
  unfold findOpenRole updateRoleVertex updateVertexRows insertVertexRow
  rw [List.filter_append, closeVertexRows_filter_self T id db.role hstale]
  simp [VRow.isOpen]

/-- Every other id reads back unchanged after an update. -/
theorem findOpenRole_update_other (T : Int) (id j : Nat) (attrs : RoleAttrs) (db : DB)
    (hne : j ≠ id) :
    findOpenRole (updateRoleVertex T T id attrs db) j = findOpenRole db j := by
  unfold findOpenRole updateRoleVertex updateVertexRows insertVertexRow
  rw [List.filter_append, closeVertexRows_filter_other T id j db.role hne]
  have h0 : List.filter (fun r => r.isOpen && r.id == j)
      [(⟨id, T, none, attrs⟩ : VRow RoleAttrs)] = [] := by
    simp [VRow.isOpen]
    exact fun h => hne h.symm
  rw [h0]
  simp

/-- The edge tables are untouched by a role-vertex update. -/
theorem updateRole_rolerole (T tl : Int) (id : Nat) (attrs : RoleAttrs) (db : DB) :
    (updateRoleVertex T tl id attrs db).rolerole = db.rolerole := rfl

/-- The close map preserves the row id. -/
theorem closeRow_id (T : Int) (id : Nat) (a : VRow RoleAttrs) :
    (if a.id = id ∧ lastTimeLineCond T (T - 1) a.start_tl a.end_tl = true
      then { a with end_tl := some (T - 1) } else a).id = a.id := by
  by_cases h : a.id = id ∧ lastTimeLineCond T (T - 1) a.start_tl a.end_tl = true
  · rw [if_pos h]
  · rw [if_neg h]

/-- A row open after the close map was open before. -/
theorem closeRow_open (T : Int) (id : Nat) (a : VRow RoleAttrs)
    (h : (if a.id = id ∧ lastTimeLineCond T (T - 1) a.start_tl a.end_tl = true
      then { a with end_tl := some (T - 1) } else a).isOpen = true) :
    a.isOpen = true := by
  by_cases hc : a.id = id ∧ lastTimeLineCond T (T - 1) a.start_tl a.end_tl = true
  · rw [if_pos hc] at h
    simp [VRow.isOpen] at h
  · rwa [if_neg hc] at h

/-- The close map closes every stale open row of the closed id. -/
theorem closeRow_closes (T : Int) (id : Nat) (a : VRow RoleAttrs)
    (hopen : a.isOpen = true) (hid : a.id = id) (hs : a.start_tl ≤ T - 1) :
    (if a.id = id ∧ lastTimeLineCond T (T - 1) a.start_tl a.end_tl = true
      then { a with end_tl := some (T - 1) } else a).isOpen = false := by
  have ho : a.end_tl.isNone = true := hopen
  rw [if_pos ⟨hid, by rw [lastTLC_prev]; simp [ho, hs]⟩]
  simp [VRow.isOpen]

/-- A role-vertex update preserves open-row uniqueness. -/
theorem updateRole_pw (T : Int) (id : Nat) (attrs : RoleAttrs) (db : DB)
    (hpw : OpenRowsPW db)
    (hstale : ∀ r ∈ db.role, r.isOpen = true → r.id = id → r.start_tl ≤ T - 1) :
    OpenRowsPW (updateRoleVertex T T id attrs db) := by
  unfold OpenRowsPW updateRoleVertex updateVertexRows insertVertexRow closeVertexRows
  rw [List.pairwise_append]
  refine ⟨?_, by simp, ?_⟩
  · rw [List.pairwise_map]
    refine List.Pairwise.imp_of_mem ?_ hpw
    intro a b ha hb hab hc
    obtain ⟨h1, h2, h3⟩ := hc
    rw [closeRow_id T id a, closeRow_id T id b] at h3
    exact hab ⟨closeRow_open T id a h1, closeRow_open T id b h2, h3⟩
  · intro a' ha' b hb
    have hbv : b = ⟨id, T, none, attrs⟩ := by simpa using hb
    subst hbv
    obtain ⟨a, ha, rfl⟩ := List.mem_map.mp ha'
    rintro ⟨h1, h2, h3⟩
    rw [closeRow_id T id a] at h3
    have ha1 : a.isOpen = true := closeRow_open T id a h1
    have hcl := closeRow_closes T id a ha1 h3 (hstale a ha ha1 h3)
    rw [hcl] at h1
    cases h1

/-- A role-vertex update preserves existence of open child rows of open
edges. -/
theorem updateRole_ece (T : Int) (id : Nat) (attrs : RoleAttrs) (db : DB)
    (hece : EdgeChildExists db)
    (hstale : ∀ r ∈ db.role, r.isOpen = true → r.id = id → r.start_tl ≤ T - 1) :
    EdgeChildExists (updateRoleVertex T T id attrs db) := by
  intro e he ho
  by_cases hy : e.y = id
  · rw [hy, findOpenRole_update_self T id attrs db hstale]
    rfl
  · rw [findOpenRole_update_other T id e.y attrs db hy]
    exact hece e he ho

/-! ## C2: the updateChildsDepth induction -/

/-- On a graded edge set reachability never returns to its origin. -/
theorem reaches_ne (E : List (ERow Unit)) (hlvl : ∃ lvl, LevelOk E lvl)
    (a b : Nat) (h : ReachesOpen E a b) : a ≠ b := by
  obtain ⟨lvl, hl⟩ := hlvl
  intro heq
  subst heq
  exact reaches_irrefl E lvl hl a h

/-- Zero fuel never succeeds, so the node spec holds vacuously. -/
theorem ucd_node_zero : UCDNodeSpec 0 := by
  intro T pdepth rid s s2 h
  have h1 : DbOutcome.failed "recursion fuel exhausted" = DbOutcome.ok s2 := h
  cases h1

/-- The list spec at one fuel level follows from the node spec at the same
level, by induction on the child list. -/
theorem ucd_list_step (fuel : Nat) (hnode : UCDNodeSpec fuel) : UCDListSpec fuel := by
  intro T pdepth cs
  induction cs with
  | nil =>
      intro s s2 h hpw hepw hece hlvl hstale hdisj
      have h3 : DbOutcome.ok s = DbOutcome.ok s2 := h
      cases h3
      exact ⟨rfl, fun id _ => rfl, fun c hc => absurd hc (by simp),
        fun e he ho hex => absurd hex (by simp), hpw, hece⟩
  | cons c rest ih =>
      intro s s2 h hpw hepw hece hlvl hstale hdisj
      obtain ⟨lvl, hlv⟩ := hlvl
      obtain ⟨rc, hrc, hrcs⟩ := hstale c (by simp) c.id (.inl rfl)
      have hst1 : ∀ r ∈ s.role, r.isOpen = true → r.id = c.id → r.start_tl ≤ T - 1 := by
        intro r hr hro hrid
        have hself := findOpenRole_eq_of_mem s hpw r hr hro
        rw [hrid, hrc] at hself
        cases hself
        exact hrcs
      have h1 : (match updateChildsDepth fuel T T (pdepth + 1) c.id
          (updateRoleVertex T T c.id { c.attrs with depth := pdepth + 1 } s) with
        | .panicked m => DbOutcome.panicked m
        | .failed m => .failed m
        | .ok db2 => updateChildsDepthList fuel T T pdepth rest db2) = .ok s2 := h
      cases hmid : updateChildsDepth fuel T T (pdepth + 1) c.id
          (updateRoleVertex T T c.id { c.attrs with depth := pdepth + 1 } s) with
      | panicked m => rw [hmid] at h1; cases h1
      | failed m => rw [hmid] at h1; cases h1
      | ok db2 =>
      rw [hmid] at h1
      have h2 : updateChildsDepthList fuel T T pdepth rest db2 = .ok s2 := h1
      have hpw1 : OpenRowsPW (updateRoleVertex T T c.id
          { c.attrs with depth := pdepth + 1 } s) :=
        updateRole_pw T c.id _ s hpw hst1
      have hece1 : EdgeChildExists (updateRoleVertex T T c.id
          { c.attrs with depth := pdepth + 1 } s) :=
        updateRole_ece T c.id _ s hece hst1
      have hfself : findOpenRole (updateRoleVertex T T c.id
          { c.attrs with depth := pdepth + 1 } s) c.id =
          some ⟨c.id, T, none, { c.attrs with depth := pdepth + 1 }⟩ :=
        findOpenRole_update_self T c.id _ s hst1
      have hstaleN : ∀ id, ReachesOpen s.rolerole c.id id →
          StaleAt T (updateRoleVertex T T c.id
            { c.attrs with depth := pdepth + 1 } s) id := by
        intro id hrch
        have hne : id ≠ c.id := (reaches_ne s.rolerole ⟨lvl, hlv⟩ c.id id hrch).symm
        obtain ⟨r, hfr, hrs⟩ := hstale c (by simp) id (.inr hrch)
        exact ⟨r, by rw [findOpenRole_update_other T c.id id _ s hne]; exact hfr, hrs⟩
      obtain ⟨hN1, hN2, hN3, hN4, hN5, hN6⟩ :=
        hnode T (pdepth + 1) c.id _ db2 hmid hpw1 hepw hece1 ⟨lvl, hlv⟩ hstaleN
      have hirr : ¬ ReachesOpen s.rolerole c.id c.id :=
        reaches_irrefl s.rolerole lvl hlv c.id
      have hf2self : findOpenRole db2 c.id =
          some ⟨c.id, T, none, { c.attrs with depth := pdepth + 1 }⟩ := by
        rw [hN2 c.id hirr]
        exact hfself
      have hstaleR : ∀ c2 ∈ rest, ∀ id, InSubtree db2.rolerole c2.id id →
          StaleAt T db2 id := by
        intro c2 hc2 id hin
        rw [hN1] at hin
        have hdisj1 := (List.pairwise_cons.mp hdisj).1 c2 hc2
        have hnotc : ¬ InSubtree s.rolerole c.id id := fun hcin => hdisj1 id hcin hin
        have hnid : id ≠ c.id := fun heq => hnotc (.inl heq)
        have hnrch : ¬ ReachesOpen s.rolerole c.id id := fun hr => hnotc (.inr hr)
        obtain ⟨r, hfr, hrs⟩ := hstale c2 (by simp [hc2]) id hin
        refine ⟨r, ?_, hrs⟩
        rw [hN2 id hnrch, findOpenRole_update_other T c.id id _ s hnid]
        exact hfr
      have hdisjR : rest.Pairwise (fun c1 c2 => ∀ id,
          InSubtree db2.rolerole c1.id id → InSubtree db2.rolerole c2.id id → False) := by
        refine (List.pairwise_cons.mp hdisj).2.imp ?_
        intro c1 c2 h12 id hin1 hin2
        rw [hN1] at hin1 hin2
        exact h12 id hin1 hin2
      obtain ⟨hL1, hL2, hL3, hL4, hL5, hL6⟩ :=
        ih db2 s2 h2 hN5 (hN1 ▸ hepw) hN6 ⟨lvl, hN1 ▸ hlv⟩ hstaleR hdisjR
      have htr : ∀ id, InSubtree s.rolerole c.id id →
          findOpenRole s2 id = findOpenRole db2 id := by
        intro id hin
        apply hL2
        intro c2 hc2 hin2
        rw [hN1] at hin2
        exact (List.pairwise_cons.mp hdisj).1 c2 hc2 id hin hin2
      refine ⟨hL1.trans hN1, ?_, ?_, ?_, hL5, hL6⟩
      · -- frame for rows in no subtree of c :: rest
        intro id hid
        have hidc := hid c (by simp)
        have hnid : id ≠ c.id := fun heq => hidc (.inl heq)
        have hnr : ¬ ReachesOpen s.rolerole c.id id := fun hr => hidc (.inr hr)
        have hLno : ∀ c2 ∈ rest, ¬ InSubtree db2.rolerole c2.id id := by
          intro c2 hc2 hin
          rw [hN1] at hin
          exact hid c2 (by simp [hc2]) hin
        rw [hL2 id hLno, hN2 id hnr, findOpenRole_update_other T c.id id _ s hnid]
      · -- every listed child got depth pdepth + 1
        intro c2 hc2
        cases hc2 with
        | head =>
            refine ⟨⟨c.id, T, none, { c.attrs with depth := pdepth + 1 }⟩, ?_, rfl⟩
            rw [htr c.id (.inl rfl)]
            exact hf2self
        | tail _ hc2t => exact hL3 c2 hc2t
      · -- depth links below the listed children
        intro e he ho hex
        obtain ⟨c2, hc2, hin⟩ := hex
        cases hc2 with
        | tail _ hc2t =>
            refine hL4 e (by rw [hN1]; exact he) ho ⟨c2, hc2t, ?_⟩
            rw [hN1]
            exact hin
        | head =>
            cases hin with
            | inl hxc =>
                -- e leaves c itself
                obtain ⟨r2, hf2y, hd2⟩ := hN3 e he ho hxc
                have hrcy : ReachesOpen s.rolerole c.id e.y := by
                  rw [← hxc]
                  exact .base e he ho
                refine ⟨r2, ⟨c.id, T, none, { c.attrs with depth := pdepth + 1 }⟩,
                  ?_, ?_, ?_⟩
                · rw [htr e.y (.inr hrcy)]
                  exact hf2y
                · rw [hxc, htr c.id (.inl rfl)]
                  exact hf2self
                · exact hd2
            | inr hrcx =>
                obtain ⟨r2, px, hf2y, hf2x, hlink⟩ := hN4 e he ho hrcx
                have hrcy : ReachesOpen s.rolerole c.id e.y := .tail c.id e hrcx he ho
                refine ⟨r2, px, ?_, ?_, hlink⟩
                · rw [htr e.y (.inr hrcy)]
                  exact hf2y
                · rw [htr e.x (.inr hrcx)]
                  exact hf2x

/-- The node spec at fuel + 1 follows from the list spec at fuel. -/
theorem ucd_node_step (fuel : Nat) (hlist : UCDListSpec fuel) : UCDNodeSpec (fuel + 1) := by
  intro T pdepth rid s s2 h hpw hepw hece hlvl hstale
  have h1 : (match ChildRolesInternal1 T T rid s with
    | .panicked m => DbOutcome.panicked m
    | .failed m => .failed m
    | .ok childs => updateChildsDepthList fuel T T pdepth childs s) = .ok s2 := h
  cases hcr : ChildRolesInternal1 T T rid s with
  | panicked m => rw [hcr] at h1; cases h1
  | failed m => rw [hcr] at h1; cases h1
  | ok cs =>
      rw [hcr] at h1
      have h2 : updateChildsDepthList fuel T T pdepth cs s = .ok s2 := h1
      obtain ⟨hT, hcs⟩ := ChildRolesInternal1_ok_inv T T rid s cs hcr
      subst hcs
      obtain ⟨lvl, hlv⟩ := hlvl
      have hcmem : ∀ c ∈ childRolesPairs T T rid s, ∃ e ∈ s.rolerole,
          e.isOpen = true ∧ e.x = rid ∧ c.id = e.y := by
        intro c hc
        obtain ⟨e, he, ho, hx, _, _, hid⟩ := (mem_childRolesPairs T rid s c).mp hc
        exact ⟨e, he, ho, hx, hid⟩
      have hreachc : ∀ c ∈ childRolesPairs T T rid s,
          ReachesOpen s.rolerole rid c.id := by
        intro c hc
        obtain ⟨e, he, ho, hx, hid⟩ := hcmem c hc
        rw [hid, ← hx]
        exact .base e he ho
      have hstaleL : ∀ c ∈ childRolesPairs T T rid s, ∀ id,
          InSubtree s.rolerole c.id id → StaleAt T s id := by
        intro c hc id hin
        cases hin with
        | inl heq =>
            rw [heq]
            exact hstale c.id (hreachc c hc)
        | inr hr => exact hstale id (reaches_trans s.rolerole rid c.id id (hreachc c hc) hr)
      have hdisjL : (childRolesPairs T T rid s).Pairwise
          (fun c1 c2 => ∀ id, InSubtree s.rolerole c1.id id →
            InSubtree s.rolerole c2.id id → False) := by
        refine List.Pairwise.imp_of_mem ?_ (childRolesPairs_pw_ids T rid s hpw hepw)
        intro c1 c2 hc1 hc2 hne
        obtain ⟨e1, he1, ho1, hx1, hid1⟩ := hcmem c1 hc1
        obtain ⟨e2, he2, ho2, hx2, hid2⟩ := hcmem c2 hc2
        exact subtree_disjoint s.rolerole (openEdge_val_unique s.rolerole hepw) lvl hlv
          rid c1.id c2.id ⟨e1, he1, ho1, hx1, hid1.symm⟩ ⟨e2, he2, ho2, hx2, hid2.symm⟩ hne
      obtain ⟨hL1, hL2, hL3, hL4, hL5, hL6⟩ :=
        hlist T pdepth _ s s2 h2 hpw hepw hece ⟨lvl, hlv⟩ hstaleL hdisjL
      refine ⟨hL1, ?_, ?_, ?_, hL5, hL6⟩
      · intro id hnr
        apply hL2
        intro c hc hin
        cases hin with
        | inl heq =>
            apply hnr
            rw [heq]
            exact hreachc c hc
        | inr hr => exact hnr (reaches_trans s.rolerole rid c.id id (hreachc c hc) hr)
      · intro e he ho hx
        have hsome := hece e he ho
        obtain ⟨rc2, hrc2⟩ : ∃ rc2, findOpenRole s e.y = some rc2 := by
          cases hf : findOpenRole s e.y with
          | none => rw [hf] at hsome; cases hsome
          | some rc2 => exact ⟨rc2, rfl⟩
        obtain ⟨hmem, hopen, hid⟩ := findOpenRole_mem s e.y rc2 hrc2
        have hcin : rc2 ∈ childRolesPairs T T rid s :=
          (mem_childRolesPairs T rid s rc2).mpr ⟨e, he, ho, hx, hmem, hopen, hid⟩
        obtain ⟨r2, hr2, hd2⟩ := hL3 rc2 hcin
        rw [hid] at hr2
        exact ⟨r2, hr2, hd2⟩
      · intro e he ho hr
        obtain ⟨e0, he0, ho0, hx0, hrest⟩ := reaches_first_edge s.rolerole rid e.x hr
        have hsome := hece e0 he0 ho0
        obtain ⟨c0, hc0⟩ : ∃ c0, findOpenRole s e0.y = some c0 := by
          cases hf : findOpenRole s e0.y with
          | none => rw [hf] at hsome; cases hsome
          | some c0 => exact ⟨c0, rfl⟩
        obtain ⟨hmem0, hopen0, hid0⟩ := findOpenRole_mem s e0.y c0 hc0
        have hcin0 : c0 ∈ childRolesPairs T T rid s :=
          (mem_childRolesPairs T rid s c0).mpr ⟨e0, he0, ho0, hx0, hmem0, hopen0, hid0⟩
        refine hL4 e he ho ⟨c0, hcin0, ?_⟩
        rw [hid0]
        cases hrest with
        | inl heq => exact .inl heq.symm
        | inr hrr => exact .inr hrr

/-- The joint induction: both updateChildsDepth specs hold at every fuel. -/
theorem ucd_spec_all : ∀ fuel, UCDNodeSpec fuel ∧ UCDListSpec fuel := by
  intro fuel
  induction fuel with
  | zero => exact ⟨ucd_node_zero, ucd_list_step 0 ucd_node_zero⟩
  | succ f ih =>
      exact ⟨ucd_node_step f ih.2, ucd_list_step (f + 1) (ucd_node_step f ih.2)⟩

/-! ## C2: effect of the edge writers on the open-edge filters -/

/-- Direct form of roleParentQ when no open in-edge exists. -/
theorem roleParentQ_TT_of_nil (T : Int) (id : Nat) (db : DB)
    (h : db.rolerole.filter (fun e => e.isOpen && e.y == id) = []) :
    roleParentQ T T id db = none := by
  rw [roleParentQ, roleParentPairs_TT, h]
  rfl

/-- Direct form of roleParentQ at the unique open in-edge. -/
theorem roleParentQ_TT_of_single (T : Int) (id : Nat) (db : DB) (e : ERow Unit)
    (h : db.rolerole.filter (fun e => e.isOpen && e.y == id) = [e]) :
    roleParentQ T T id db = findOpenRole db e.x := by
  rw [roleParentQ, roleParentPairs_TT, h]
  simp [findOpenRole]

/-- The close map on edges preserves the target endpoint. -/
theorem closeERow_y (T : Int) (x y : Nat) (a : ERow Unit) :
    (if a.x = x ∧ a.y = y ∧ lastTimeLineCond T (T - 1) a.start_tl a.end_tl = true
      then { a with end_tl := some (T - 1) } else a).y = a.y := by
  by_cases h : a.x = x ∧ a.y = y ∧ lastTimeLineCond T (T - 1) a.start_tl a.end_tl = true
  · rw [if_pos h]
  · rw [if_neg h]

/-- The close map on edges preserves the source endpoint. -/
theorem closeERow_x (T : Int) (x y : Nat) (a : ERow Unit) :
    (if a.x = x ∧ a.y = y ∧ lastTimeLineCond T (T - 1) a.start_tl a.end_tl = true
      then { a with end_tl := some (T - 1) } else a).x = a.x := by
  by_cases h : a.x = x ∧ a.y = y ∧ lastTimeLineCond T (T - 1) a.start_tl a.end_tl = true
  · rw [if_pos h]
  · rw [if_neg h]

/-- An edge open after the close map was open before. -/
theorem closeERow_open (T : Int) (x y : Nat) (a : ERow Unit)
    (h : (if a.x = x ∧ a.y = y ∧ lastTimeLineCond T (T - 1) a.start_tl a.end_tl = true
      then { a with end_tl := some (T - 1) } else a).isOpen = true) :
    a.isOpen = true := by
  by_cases hc : a.x = x ∧ a.y = y ∧ lastTimeLineCond T (T - 1) a.start_tl a.end_tl = true
  · rw [if_pos hc] at h
    simp [ERow.isOpen] at h
  · rwa [if_neg hc] at h

/-- Every open edge of a closed table descends from an open original with
the same endpoints. -/
theorem closeEdgeRows_mem_orig (T : Int) (x y : Nat) (es : List (ERow Unit)) :
    ∀ e ∈ closeEdgeRows T (T - 1) x y es, e.isOpen = true →
      ∃ e2 ∈ es, e2.isOpen = true ∧ e2.x = e.x ∧ e2.y = e.y := by
  intro e he ho
  rw [closeEdgeRows, List.mem_map] at he
  obtain ⟨e2, he2, rfl⟩ := he
  exact ⟨e2, he2, closeERow_open T x y e2 ho,
    (closeERow_x T x y e2).symm, (closeERow_y T x y e2).symm⟩

/-- Closing one edge leaves the open in-edges of every other child
untouched. -/
theorem closeEdgeRows_filter_y_other (T : Int) (x y j : Nat) (es : List (ERow Unit))
    (hne : j ≠ y) :
    (closeEdgeRows T (T - 1) x y es).filter (fun e => e.isOpen && e.y == j) =
      es.filter (fun e => e.isOpen && e.y == j) := by
  induction es with
  | nil => rfl
  | cons e es ih =>
      simp only [closeEdgeRows, List.map_cons] at ih ⊢
      by_cases hcond : e.x = x ∧ e.y = y ∧ lastTimeLineCond T (T - 1) e.start_tl e.end_tl = true
      · rw [if_pos hcond, List.filter_cons, List.filter_cons, ih]
        have h1 : (({ e with end_tl := some (T - 1) } : ERow Unit).isOpen &&
            ({ e with end_tl := some (T - 1) } : ERow Unit).y == j) = false := by
          simp [ERow.isOpen]
        have h2 : (e.isOpen && e.y == j) = false := by
          rw [hcond.2.1]
          by_cases hj : (y == j) = true
          · exact absurd (by simpa using hj) (Ne.symm hne)
          · simp at hj
            simp [hj]
        rw [h1, h2]
        simp
      · rw [if_neg hcond, List.filter_cons, List.filter_cons, ih]

/-- Closing the unique open in-edge of a child leaves that child with no
open in-edge (on stale edge tables). -/
theorem closeEdgeRows_filter_y_self (T : Int) (e0 : ERow Unit) (es : List (ERow Unit))
    (hes : edgesStale T es = true)
    (hone : es.filter (fun e => e.isOpen && e.y == e0.y) = [e0]) :
    (closeEdgeRows T (T - 1) e0.x e0.y es).filter (fun e => e.isOpen && e.y == e0.y) = [] := by
  rw [List.filter_eq_nil_iff]
  intro a ha
  rw [closeEdgeRows, List.mem_map] at ha
  obtain ⟨e, he, rfl⟩ := ha
  by_cases hcond : e.x = e0.x ∧ e.y = e0.y ∧ lastTimeLineCond T (T - 1) e.start_tl e.end_tl = true
  · rw [if_pos hcond]
    simp [ERow.isOpen]
  · rw [if_neg hcond]
    intro hcon
    simp at hcon
    have hmemf : e ∈ es.filter (fun x => x.isOpen && x.y == e0.y) :=
      List.mem_filter.mpr ⟨he, by simp [hcon.1, hcon.2]⟩
    rw [hone] at hmemf
    have heq : e = e0 := by simpa using hmemf
    rw [edgesStale, List.all_eq_true] at hes
    have hst := hes e he
    simp [hcon.1] at hst
    refine hcond ⟨by rw [heq], hcon.2, ?_⟩
    rw [lastTLC_prev]
    have ho : e.end_tl.isNone = true := hcon.1
    simp [ho, hst]

/-- The close map preserves pairwise uniqueness of open in-edges. -/
theorem closeEdgeRows_pw (T : Int) (x y : Nat) (es : List (ERow Unit))
    (hpw : OpenEdgesPW es) : OpenEdgesPW (closeEdgeRows T (T - 1) x y es) := by
  unfold OpenEdgesPW closeEdgeRows
  rw [List.pairwise_map]
  refine List.Pairwise.imp_of_mem ?_ hpw
  intro a b ha hb hab hc
  obtain ⟨h1, h2, h3⟩ := hc
  rw [closeERow_y T x y a, closeERow_y T x y b] at h3
  exact hab ⟨closeERow_open T x y a h1, closeERow_open T x y b h2, h3⟩

/-- Appending an edge into a child with no open in-edge keeps open
in-edges unique. -/
theorem openEdgesPW_append_new (es2 : List (ERow Unit)) (ne : ERow Unit)
    (hpw : OpenEdgesPW es2)
    (hnone : es2.filter (fun e => e.isOpen && e.y == ne.y) = []) :
    OpenEdgesPW (es2 ++ [ne]) := by
  unfold OpenEdgesPW
  rw [List.pairwise_append]
  refine ⟨hpw, by simp, ?_⟩
  intro a ha b hb hc
  have hbv : b = ne := by simpa using hb
  obtain ⟨h1, h2, h3⟩ := hc
  have hmem : a ∈ es2.filter (fun e => e.isOpen && e.y == ne.y) :=
    List.mem_filter.mpr ⟨ha, by simp [h1, h3, hbv]⟩
  rw [hnone] at hmem
  simp at hmem

/-- Depth lower bound along the subtree repainted by updateChildsDepth:
every strict descendant ends at least one above the new depth. -/
theorem reach_depth_chain (E : List (ERow Unit)) (db4 : DB) (rid : Nat) (nd : Int)
    (h3 : ∀ e ∈ E, e.isOpen = true → e.x = rid →
      ∃ r2, findOpenRole db4 e.y = some r2 ∧ r2.attrs.depth = nd + 1)
    (h4 : ∀ e ∈ E, e.isOpen = true → ReachesOpen E rid e.x →
      ∃ r2 px, findOpenRole db4 e.y = some r2 ∧ findOpenRole db4 e.x = some px ∧
        r2.attrs.depth = px.attrs.depth + 1) :
    ∀ id, ReachesOpen E rid id →
      ∃ r4, findOpenRole db4 id = some r4 ∧ nd + 1 ≤ r4.attrs.depth := by
  suffices haux : ∀ a id2, ReachesOpen E a id2 → a = rid →
      ∃ r4, findOpenRole db4 id2 = some r4 ∧ nd + 1 ≤ r4.attrs.depth from
    fun id h => haux rid id h rfl
  intro a id2 hr
  induction hr with
  | base e he ho =>
      intro hax
      obtain ⟨r2, hf, hd⟩ := h3 e he ho hax
      exact ⟨r2, hf, le_of_eq hd.symm⟩
  | tail a2 e h he ho ih =>
      intro hax
      obtain ⟨rx, hfx, hdx⟩ := ih hax
      obtain ⟨r2, px, hfy, hfx2, hlink⟩ := h4 e he ho (by rw [← hax]; exact h)
      rw [hfx] at hfx2
      cases hfx2
      exact ⟨r2, hfy, by omega⟩

/-- The parent lookup of changeRoleParent at the previous timeline, on
stale well-formed states: none exactly when the child has no open in-edge,
else the open source row of the unique open in-edge. -/
theorem roleParentQ_prev_cases (T : Int) (roleID : Nat) (db : DB)
    (hrs : rowsStale T db.role = true) (hes : edgesStale T db.rolerole = true)
    (hrc : rowsClosedOld T db.role = true) (hec : edgesClosedOld T db.rolerole = true)
    (hepw : OpenEdgesPW db.rolerole) (hend : edgeEndpointsOpen db = true) :
    (db.rolerole.filter (fun e => e.isOpen && e.y == roleID) = [] ∧
      roleParentQ T (T - 1) roleID db = none) ∨
    (∃ e0 p, db.rolerole.filter (fun e => e.isOpen && e.y == roleID) = [e0] ∧
      findOpenRole db e0.x = some p ∧ roleParentQ T (T - 1) roleID db = some p) := by
  have hform := roleParentPairs_Tprev T roleID db hrs hes hrc hec
  rcases edgeFilter_cases db.rolerole hepw roleID with hnil | ⟨e0, he0⟩
  · left
    refine ⟨hnil, ?_⟩
    rw [roleParentQ, hform, hnil]
    rfl
  · right
    have he0mem : e0 ∈ db.rolerole.filter (fun e => e.isOpen && e.y == roleID) := by
      rw [he0]
      simp
    obtain ⟨he0E, he0o, he0y⟩ := edgeFilter_mem db.rolerole roleID e0 he0mem
    rw [edgeEndpointsOpen, List.all_eq_true] at hend
    have hsome := hend e0 he0E
    simp [he0o] at hsome
    obtain ⟨p, hp⟩ : ∃ p, findOpenRole db e0.x = some p := by
      cases hf : findOpenRole db e0.x with
      | none => rw [hf] at hsome; simp at hsome
      | some p => exact ⟨p, rfl⟩
    refine ⟨e0, p, he0, hp, ?_⟩
    rw [roleParentQ, hform, he0]
    rw [findOpenRole] at hp
    simpa [List.flatMap_cons] using hp

/-- The pointwise reading of the depth-invariant check. -/
theorem depthInvB_iff (T : Int) (db : DB) :
    depthInvB T db = true ↔
      ∀ r ∈ db.role, r.isOpen = true →
        (0 ≤ r.attrs.depth ∧
         ((r.attrs.depth = 0) ↔ roleParentQ T T r.id db = none) ∧
         (∀ p, roleParentQ T T r.id db = some p →
           r.attrs.depth = p.attrs.depth + 1)) := by
  rw [depthInvB, List.all_eq_true]
  constructor
  · intro h r hr hro
    have h2 := h r hr
    cases hq : roleParentQ T T r.id db with
    | none =>
        rw [hq] at h2
        simp [hro] at h2
        exact ⟨h2.1, by simp [h2.2], fun p hp => by cases hp⟩
    | some p =>
        rw [hq] at h2
        simp [hro] at h2
        refine ⟨h2.1.1, by simp [h2.1.2], ?_⟩
        intro q hq2
        cases hq2
        exact h2.2
  · intro h r hr
    by_cases hro : r.isOpen = true
    · obtain ⟨hd0, hdiff, harm⟩ := h r hr hro
      cases hq : roleParentQ T T r.id db with
      | none => simp [hro, hq, hd0, hdiff.mpr hq]
      | some p =>
          have hlink := harm p hq
          have hdne : ¬ r.attrs.depth = 0 := by
            intro h0
            rw [hq] at hdiff
            exact Option.noConfusion (hdiff.mp h0)
          simp [hro, hq, hdne]
          omega
    · simp [Bool.not_eq_true] at hro
      simp [hro]

/-! ## C2: depth assignment and invariant preservation of RoleCreated -/

/-- Appending a row of another id does not change an open-row filter. -/
theorem filter_append_id_other (rows : List (VRow RoleAttrs)) (nr : VRow RoleAttrs)
    (x : Nat) (hne : nr.id ≠ x) :
    (rows ++ [nr]).filter (fun v => v.isOpen && v.id == x) =
      rows.filter (fun v => v.isOpen && v.id == x) := by
  rw [List.filter_append]
  have h0 : [nr].filter (fun v => v.isOpen && v.id == x) = [] := by
    simp
    intro _
    exact hne
  rw [h0, List.append_nil]

/-- Appending an edge into another child does not change an in-edge
filter. -/
theorem filter_append_y_other (es : List (ERow Unit)) (ne2 : ERow Unit) (c : Nat)
    (hne : ne2.y ≠ c) :
    (es ++ [ne2]).filter (fun e => e.isOpen && e.y == c) =
      es.filter (fun e => e.isOpen && e.y == c) := by
  rw [List.filter_append]
  have h0 : [ne2].filter (fun e => e.isOpen && e.y == c) = [] := by
    simp
    intro _
    exact hne
  rw [h0, List.append_nil]

/-- Appending an open edge into a child with no open in-edge makes it the
unique open in-edge. -/
theorem filter_append_y_self (es : List (ERow Unit)) (ne2 : ERow Unit)
    (hopen : ne2.isOpen = true)
    (hnil : es.filter (fun e => e.isOpen && e.y == ne2.y) = []) :
    (es ++ [ne2]).filter (fun e => e.isOpen && e.y == ne2.y) = [ne2] := by
  rw [List.filter_append, hnil]
  simp [hopen]

/-- The graph pass of RoleCreated on a well-formed state with a fresh role
id preserves the depth invariant and assigns depth 0 without a parent,
parent depth plus one with one. -/
theorem roleCreated_depth (T : Int) (roleID : Nat) (pid : Option Nat) (rt : RoleType)
    (nm pp : String) (db db2 : DB)
    (hT : 0 < T)
    (hdinv : depthInvB T db = true)
    (hfresh : findOpenRole db roleID = none)
    (havoid : edgesAvoid roleID db.rolerole = true)
    (hrun : applyRoleCreatedGraph T T roleID pid rt nm pp db = .ok db2) :
    depthInvB T db2 = true ∧
    (∃ r, findOpenRole db2 roleID = some r ∧
      (pid = none → r.attrs.depth = 0) ∧
      (∀ q, pid = some q → ∃ pr, findOpenRole db q = some pr ∧
        r.attrs.depth = pr.attrs.depth + 1)) := by
  have havoid2 : ∀ e ∈ db.rolerole, e.isOpen = true → e.x ≠ roleID ∧ e.y ≠ roleID := by
    rw [edgesAvoid, List.all_eq_true] at havoid
    intro e he ho
    have h := havoid e he
    simp [ho] at h
    exact h
  have hfE : db.rolerole.filter (fun e => e.isOpen && e.y == roleID) = [] := by
    rw [List.filter_eq_nil_iff]
    intro e he hcon
    simp at hcon
    exact (havoid2 e he hcon.1).2 hcon.2
  have hfilterR : db.role.filter (fun r => r.isOpen && r.id == roleID) = [] := by
    rw [findOpenRole] at hfresh
    exact List.head?_eq_none_iff.mp hfresh
  have hold := (depthInvB_iff T db).mp hdinv
  cases pid with
  | none =>
      have h2 : DbOutcome.ok (insertRoleVertex T roleID ⟨rt, 0, nm, pp⟩ db) =
          DbOutcome.ok db2 := hrun
      cases h2
      -- the inserted state: same edges, role table extended by the new row
      have hQpres : ∀ c : Nat,
          roleParentQ T T c (insertRoleVertex T roleID ⟨rt, 0, nm, pp⟩ db) =
            roleParentQ T T c db := by
        intro c
        rw [roleParentQ, roleParentQ, roleParentPairs_TT, roleParentPairs_TT]
        congr 1
        refine flatMap_congr _ _ _ ?_
        intro e he
        obtain ⟨heE, ho, _⟩ := edgeFilter_mem db.rolerole c e he
        have hxne := (havoid2 e heE ho).1
        show (db.role ++ [(⟨roleID, T, none, ⟨rt, 0, nm, pp⟩⟩ : VRow RoleAttrs)]).filter
            (fun v => v.isOpen && v.id == e.x) =
          db.role.filter (fun v => v.isOpen && v.id == e.x)
        rw [List.filter_append]
        have hnil : [(⟨roleID, T, none, ⟨rt, 0, nm, pp⟩⟩ : VRow RoleAttrs)].filter
            (fun v => v.isOpen && v.id == e.x) = [] := by
          simp [VRow.isOpen]
          exact fun h => hxne h.symm
        rw [hnil, List.append_nil]
      have hfnew : findOpenRole (insertRoleVertex T roleID ⟨rt, 0, nm, pp⟩ db) roleID =
          some ⟨roleID, T, none, ⟨rt, 0, nm, pp⟩⟩ := by
        show ((db.role ++ [(⟨roleID, T, none, ⟨rt, 0, nm, pp⟩⟩ : VRow RoleAttrs)]).filter
          (fun r => r.isOpen && r.id == roleID)).head? = _
        rw [List.filter_append, hfilterR]
        simp [VRow.isOpen]
      refine ⟨?_, ⟨roleID, T, none, ⟨rt, 0, nm, pp⟩⟩, hfnew, fun _ => rfl,
        fun q hq => by cases hq⟩
      rw [depthInvB_iff]
      intro r hr hro
      have hr2 : r ∈ db.role ++ [(⟨roleID, T, none, ⟨rt, 0, nm, pp⟩⟩ : VRow RoleAttrs)] := hr
      rw [List.mem_append] at hr2
      cases hr2 with
      | inl hrold =>
          obtain ⟨hd0, hdiff, harm⟩ := hold r hrold hro
          rw [hQpres r.id]
          exact ⟨hd0, hdiff, harm⟩
      | inr hrnew =>
          have hrv : r = ⟨roleID, T, none, ⟨rt, 0, nm, pp⟩⟩ := by simpa using hrnew
          subst hrv
          rw [hQpres]
          have hqnil : roleParentQ T T
              (⟨roleID, T, none, (⟨rt, 0, nm, pp⟩ : RoleAttrs)⟩ : VRow RoleAttrs).id db =
              none := roleParentQ_TT_of_nil T roleID db hfE
          rw [hqnil]
          exact ⟨by simp, by simp, fun p hp => by cases hp⟩
  | some q =>
      have h1 : (match (match RoleInternal T T q db with
          | .panicked m => DbOutcome.panicked m
          | .failed m => .failed m
          | .ok none => .failed "role with id does not exist"
          | .ok (some prole) => .ok (prole.attrs.depth + 1) : DbOutcome Int) with
        | .panicked m => DbOutcome.panicked m
        | .failed m => .failed m
        | .ok depth => DbOutcome.ok (addRoleRoleEdge T q roleID
            (insertRoleVertex T roleID ⟨rt, depth, nm, pp⟩ db))) = .ok db2 := hrun
      split at h1
      · cases h1
      · cases h1
      · rename_i depth heq
        split at heq
        · rename_i m heq3
          cases heq
        · rename_i m heq3
          cases heq
        · rename_i heq3
          cases heq
        · rename_i prole heq3
          cases heq
          rw [RoleInternal_TT T hT q db] at heq3
          injection heq3 with hq2
          have h2 : DbOutcome.ok (addRoleRoleEdge T q roleID
              (insertRoleVertex T roleID ⟨rt, prole.attrs.depth + 1, nm, pp⟩ db)) =
              DbOutcome.ok db2 := h1
          cases h2
          have hqne : q ≠ roleID := by
            intro hqr
            rw [hqr, hfresh] at hq2
            cases hq2
          have hpr := findOpenRole_mem db q prole hq2
          have hprd := (hold prole hpr.1 hpr.2.1).1
          have hrr : (addRoleRoleEdge T q roleID (insertRoleVertex T roleID
              ⟨rt, prole.attrs.depth + 1, nm, pp⟩ db)).rolerole =
              db.rolerole ++ [(⟨T, none, q, roleID, ()⟩ : ERow Unit)] := rfl
          have hrl : (addRoleRoleEdge T q roleID (insertRoleVertex T roleID
              ⟨rt, prole.attrs.depth + 1, nm, pp⟩ db)).role =
              db.role ++ [(⟨roleID, T, none, ⟨rt, prole.attrs.depth + 1, nm, pp⟩⟩ :
                VRow RoleAttrs)] := rfl
          have hQpres : ∀ c, c ≠ roleID →
              roleParentQ T T c (addRoleRoleEdge T q roleID (insertRoleVertex T roleID
                ⟨rt, prole.attrs.depth + 1, nm, pp⟩ db)) = roleParentQ T T c db := by
            intro c hcne
            rw [roleParentQ, roleParentQ, roleParentPairs_TT, roleParentPairs_TT,
              hrr, hrl, filter_append_y_other db.rolerole _ c (Ne.symm hcne)]
            refine congrArg List.head? (flatMap_congr _ _ _ ?_)
            intro e he
            obtain ⟨heE, ho, _⟩ := edgeFilter_mem db.rolerole c e he
            have hxne := (havoid2 e heE ho).1
            exact filter_append_id_other db.role _ e.x (fun h => hxne h.symm)
          have hfnew : findOpenRole (addRoleRoleEdge T q roleID (insertRoleVertex T roleID
              ⟨rt, prole.attrs.depth + 1, nm, pp⟩ db)) roleID =
              some ⟨roleID, T, none, ⟨rt, prole.attrs.depth + 1, nm, pp⟩⟩ := by
            rw [findOpenRole, hrl, List.filter_append, hfilterR]
            simp [VRow.isOpen]
          have hfq : findOpenRole (addRoleRoleEdge T q roleID (insertRoleVertex T roleID
              ⟨rt, prole.attrs.depth + 1, nm, pp⟩ db)) q = some prole := by
            rw [findOpenRole, hrl, filter_append_id_other db.role _ q
              (fun h => hqne h.symm)]
            exact hq2
          have hone : (addRoleRoleEdge T q roleID (insertRoleVertex T roleID
              ⟨rt, prole.attrs.depth + 1, nm, pp⟩ db)).rolerole.filter
              (fun e => e.isOpen && e.y == roleID) = [(⟨T, none, q, roleID, ()⟩ : ERow Unit)] := by
            rw [hrr]
            exact filter_append_y_self db.rolerole (⟨T, none, q, roleID, ()⟩ : ERow Unit)
              (by simp [ERow.isOpen]) hfE
          have hQrole : roleParentQ T T roleID (addRoleRoleEdge T q roleID
              (insertRoleVertex T roleID ⟨rt, prole.attrs.depth + 1, nm, pp⟩ db)) =
              some prole := by
            rw [roleParentQ_TT_of_single T roleID _ _ hone]
            exact hfq
          refine ⟨?_, ⟨⟨roleID, T, none, ⟨rt, prole.attrs.depth + 1, nm, pp⟩⟩, hfnew,
            ⟨fun hno => Option.noConfusion hno, ?_⟩⟩⟩
          · rw [depthInvB_iff]
            intro r hr hro
            have hr2 : r ∈ db.role ++ [(⟨roleID, T, none,
                ⟨rt, prole.attrs.depth + 1, nm, pp⟩⟩ : VRow RoleAttrs)] := by
              rw [← hrl]
              exact hr
            rw [List.mem_append] at hr2
            cases hr2 with
            | inl hrold =>
                obtain ⟨hd0, hdiff, harm⟩ := hold r hrold hro
                have hrne : r.id ≠ roleID := findOpenRole_none db roleID hfresh r hrold hro
                rw [hQpres r.id hrne]
                exact ⟨hd0, hdiff, harm⟩
            | inr hrnew =>
                have hrv : r = ⟨roleID, T, none, ⟨rt, prole.attrs.depth + 1, nm, pp⟩⟩ := by
                  simpa using hrnew
                subst hrv
                rw [hQrole]
                refine ⟨by show (0 : Int) ≤ prole.attrs.depth + 1; omega,
                  iff_of_false (by show ¬(prole.attrs.depth + 1 = 0); omega) (by simp), ?_⟩
                intro p hp
                cases hp
                rfl
          · intro q2 hq2eq
            cases hq2eq
            exact ⟨prole, hq2, rfl⟩

/-! ## C2: invariant restoration after the rewiring of changeRoleParent -/

/-- Common core of the changeRoleParent analysis: once the edges are
rewired (db2), the role row rewritten with the recomputed depth and
updateChildsDepth has repainted the subtree (db4), the depth invariant
holds again and the moved role carries the recomputed depth. -/
theorem crp_assemble (T : Int) (fuel : Nat) (roleID : Nat) (npid : Option Nat)
    (db db2 db4 : DB) (role : VRow RoleAttrs) (newdepth : Int) (lvl : Nat → Int)
    (hpw : OpenRowsPW db)
    (hepw : OpenEdgesPW db.rolerole)
    (hold : ∀ r ∈ db.role, r.isOpen = true →
      (0 ≤ r.attrs.depth ∧
       ((r.attrs.depth = 0) ↔ roleParentQ T T r.id db = none) ∧
       (∀ p, roleParentQ T T r.id db = some p → r.attrs.depth = p.attrs.depth + 1)))
    (hstAll : ∀ r ∈ db.role, r.isOpen = true → r.start_tl ≤ T - 1)
    (heceDB : EdgeChildExists db)
    (hrole2 : db2.role = db.role)
    (hF2 : ∀ c, c ≠ roleID → db2.rolerole.filter (fun e => e.isOpen && e.y == c) =
      db.rolerole.filter (fun e => e.isOpen && e.y == c))
    (hF3 : (npid = none ∧ newdepth = 0 ∧
        db2.rolerole.filter (fun e => e.isOpen && e.y == roleID) = []) ∨
      (∃ np pr, npid = some np ∧ findOpenRole db np = some pr ∧
        newdepth = pr.attrs.depth + 1 ∧
        db2.rolerole.filter (fun e => e.isOpen && e.y == roleID) =
          [(⟨T, none, np, roleID, ()⟩ : ERow Unit)]))
    (hepw2 : OpenEdgesPW db2.rolerole)
    (hlvlE2 : LevelOk db2.rolerole lvl)
    (hF6 : ∀ e ∈ db2.rolerole, e.isOpen = true → e.y ≠ roleID →
      ∃ e2 ∈ db.rolerole, e2.isOpen = true ∧ e2.x = e.x ∧ e2.y = e.y)
    (hrun4 : updateChildsDepth fuel T T newdepth roleID
      (updateRoleVertex T T roleID { role.attrs with depth := newdepth } db2) = .ok db4) :
    depthInvB T db4 = true ∧
    (∃ r4, findOpenRole db4 roleID = some r4 ∧
      (npid = none → r4.attrs.depth = 0) ∧
      (∀ np, npid = some np → ∃ pr, findOpenRole db4 np = some pr ∧
        r4.attrs.depth = pr.attrs.depth + 1)) := by
  have hfdb2 : ∀ j, findOpenRole db2 j = findOpenRole db j := by
    intro j
    rw [findOpenRole, findOpenRole, hrole2]
  have hstAll2 : ∀ r ∈ db2.role, r.isOpen = true → r.start_tl ≤ T - 1 := by
    rw [hrole2]
    exact hstAll
  have hst1 : ∀ r ∈ db2.role, r.isOpen = true → r.id = roleID → r.start_tl ≤ T - 1 :=
    fun r hr ho _ => hstAll2 r hr ho
  have hpw2 : OpenRowsPW db2 := by
    unfold OpenRowsPW
    rw [hrole2]
    exact hpw
  have hpw3 : OpenRowsPW (updateRoleVertex T T roleID
      { role.attrs with depth := newdepth } db2) :=
    updateRole_pw T roleID _ db2 hpw2 hst1
  have hece3 : EdgeChildExists (updateRoleVertex T T roleID
      { role.attrs with depth := newdepth } db2) := by
    intro e he ho
    by_cases hy : e.y = roleID
    · rw [hy, findOpenRole_update_self T roleID _ db2 hst1]
      rfl
    · rw [findOpenRole_update_other T roleID e.y _ db2 hy, hfdb2]
      obtain ⟨e2, he2, ho2, hx2, hy2⟩ := hF6 e he ho hy
      rw [← hy2]
      exact heceDB e2 he2 ho2
  have hirr : ¬ ReachesOpen db2.rolerole roleID roleID :=
    reaches_irrefl db2.rolerole lvl hlvlE2 roleID
  have hstaleUCD : ∀ id, ReachesOpen db2.rolerole roleID id →
      StaleAt T (updateRoleVertex T T roleID
        { role.attrs with depth := newdepth } db2) id := by
    intro id hrch
    have hne : id ≠ roleID := (reaches_ne db2.rolerole ⟨lvl, hlvlE2⟩ roleID id hrch).symm
    obtain ⟨e, he, ho, hyz, _⟩ := reaches_last_edge db2.rolerole roleID id hrch
    obtain ⟨e2, he2, ho2, hx2, hy2⟩ := hF6 e he ho (by rw [hyz]; exact hne)
    have hsome := heceDB e2 he2 ho2
    obtain ⟨r, hrow⟩ : ∃ r, findOpenRole db e2.y = some r := by
      cases hf : findOpenRole db e2.y with
      | none => rw [hf] at hsome; cases hsome
      | some r => exact ⟨r, rfl⟩
    obtain ⟨hmem, hopen, _⟩ := findOpenRole_mem db e2.y r hrow
    refine ⟨r, ?_, hstAll r hmem hopen⟩
    rw [findOpenRole_update_other T roleID id _ db2 hne, hfdb2]
    rw [hy2, hyz] at hrow
    exact hrow
  obtain ⟨hN1, hN2, hN3, hN4, hN5, hN6⟩ :=
    (ucd_spec_all fuel).1 T newdepth roleID _ db4 hrun4 hpw3 hepw2 hece3
      ⟨lvl, hlvlE2⟩ hstaleUCD
  have hrr4 : db4.rolerole = db2.rolerole := hN1
  have hf4role : findOpenRole db4 roleID =
      some ⟨roleID, T, none, { role.attrs with depth := newdepth }⟩ := by
    rw [hN2 roleID hirr]
    exact findOpenRole_update_self T roleID _ db2 hst1
  have hframe : ∀ id, id ≠ roleID → ¬ ReachesOpen db2.rolerole roleID id →
      findOpenRole db4 id = findOpenRole db id := by
    intro id hne hnr
    rw [hN2 id hnr, findOpenRole_update_other T roleID id _ db2 hne, hfdb2]
  -- the recomputed depth is nonnegative; parent lookup facts at roleID
  have hkey : (roleParentQ T T roleID db4 = none ∧ npid = none ∧ newdepth = 0) ∨
      (∃ np pr, npid = some np ∧ roleParentQ T T roleID db4 = some pr ∧
        findOpenRole db4 np = some pr ∧ newdepth = pr.attrs.depth + 1 ∧
        0 ≤ pr.attrs.depth) := by
    rcases hF3 with ⟨hpid, hnd, hfnil⟩ | ⟨np, pr, hpid, hprf, hnd, hfone⟩
    · exact .inl ⟨roleParentQ_TT_of_nil T roleID db4 (by rw [hrr4]; exact hfnil),
        hpid, hnd⟩
    · have hneMem : (⟨T, none, np, roleID, ()⟩ : ERow Unit) ∈ db2.rolerole := by
        have hm : (⟨T, none, np, roleID, ()⟩ : ERow Unit) ∈
            db2.rolerole.filter (fun e => e.isOpen && e.y == roleID) := by
          rw [hfone]
          simp
        exact (List.mem_filter.mp hm).1
      have hlvlnew : lvl roleID = lvl np + 1 :=
        hlvlE2 (⟨T, none, np, roleID, ()⟩ : ERow Unit) hneMem (by simp [ERow.isOpen])
      have hnpne : np ≠ roleID := by
        intro h
        rw [h] at hlvlnew
        omega
      have hnpnr : ¬ ReachesOpen db2.rolerole roleID np := by
        intro hr2
        have := reaches_lvl db2.rolerole lvl hlvlE2 roleID np hr2
        omega
      have hf4np : findOpenRole db4 np = some pr := by
        rw [hframe np hnpne hnpnr]
        exact hprf
      obtain ⟨hmemp, hopenp, _⟩ := findOpenRole_mem db np pr hprf
      have hprd := (hold pr hmemp hopenp).1
      refine .inr ⟨np, pr, hpid, ?_, hf4np, hnd, hprd⟩
      rw [roleParentQ_TT_of_single T roleID db4 (⟨T, none, np, roleID, ()⟩ : ERow Unit)
        (by rw [hrr4]; exact hfone)]
      exact hf4np
  have hnn : 0 ≤ newdepth := by
    rcases hkey with ⟨_, _, h⟩ | ⟨np, pr, _, _, _, h1, h2⟩
    · omega
    · omega
  constructor
  · -- the depth invariant at db4
    rw [depthInvB_iff]
    intro r hr hro
    have hfr : findOpenRole db4 r.id = some r := findOpenRole_eq_of_mem db4 hN5 r hr hro
    by_cases hid : r.id = roleID
    · -- the moved role itself
      rw [hid, hf4role] at hfr
      injection hfr with hrv
      have hrd : r.attrs.depth = newdepth := by rw [← hrv]
      have hq4 : roleParentQ T T r.id db4 = roleParentQ T T roleID db4 := by rw [hid]
      rcases hkey with ⟨hqnil, _, hndz⟩ | ⟨np, pr, hpid, hqone, hf4np, hndp, hprd⟩
      · rw [hq4, hqnil]
        refine ⟨by omega, iff_of_true (by omega) rfl, ?_⟩
        intro p hp
        cases hp
      · rw [hq4, hqone]
        refine ⟨by omega, iff_of_false (by omega) (by simp), ?_⟩
        intro p hp
        cases hp
        omega
    · by_cases hreach : ReachesOpen db2.rolerole roleID r.id
      · -- a strict descendant of the moved role
        obtain ⟨e, he, ho, hyz, hxor⟩ := reaches_last_edge db2.rolerole roleID r.id hreach
        have hepw4 : OpenEdgesPW db4.rolerole := by
          rw [hrr4]
          exact hepw2
        have hef : e ∈ db4.rolerole.filter (fun x => x.isOpen && x.y == r.id) := by
          rw [hrr4]
          exact List.mem_filter.mpr ⟨he, by simp [ho, hyz]⟩
        rcases edgeFilter_cases db4.rolerole hepw4 r.id with hnil4 | ⟨e4, hone4⟩
        · rw [hnil4] at hef
          simp at hef
        · have heq4 : e = e4 := by
            rw [hone4] at hef
            simpa using hef
          subst heq4
          have hq4 : roleParentQ T T r.id db4 = findOpenRole db4 e.x :=
            roleParentQ_TT_of_single T r.id db4 e hone4
          cases hxor with
          | inl hxr =>
              obtain ⟨r2, hfr2, hd2⟩ := hN3 e he ho hxr
              rw [hyz, hfr] at hfr2
              injection hfr2 with hr2v
              have hrd : r.attrs.depth = newdepth + 1 := by
                rw [hr2v]
                exact hd2
              rw [hq4, hxr, hf4role]
              refine ⟨by omega, iff_of_false (by omega) (by simp), ?_⟩
              intro p hp
              injection hp with hpv
              rw [← hpv, hrd]
          | inr hrx =>
              obtain ⟨r2, px, hfy, hfx, hlink⟩ := hN4 e he ho hrx
              rw [hyz, hfr] at hfy
              injection hfy with hr2v
              have hrd : r.attrs.depth = px.attrs.depth + 1 := by
                rw [hr2v]
                exact hlink
              obtain ⟨rx4, hfx4, hdx4⟩ :=
                reach_depth_chain db2.rolerole db4 roleID newdepth hN3 hN4 e.x hrx
              rw [hfx] at hfx4
              injection hfx4 with hrx4v
              rw [← hrx4v] at hdx4
              rw [hq4, hfx]
              refine ⟨by omega, iff_of_false (by omega) (by simp), ?_⟩
              intro p hp
              injection hp with hpv
              rw [← hpv]
              exact hrd
      · -- a role untouched by the move
        have hf4 : findOpenRole db4 r.id = findOpenRole db r.id := hframe r.id hid hreach
        have hfdb : findOpenRole db r.id = some r := by
          rw [← hf4]
          exact hfr
        obtain ⟨hmem, hopen, _⟩ := findOpenRole_mem db r.id r hfdb
        obtain ⟨hd0, hdiff, harm⟩ := hold r hmem hro
        have hfilter_eq : db4.rolerole.filter (fun e => e.isOpen && e.y == r.id) =
            db.rolerole.filter (fun e => e.isOpen && e.y == r.id) := by
          rw [hrr4]
          exact hF2 r.id hid
        rcases edgeFilter_cases db.rolerole hepw r.id with hnilD | ⟨eD, honeD⟩
        · have hq4 : roleParentQ T T r.id db4 = none :=
            roleParentQ_TT_of_nil T r.id db4 (by rw [hfilter_eq]; exact hnilD)
          have hqD : roleParentQ T T r.id db = none :=
            roleParentQ_TT_of_nil T r.id db hnilD
          rw [hq4]
          rw [hqD] at hdiff harm
          exact ⟨hd0, hdiff, harm⟩
        · have heDmem : eD ∈ db.rolerole.filter (fun e => e.isOpen && e.y == r.id) := by
            rw [honeD]
            simp
          obtain ⟨heDE, hoD, hyD⟩ := edgeFilter_mem db.rolerole r.id eD heDmem
          have heD2 : eD ∈ db2.rolerole := by
            have hm2 : eD ∈ db2.rolerole.filter (fun e => e.isOpen && e.y == r.id) := by
              rw [hF2 r.id hid, honeD]
              simp
            exact (List.mem_filter.mp hm2).1
          have hxne : eD.x ≠ roleID := by
            intro hx
            apply hreach
            rw [← hyD, ← hx]
            exact .base eD heD2 hoD
          have hxnr : ¬ ReachesOpen db2.rolerole roleID eD.x := by
            intro hrr2
            apply hreach
            rw [← hyD]
            exact .tail roleID eD hrr2 heD2 hoD
          have hq4 : roleParentQ T T r.id db4 = findOpenRole db4 eD.x :=
            roleParentQ_TT_of_single T r.id db4 eD (by rw [hfilter_eq]; exact honeD)
          have hqD : roleParentQ T T r.id db = findOpenRole db eD.x :=
            roleParentQ_TT_of_single T r.id db eD honeD
          have hfx : findOpenRole db4 eD.x = findOpenRole db eD.x :=
            hframe eD.x hxne hxnr
          rw [hq4, hfx]
          rw [hqD] at hdiff harm
          exact ⟨hd0, hdiff, harm⟩
  · -- the moved role carries the recomputed depth
    refine ⟨⟨roleID, T, none, { role.attrs with depth := newdepth }⟩, hf4role, ?_, ?_⟩
    · intro hnone
      rcases hkey with ⟨_, _, hndz⟩ | ⟨np, pr, hpid, _, _, _, _⟩
      · exact hndz
      · rw [hpid] at hnone
        cases hnone
    · intro np2 hsome
      rcases hkey with ⟨_, hpid, _⟩ | ⟨np, pr, hpid, _, hf4np, hndp, _⟩
      · rw [hpid] at hsome
        cases hsome
      · rw [hpid] at hsome
        injection hsome with hnpv
        rw [← hnpv]
        exact ⟨pr, hf4np, hndp⟩

/-- changeRoleParent at the current timeline on a well-formed stale state:
a normal completion restores the depth invariant and gives the moved role
depth 0 without a new parent, new-parent depth plus one with one. -/
theorem crp_depth_preserved (T : Int) (fuel : Nat) (roleID : Nat) (npid : Option Nat)
    (db db4 : DB)
    (hT : 0 < T - 1)
    (hu1 : openRoleIdsUnique db.role = true)
    (hu2 : openInEdgesUnique db.rolerole = true)
    (hrs : rowsStale T db.role = true)
    (hes : edgesStale T db.rolerole = true)
    (hrc : rowsClosedOld T db.role = true)
    (hec : edgesClosedOld T db.rolerole = true)
    (hend : edgeEndpointsOpen db = true)
    (hdinv : depthInvB T db = true)
    (hlvl : ∃ lvl : Nat → Int,
      (∀ e ∈ db.rolerole, e.isOpen = true → e.y ≠ roleID → lvl e.y = lvl e.x + 1) ∧
      (∀ np, npid = some np → lvl roleID = lvl np + 1))
    (hrun : changeRoleParent fuel T T roleID npid db = .ok db4) :
    depthInvB T db4 = true ∧
    (∃ r4, findOpenRole db4 roleID = some r4 ∧
      (npid = none → r4.attrs.depth = 0) ∧
      (∀ np, npid = some np → ∃ pr, findOpenRole db4 np = some pr ∧
        r4.attrs.depth = pr.attrs.depth + 1)) := by
  have hT0 : (0 : Int) < T := by omega
  have hpw : OpenRowsPW db := openRoleIdsUnique_pw db hu1
  have hepw : OpenEdgesPW db.rolerole := openInEdgesUnique_pw db.rolerole hu2
  have hold := (depthInvB_iff T db).mp hdinv
  have hstAll : ∀ r ∈ db.role, r.isOpen = true → r.start_tl ≤ T - 1 := by
    have hrs2 := hrs
    rw [rowsStale, List.all_eq_true] at hrs2
    intro r hr hro
    have h := hrs2 r hr
    simp [hro] at h
    exact h
  have heceDB : EdgeChildExists db := by
    have hend2 := hend
    rw [edgeEndpointsOpen, List.all_eq_true] at hend2
    intro e he ho
    have h := hend2 e he
    simp [ho] at h
    exact h.2
  obtain ⟨lvl, hl1, hl2⟩ := hlvl
  unfold changeRoleParent at hrun
  split at hrun
  · rename_i m heq
    rw [RoleParentInternal1_pos T (T - 1) hT roleID db] at heq
    cases heq
  · rename_i m heq
    rw [RoleParentInternal1_pos T (T - 1) hT roleID db] at heq
    cases heq
  · rename_i curParent heq
    rw [RoleParentInternal1_pos T (T - 1) hT roleID db] at heq
    cases heq
    rcases roleParentQ_prev_cases T roleID db hrs hes hrc hec hepw hend with
      ⟨hnilE, hq⟩ | ⟨e0, p, honeE, hpfind, hq⟩
    · -- the role had no parent edge; the close is skipped
      rw [hq] at hrun
      have hlv2base : LevelOk db.rolerole lvl := by
        intro e he ho
        have hy : e.y ≠ roleID := by
          intro hy
          have hm : e ∈ db.rolerole.filter (fun x => x.isOpen && x.y == roleID) :=
            List.mem_filter.mpr ⟨he, by simp [ho, hy]⟩
          rw [hnilE] at hm
          simp at hm
        exact hl1 e he ho hy
      cases npid with
      | none =>
          have hrun2 : (match RoleInternal T T roleID db with
            | .panicked m => DbOutcome.panicked m
            | .failed m => .failed m
            | .ok none => .failed "role with id does not exist"
            | .ok (some role) =>
                updateChildsDepth fuel T T 0 roleID
                  (updateRoleVertex T T roleID { role.attrs with depth := 0 } db)) =
              .ok db4 := hrun
          split at hrun2
          · cases hrun2
          · cases hrun2
          · cases hrun2
          · rename_i role heq2
            exact crp_assemble T fuel roleID none db db db4 role 0 lvl hpw hepw hold
              hstAll heceDB rfl (fun c hc => rfl) (.inl ⟨rfl, rfl, hnilE⟩) hepw
              hlv2base (fun e he ho hy => ⟨e, he, ho, rfl, rfl⟩) hrun2
      | some np =>
          have hrun2 : (match RoleInternal T T roleID (addRoleRoleEdge T np roleID db) with
            | .panicked m => DbOutcome.panicked m
            | .failed m => .failed m
            | .ok none => .failed "role with id does not exist"
            | .ok (some role) =>
                match (match RoleInternal T T np (addRoleRoleEdge T np roleID db) with
                  | .panicked m => DbOutcome.panicked m
                  | .failed m => .failed m
                  | .ok none => DbOutcome.panicked "nil pointer dereference"
                  | .ok (some newParent) => DbOutcome.ok (newParent.attrs.depth + 1) :
                    DbOutcome Int) with
                | .panicked m => DbOutcome.panicked m
                | .failed m => .failed m
                | .ok depth =>
                    updateChildsDepth fuel T T depth roleID
                      (updateRoleVertex T T roleID { role.attrs with depth := depth }
                        (addRoleRoleEdge T np roleID db))) = .ok db4 := hrun
          split at hrun2
          · cases hrun2
          · cases hrun2
          · cases hrun2
          · rename_i role heq2
            split at hrun2
            · cases hrun2
            · cases hrun2
            · rename_i depth heq3
              split at heq3
              · cases heq3
              · cases heq3
              · cases heq3
              · rename_i newParent heq4
                cases heq3
                rw [RoleInternal_TT T hT0 np (addRoleRoleEdge T np roleID db)] at heq4
                injection heq4 with hnpfind
                have hnpfind2 : findOpenRole db np = some newParent := hnpfind
                have hrr2 : (addRoleRoleEdge T np roleID db).rolerole =
                    db.rolerole ++ [(⟨T, none, np, roleID, ()⟩ : ERow Unit)] := rfl
                have hlv2 : LevelOk (db.rolerole ++
                    [(⟨T, none, np, roleID, ()⟩ : ERow Unit)]) lvl := by
                  intro e he ho
                  rw [List.mem_append] at he
                  cases he with
                  | inl heE => exact hlv2base e heE ho
                  | inr hne2 =>
                      have he2 : e = ⟨T, none, np, roleID, ()⟩ := by simpa using hne2
                      rw [he2]
                      exact hl2 np rfl
                have hF6 : ∀ e ∈ db.rolerole ++ [(⟨T, none, np, roleID, ()⟩ : ERow Unit)],
                    e.isOpen = true → e.y ≠ roleID →
                    ∃ e2 ∈ db.rolerole, e2.isOpen = true ∧ e2.x = e.x ∧ e2.y = e.y := by
                  intro e he ho hy
                  rw [List.mem_append] at he
                  cases he with
                  | inl heE => exact ⟨e, heE, ho, rfl, rfl⟩
                  | inr hne2 =>
                      have he2 : e = ⟨T, none, np, roleID, ()⟩ := by simpa using hne2
                      rw [he2] at hy
                      exact absurd rfl hy
                refine crp_assemble T fuel roleID (some np) db
                  (addRoleRoleEdge T np roleID db) db4 role
                  (newParent.attrs.depth + 1) lvl hpw hepw hold hstAll heceDB rfl
                  ?_ ?_ ?_ hlv2 hF6 hrun2
                · intro c hc
                  rw [hrr2]
                  exact filter_append_y_other db.rolerole _ c (Ne.symm hc)
                · refine .inr ⟨np, newParent, rfl, hnpfind2, rfl, ?_⟩
                  rw [hrr2]
                  exact filter_append_y_self db.rolerole
                    (⟨T, none, np, roleID, ()⟩ : ERow Unit) (by simp [ERow.isOpen]) hnilE
                · rw [hrr2]
                  exact openEdgesPW_append_new db.rolerole _ hepw hnilE
    · -- the current parent edge e0 is closed first
      rw [hq] at hrun
      obtain ⟨hpmem, hpopen, hpid_eq⟩ := findOpenRole_mem db e0.x p hpfind
      have he0mem2 : e0 ∈ db.rolerole.filter (fun e => e.isOpen && e.y == roleID) := by
        rw [honeE]
        simp
      obtain ⟨he0E, he0o, he0y⟩ := edgeFilter_mem db.rolerole roleID e0 he0mem2
      have hclose_nil : (closeEdgeRows T (T - 1) p.id roleID db.rolerole).filter
          (fun e => e.isOpen && e.y == roleID) = [] := by
        rw [hpid_eq, ← he0y]
        exact closeEdgeRows_filter_y_self T e0 db.rolerole hes (by rw [he0y]; exact honeE)
      have hcpw : OpenEdgesPW (closeEdgeRows T (T - 1) p.id roleID db.rolerole) :=
        closeEdgeRows_pw T p.id roleID db.rolerole hepw
      have hcorig := closeEdgeRows_mem_orig T p.id roleID db.rolerole
      have hclv : LevelOk (closeEdgeRows T (T - 1) p.id roleID db.rolerole) lvl := by
        intro e he ho
        obtain ⟨e2, he2, ho2, hx2, hy2⟩ := hcorig e he ho
        have hy : e.y ≠ roleID := by
          intro hy
          have hm : e ∈ (closeEdgeRows T (T - 1) p.id roleID db.rolerole).filter
              (fun x => x.isOpen && x.y == roleID) :=
            List.mem_filter.mpr ⟨he, by simp [ho, hy]⟩
          rw [hclose_nil] at hm
          simp at hm
        rw [← hx2, ← hy2]
        exact hl1 e2 he2 ho2 (by rw [hy2]; exact hy)
      cases npid with
      | none =>
          have hrun2 : (match RoleInternal T T roleID
              (deleteRoleRoleEdge T T p.id roleID db) with
            | .panicked m => DbOutcome.panicked m
            | .failed m => .failed m
            | .ok none => .failed "role with id does not exist"
            | .ok (some role) =>
                updateChildsDepth fuel T T 0 roleID
                  (updateRoleVertex T T roleID { role.attrs with depth := 0 }
                    (deleteRoleRoleEdge T T p.id roleID db))) = .ok db4 := hrun
          split at hrun2
          · cases hrun2
          · cases hrun2
          · cases hrun2
          · rename_i role heq2
            exact crp_assemble T fuel roleID none db
              (deleteRoleRoleEdge T T p.id roleID db) db4 role 0 lvl hpw hepw hold
              hstAll heceDB rfl
              (fun c hc => closeEdgeRows_filter_y_other T p.id roleID c db.rolerole hc)
              (.inl ⟨rfl, rfl, hclose_nil⟩) hcpw hclv
              (fun e he ho hy => hcorig e he ho) hrun2
      | some np =>
          have hrun2 : (match RoleInternal T T roleID
              (addRoleRoleEdge T np roleID (deleteRoleRoleEdge T T p.id roleID db)) with
            | .panicked m => DbOutcome.panicked m
            | .failed m => .failed m
            | .ok none => .failed "role with id does not exist"
            | .ok (some role) =>
                match (match RoleInternal T T np
                    (addRoleRoleEdge T np roleID (deleteRoleRoleEdge T T p.id roleID db)) with
                  | .panicked m => DbOutcome.panicked m
                  | .failed m => .failed m
                  | .ok none => DbOutcome.panicked "nil pointer dereference"
                  | .ok (some newParent) => DbOutcome.ok (newParent.attrs.depth + 1) :
                    DbOutcome Int) with
                | .panicked m => DbOutcome.panicked m
                | .failed m => .failed m
                | .ok depth =>
                    updateChildsDepth fuel T T depth roleID
                      (updateRoleVertex T T roleID { role.attrs with depth := depth }
                        (addRoleRoleEdge T np roleID
                          (deleteRoleRoleEdge T T p.id roleID db)))) = .ok db4 := hrun
          split at hrun2
          · cases hrun2
          · cases hrun2
          · cases hrun2
          · rename_i role heq2
            split at hrun2
            · cases hrun2
            · cases hrun2
            · rename_i depth heq3
              split at heq3
              · cases heq3
              · cases heq3
              · cases heq3
              · rename_i newParent heq4
                cases heq3
                rw [RoleInternal_TT T hT0 np (addRoleRoleEdge T np roleID
                  (deleteRoleRoleEdge T T p.id roleID db))] at heq4
                injection heq4 with hnpfind
                have hnpfind2 : findOpenRole db np = some newParent := hnpfind
                have hrr2 : (addRoleRoleEdge T np roleID
                    (deleteRoleRoleEdge T T p.id roleID db)).rolerole =
                    closeEdgeRows T (T - 1) p.id roleID db.rolerole ++
                      [(⟨T, none, np, roleID, ()⟩ : ERow Unit)] := rfl
                have hlv2 : LevelOk (closeEdgeRows T (T - 1) p.id roleID db.rolerole ++
                    [(⟨T, none, np, roleID, ()⟩ : ERow Unit)]) lvl := by
                  intro e he ho
                  rw [List.mem_append] at he
                  cases he with
                  | inl heE => exact hclv e heE ho
                  | inr hne2 =>
                      have he2 : e = ⟨T, none, np, roleID, ()⟩ := by simpa using hne2
                      rw [he2]
                      exact hl2 np rfl
                have hF6 : ∀ e ∈ closeEdgeRows T (T - 1) p.id roleID db.rolerole ++
                    [(⟨T, none, np, roleID, ()⟩ : ERow Unit)],
                    e.isOpen = true → e.y ≠ roleID →
                    ∃ e2 ∈ db.rolerole, e2.isOpen = true ∧ e2.x = e.x ∧ e2.y = e.y := by
                  intro e he ho hy
                  rw [List.mem_append] at he
                  cases he with
                  | inl heE => exact hcorig e heE ho
                  | inr hne2 =>
                      have he2 : e = ⟨T, none, np, roleID, ()⟩ := by simpa using hne2
                      rw [he2] at hy
                      exact absurd rfl hy
                refine crp_assemble T fuel roleID (some np) db
                  (addRoleRoleEdge T np roleID (deleteRoleRoleEdge T T p.id roleID db))
                  db4 role (newParent.attrs.depth + 1) lvl hpw hepw hold hstAll heceDB rfl
                  ?_ ?_ ?_ hlv2 hF6 hrun2
                · intro c hc
                  rw [hrr2, filter_append_y_other _ _ c (Ne.symm hc)]
                  exact closeEdgeRows_filter_y_other T p.id roleID c db.rolerole hc
                · refine .inr ⟨np, newParent, rfl, hnpfind2, rfl, ?_⟩
                  rw [hrr2]
                  exact filter_append_y_self _
                    (⟨T, none, np, roleID, ()⟩ : ERow Unit) (by simp [ERow.isOpen])
                    hclose_nil
                · rw [hrr2]
                  exact openEdgesPW_append_new _ _ hcpw hclose_nil

/-- C2: the depth invariant of live roles.  On every state satisfying the
temporal and uniqueness invariants together with the depth invariant
(depth 0 exactly for parentless live roles, else parent depth plus one),
both depth-writing event appliers preserve it: the RoleCreated graph pass
gives the new role depth 0 without a parent and parent depth plus one with
one, and a normally completing changeRoleParent recomputes the moved
role's depth from its new parent (0 when it becomes parentless) and
recursively repaints all descendants, so the invariant holds again at the
new state. -/
theorem c2_depth_invariant :
    (∀ (T : Int) (roleID : Nat) (pid : Option Nat) (rt : RoleType) (nm pp : String)
      (db db2 : DB),
      0 < T →
      depthInvB T db = true →
      findOpenRole db roleID = none →
      edgesAvoid roleID db.rolerole = true →
      applyRoleCreatedGraph T T roleID pid rt nm pp db = .ok db2 →
      depthInvB T db2 = true ∧
      (∃ r, findOpenRole db2 roleID = some r ∧
        (pid = none → r.attrs.depth = 0) ∧
        (∀ q, pid = some q → ∃ pr, findOpenRole db q = some pr ∧
          r.attrs.depth = pr.attrs.depth + 1))) ∧
    (∀ (T : Int) (fuel : Nat) (roleID : Nat) (npid : Option Nat) (db db4 : DB),
      0 < T - 1 →
      openRoleIdsUnique db.role = true →
      openInEdgesUnique db.rolerole = true →
      rowsStale T db.role = true →
      edgesStale T db.rolerole = true →
      rowsClosedOld T db.role = true →
      edgesClosedOld T db.rolerole = true →
      edgeEndpointsOpen db = true →
      depthInvB T db = true →
      (∃ lvl : Nat → Int,
        (∀ e ∈ db.rolerole, e.isOpen = true → e.y ≠ roleID → lvl e.y = lvl e.x + 1) ∧
        (∀ np, npid = some np → lvl roleID = lvl np + 1)) →
      changeRoleParent fuel T T roleID npid db = .ok db4 →
      depthInvB T db4 = true ∧
      (∃ r4, findOpenRole db4 roleID = some r4 ∧
        (npid = none → r4.attrs.depth = 0) ∧
        (∀ np, npid = some np → ∃ pr, findOpenRole db4 np = some pr ∧
          r4.attrs.depth = pr.attrs.depth + 1))) :=
  ⟨fun T roleID pid rt nm pp db db2 hT hdinv hfresh havoid hrun =>
    roleCreated_depth T roleID pid rt nm pp db db2 hT hdinv hfresh havoid hrun,
   fun T fuel roleID npid db db4 hT hu1 hu2 hrs hes hrc hec hend hdinv hlvl hrun =>
    crp_depth_preserved T fuel roleID npid db db4 hT hu1 hu2 hrs hes hrc hec hend
      hdinv hlvl hrun⟩

/-- Witness for C2: creating child 5 under circle 1 in commit 2 yields a
state satisfying the depth invariant with the child at depth 1, and moving
role 2 under role 3 in commit 2 yields a state satisfying the depth
invariant with role 2 at its new parent depth plus one. -/
theorem c2_depth_invariant_witness :
    applyRoleCreatedGraph 2 2 5 (some 1) .circle "Child" "" c3db0 = .ok c3db1 ∧
    depthInvB 2 c3db1 = true ∧
    (∃ r, findOpenRole c3db1 5 = some r ∧ r.attrs.depth = 1) ∧
    changeRoleParent 10 2 2 2 (some 3) c2db = .ok c2dbMoved ∧
    depthInvB 2 c2dbMoved = true ∧
    (∃ r4 pr, findOpenRole c2dbMoved 2 = some r4 ∧ findOpenRole c2dbMoved 3 = some pr ∧
      r4.attrs.depth = pr.attrs.depth + 1) := by
  have hrunC : applyRoleCreatedGraph 2 2 5 (some 1) .circle "Child" "" c3db0 =
      .ok c3db1 := by decide
  have hrunP : changeRoleParent 10 2 2 2 (some 3) c2db = .ok c2dbMoved := by decide
  obtain ⟨hinvC, r, hfr, _, hdsome⟩ := c2_depth_invariant.1 2 5 (some 1) .circle
    "Child" "" c3db0 c3db1 (by decide) (by decide) (by decide) (by decide) hrunC
  obtain ⟨pr, hpr, hdep⟩ := hdsome 1 rfl
  obtain ⟨hinvP, r4, hfr4, _, hsome4⟩ := c2_depth_invariant.2 2 10 2 (some 3) c2db
    c2dbMoved (by decide) (by decide) (by decide) (by decide) (by decide) (by decide)
    (by decide) (by decide) (by decide)
    ⟨fun x => if x = 2 then 2 else if x = 3 then 1 else 0, by decide, by decide⟩ hrunP
  obtain ⟨pr4, hpr4, hdep4⟩ := hsome4 3 rfl
  refine ⟨hrunC, hinvC, ⟨r, hfr, ?_⟩, hrunP, hinvP, ⟨r4, pr4, hfr4, hpr4, hdep4⟩⟩
  have hpr1 : findOpenRole c3db0 1 =
      some ⟨1, 1, none, ⟨.circle, 0, "General", ""⟩⟩ := by decide
  rw [hpr1] at hpr
  injection hpr with hprv
  rw [hdep, ← hprv]
  decide

end Sircles
